import Mathlib

/-!
# Kinetic path sampling: a shallow embedding of `kps.cpp`

The C++ class `KPS` works on transition networks made of nodes and directed
edges that are linked by raw pointers.  The embedding replaces every pointer by
a position in the node or edge sequence of the network it points into:

* a `Node*` is the position of the node in `Network.nodes`;
* an `Edge*` is the position of the edge in `Network.edges`;
* the intrusive list `top_from, next_from, next_from, ...` of a node is the list
  of edge positions `Node.top_from`, head first (`top_to` likewise);
* `rev_edge = none` is a pointer that does not refer into the edge sequence of
  the network that holds the edge (null, or left pointing into another network
  by a copy);
* `double` is exact rational arithmetic, `int` counters that only count up from
  zero are natural numbers, the parameters `nelim`, `n_abpaths` and `maxit` are
  integers;
* `std::map<int, V>` is an association list kept in increasing key order;
* random draws are read from the streams of an `Oracle`, indexed by the number
  of earlier calls of the sampler;
* a fallible function returns `Except Failure`: an exception, a call of
  `exit(EXIT_FAILURE)` and each undefined behaviour that is modelled (reading
  the uninitialised pointer `next_node`, indexing a node vector past its end)
  is a `Failure` of its own, and a loop that need not terminate is given a
  budget of passes.
-/

namespace KPS

/-! ## Data model -/

/-- Node of a transition network (declared in `kmc_methods.h`). -/
structure Node where
  node_id : Nat := 0
  comm_id : Int := 0
  aorb : Int := 0
  udeg : Nat := 0
  pi : ℚ := 0
  t : ℚ := 0
  eliminated : Bool := false
  flag : Bool := false
  top_from : List Nat := []
  top_to : List Nat := []
deriving DecidableEq, Inhabited

/-- Directed edge of a transition network (declared in `kmc_methods.h`). -/
structure Edge where
  t : ℚ := 0
  deadts : Bool := false
  edge_pos : Nat := 0
  from_node : Nat := 0
  to_node : Nat := 0
  rev_edge : Option Nat := none
deriving DecidableEq, Inhabited

/-- Transition network: node sequence, edge sequence, the two counters and the
source macrostate B (positions of its nodes, in iteration order). -/
structure Network where
  nodes : List Node := []
  edges : List Edge := []
  n_nodes : Nat := 0
  n_edges : Nat := 0
  nodesB : List Nat := []
deriving DecidableEq, Inhabited

/-- The node at position `i` (`ktn.nodes[i]`). -/
def Network.node (ktn : Network) (i : Nat) : Node := ktn.nodes.getD i default

/-- The edge at position `i` (`ktn.edges[i]`). -/
def Network.edge (ktn : Network) (i : Nat) : Edge := ktn.edges.getD i default

/-- Apply `f` to the entry at position `i` of a sequence (`v[i] = f(v[i])`). -/
def updAt {α : Type} (f : α → α) : Nat → List α → List α
  | _, [] => []
  | 0, a :: l => f a :: l
  | i + 1, a :: l => a :: updAt f i l

/-- Write through a `Node*`: replace node `i` by `f` of it. -/
def Network.updNode (ktn : Network) (i : Nat) (f : Node → Node) : Network :=
  { ktn with nodes := updAt f i ktn.nodes }

/-- Write through an `Edge*`: replace edge `i` by `f` of it. -/
def Network.updEdge (ktn : Network) (i : Nat) (f : Edge → Edge) : Network :=
  { ktn with edges := updAt f i ktn.edges }

/-- Modelled from the spec: the constructor `Network(nnodes, nedges)` of the
network class, whose source is not part of `kps.cpp`: a network of `nnodes`
default nodes with the two counters set; the edge sequence is sized by the
caller. -/
def Network.mk_sized (nnodes nedges : Nat) : Network :=
  { nodes := List.replicate nnodes default, edges := [], n_nodes := nnodes, n_edges := nedges }

/-- Modelled from the spec: `Network::add_from_edge(i, j)`, whose source is not
part of `kps.cpp`: edge `j` becomes the head of the outgoing adjacency list of
node `i`. -/
def Network.add_from_edge (ktn : Network) (i j : Nat) : Network :=
  ktn.updNode i (fun n => { n with top_from := j :: n.top_from })

/-- Modelled from the spec: `Network::add_to_edge(i, j)`, whose source is not
part of `kps.cpp`: edge `j` becomes the head of the incoming adjacency list of
node `i`. -/
def Network.add_to_edge (ktn : Network) (i j : Nat) : Network :=
  ktn.updNode i (fun n => { n with top_to := j :: n.top_to })

/-- Modelled from the spec: assignment of a node into another network
(`ktnptr->nodes[j-1] = ktn.nodes[i]`), whose operator is declared outside
`kps.cpp`: every data field is copied, the adjacency lists of the copy are
empty (a copied node is copied without its edges). -/
def Node.copy (n : Node) : Node := { n with top_from := [], top_to := [] }

/-- Assignment of an edge into another network (`ktnptr->edges[m] = *edgeptr`):
the data fields are copied; the reverse pointer of the copy does not refer into
the new network. -/
def Edge.copy (e : Edge) : Edge := { e with rev_edge := none }

/-! ## Ordered maps (`std::map<int, V>`) -/

/-- The assignment `m[k] = v` on a map kept in increasing key order. -/
def map_set {β : Type} : List (Nat × β) → Nat → β → List (Nat × β)
  | [], k, v => [(k, v)]
  | (k', v') :: r, k, v =>
    if k < k' then (k, v) :: (k', v') :: r
    else if k = k' then (k, v) :: r
    else (k', v') :: map_set r k v

/-- The value read by `m[k]`; an absent key reads as the default value `d`
(the insertion of the default entry that `operator[]` performs on a read is
not modelled). -/
def map_get {β : Type} (d : β) : List (Nat × β) → Nat → β
  | [], _ => d
  | (k', v') :: r, k => if k = k' then v' else map_get d r k

/-! ## State of the sampler -/

/-- Walker: accumulated time, step count and entropy flow. -/
structure Walker where
  t : ℚ := 0
  k : Int := 0
  s : ℚ := 0
deriving DecidableEq, Inhabited

/-- The ways in which an execution ends without a defined result: a null
dereference (`null_epsilon`), the exception `std::length_error` thrown by
`reserve` at line 112 (`length_error`), one of the calls `exit(EXIT_FAILURE)`
(`subnetwork_mismatch`, `lost_track`, `sampling_went_wrong`, `gt_error`),
undefined behaviour, after which nothing is known about the execution
(`uninitialised_next_node`: line 180 reads the pointer `next_node`, declared
without an initialiser at line 152, before anything was assigned to it;
`out_of_bounds`: a node vector is indexed past its end at line 153, 162 or
164), or, in the embedding only, exhausting the step budget given to a loop
that need not terminate (`out_of_steps`). -/
inductive Failure where
  | null_epsilon
  | length_error
  | subnetwork_mismatch
  | lost_track
  | sampling_went_wrong
  | gt_error
  | uninitialised_next_node
  | out_of_bounds
  | out_of_steps
deriving DecidableEq, Inhabited

/-- Output of the basin classifier. -/
structure Basin where
  basin_ids : List Nat := []
  N_B : Nat := 0
  N_c : Nat := 0
  N_e : Nat := 0
deriving DecidableEq, Inhabited

/-- Members of the class `KPS`. `epsilon` and `alpha` are positions in the
full network; `eliminated_nodes` are positions in `ktn_kps`; `n_unif` and
`n_gamma` count the calls made so far to the uniform and gamma samplers. -/
structure State where
  nelim : Int := 0
  n_abpaths : Int := 0
  maxit : Int := 0
  adaptivebins : Bool := false
  initcond : Bool := false
  basin : Basin := {}
  N : Nat := 0
  eliminated_nodes : List Nat := []
  nodemap : List (Nat × Nat) := []
  epsilon : Option Nat := none
  alpha : Option Nat := none
  ktn_kps : Network := {}
  ktn_kps_orig : Network := {}
  ktn_l : Network := {}
  ktn_u : Network := {}
  h : List Nat := []
  walker : Walker := {}
  n_unif : Nat := 0
  n_gamma : Nat := 0
deriving DecidableEq, Inhabited

/-- The value `(!(N_B>nelim)?N_B:nelim)` of lines 112 and 223. -/
def n_to_eliminate (st : State) : Int :=
  if ¬ ((st.basin.N_B : Int) > st.nelim) then (st.basin.N_B : Int) else st.nelim

/-- Random inputs of a run: the stream of uniform(0,1) draws, the stream of
gamma draws, and the exponential function used on log-probabilities. -/
structure Oracle where
  unif : Nat → ℚ
  gamma : Nat → ℚ
  exp : ℚ → ℚ

/-! ## `KPS::setup_basin_sets` -/

/-- Body of the first loop (lines 87-91): a node of the occupied community is
marked 2. -/
def mark_basin (ktn : Network) (c : Int) (s : Basin) (i : Nat) : Basin :=
  if (ktn.node i).comm_id = c then
    { s with basin_ids := s.basin_ids.set i 2, N_B := s.N_B + 1,
             N_e := s.N_e + (ktn.node i).udeg }
  else s

/-- Body of the inner loop (lines 97-105) for the edge at position `ei`. -/
def mark_absorbing_edge (ktn : Network) (c : Int) (s : Basin) (ei : Nat) : Basin :=
  let e := ktn.edge ei
  if e.deadts then s
  else
    let tn := ktn.node e.to_node
    if tn.comm_id ≠ c ∧ s.basin_ids.getD (tn.node_id - 1) 0 = 0 then
      { s with basin_ids := s.basin_ids.set (tn.node_id - 1) 3,
               N_e := s.N_e + (ktn.node (tn.node_id - 1)).udeg,
               N_c := s.N_c + 1 }
    else s

/-- Body of the second loop (lines 94-106) for the node at position `i`. -/
def mark_absorbing_node (ktn : Network) (c : Int) (s : Basin) (i : Nat) : Basin :=
  if s.basin_ids.getD i 0 ≠ 2 then s
  else (ktn.node i).top_from.foldl (mark_absorbing_edge ktn c) s

/-- Lines 83-107 with `adaptivebins` off: the basin labelling for the
community label `c` of the current node. -/
def classify (ktn : Network) (c : Int) : Basin :=
  let s0 : Basin := { basin_ids := List.replicate ktn.n_nodes 0 }
  let s1 := (List.range ktn.n_nodes).foldl (mark_basin ktn c) s0
  (List.range ktn.n_nodes).foldl (mark_absorbing_node ktn c) s1

/-- Lines 66-72: the vector `eps_probs`, constructed with `nodesB.size()`
value-initialised entries and then extended by one entry per node of B holding
the accumulated probability. `exp(pi - pi_B)` with `pi_B = log(sum exp(pi))` is
`exp(pi) / sum exp(pi)` in exact arithmetic. -/
def eps_probs (orc : Oracle) (ktn : Network) : List (Option Nat × ℚ) :=
  let total := (ktn.nodesB.map (fun b => orc.exp (ktn.node b).pi)).sum
  let cums := (ktn.nodesB.foldl
    (fun (acc : List (Option Nat × ℚ) × ℚ) b =>
      let cum := acc.2 + orc.exp (ktn.node b).pi / total
      (acc.1 ++ [(some b, cum)], cum)) ([], 0)).1
  List.replicate ktn.nodesB.length (none, 0) ++ cums

/-- Lines 74-77: the first entry whose accumulated probability is at least the
draw gives the starting node. -/
def pick_start (rand_no : ℚ) : List (Option Nat × ℚ) → Option Nat
  | [] => none
  | (b, cum) :: r => if cum ≥ rand_no then b else pick_start rand_no r

/-- Lines 55-82: choice of the starting node when `epsilon` is null. The
branch for a supplied initial condition is empty in the source. -/
def choose_epsilon (orc : Oracle) (ktn : Network) (st : State) : State :=
  match st.epsilon with
  | some _ => st
  | none =>
    if st.initcond then st
    else if ktn.nodesB.length = 1000 then { st with epsilon := ktn.nodesB.head? }
    else
      { st with epsilon := pick_start (orc.unif st.n_unif) (eps_probs orc ktn),
                n_unif := st.n_unif + 1 }

/-- Lines 83-110: the labels are reset, then set by the two loops of `classify`
unless `adaptivebins` holds, whose branch is empty in the source. -/
def label_basin (ktn : Network) (adaptivebins : Bool) (eps : Nat) : Basin :=
  if adaptivebins then { basin_ids := List.replicate ktn.n_nodes 0 }
  else classify ktn (ktn.node eps).comm_id

/-- Lines 111-112: the two containers are cleared. -/
def clear_sets (st : State) (b : Basin) : State :=
  { st with basin := b, eliminated_nodes := [], nodemap := [] }

/-- Translation of `KPS::setup_basin_sets`. A null `epsilon` after the choice
of the starting node is dereferenced by the source at line 88. At line 112
`eliminated_nodes.reserve` receives the `int` value `(!(N_B>nelim)?N_B:nelim)`
converted to an unsigned size: a negative value becomes a size beyond
`max_size()` and `reserve` throws `std::length_error`. -/
def setup_basin_sets (orc : Oracle) (ktn : Network) (st : State) : Except Failure State :=
  let st1 := choose_epsilon orc ktn { st with N := 0 }
  match st1.epsilon with
  | none => .error .null_epsilon
  | some eps =>
    let st2 : State := clear_sets st1 (label_basin ktn st1.adaptivebins eps)
    if n_to_eliminate st2 < 0 then .error .length_error else .ok st2

/-! ## `KPS::get_subnetwork` -/

/-- Loop state of `get_subnetwork`: the subnetwork under construction (`m` is
the length of its edge sequence), the map from positions of the full network
to positions of the subnetwork, the positions `edgemask` marks, and the
counter `n`. -/
structure SubBuild where
  net : Network := {}
  nodemap : List (Nat × Nat) := []
  edgemask : List Nat := []
  n : Nat := 0
deriving DecidableEq, Inhabited

/-- Body of the node loop (lines 236-240): `j` is the number of nodes of the
subnetwork written so far. -/
def copy_node (ktn : Network) (basin_ids : List Nat) (s : SubBuild × Nat) (i : Nat) :
    SubBuild × Nat :=
  if basin_ids.getD i 0 = 0 then s
  else
    let j := s.2 + 1
    ({ s.1 with nodemap := map_set s.1.nodemap i s.2,
                net := s.1.net.updNode (j - 1) (fun _ => (ktn.node i).copy) }, j)

/-- Lines 252-257 and 265-270: the copy of the full-network edge `e` that is
written at position `m` of the subnetwork, with reverse pointer `rev`. -/
def sub_edge (ktn : Network) (nodemap : List (Nat × Nat)) (e : Edge) (m : Nat)
    (rev : Option Nat) : Edge :=
  { e.copy with
    edge_pos := m
    from_node := map_get 0 nodemap ((ktn.node e.from_node).node_id - 1)
    to_node := map_get 0 nodemap ((ktn.node e.to_node).node_id - 1)
    rev_edge := rev }

/-- Append an edge to the subnetwork and splice it into the adjacency lists of
its two end nodes (lines 252-257). -/
def push_edge (net : Network) (e : Edge) : Network :=
  (({ net with edges := net.edges ++ [e] }).add_from_edge e.from_node e.edge_pos).add_to_edge
    e.to_node e.edge_pos

/-- Body of the edge loop (lines 250-276) for the edge at position `ei` of the
full network. The vector of `N_e` edges that the source fills at the positions
`m = 0, 1, ...` is the sequence of the edges written so far. -/
def copy_edge (ktn : Network) (s : SubBuild) (ei : Nat) : SubBuild :=
  let e := ktn.edge ei
  if e.deadts ∨ e.edge_pos ∈ s.edgemask then s
  else
    let m := s.net.edges.length
    let mask1 := e.edge_pos :: s.edgemask
    match e.rev_edge with
    | none =>
      { s with net := push_edge s.net (sub_edge ktn s.nodemap e m none), edgemask := mask1 }
    | some ri =>
      let r := ktn.edge ri
      if r.deadts ∨ r.edge_pos ∈ mask1 then
        { s with net := push_edge s.net (sub_edge ktn s.nodemap e m none), edgemask := mask1 }
      else
        { s with
          net := push_edge (push_edge s.net (sub_edge ktn s.nodemap e m (some (m + 1))))
                   (sub_edge ktn s.nodemap r (m + 1) (some m))
          edgemask := r.edge_pos :: mask1 }

/-- Body of the loop over `nodemap` (lines 244-277) for the key `i`. -/
def copy_edges_of (ktn : Network) (c : Int) (s : SubBuild) (i : Nat) : SubBuild :=
  let s1 := { s with n := s.n + 1 }
  if (ktn.node i).comm_id ≠ c then s1
  else (ktn.node i).top_from.foldl (copy_edge ktn) s1

/-- The loops of `get_subnetwork` (lines 233-277), started from the map
`nodemap`. -/
def build_subnetwork (ktn : Network) (c : Int) (b : Basin) (nodemap : List (Nat × Nat)) :
    SubBuild :=
  let s0 : SubBuild := { net := Network.mk_sized (b.N_B + b.N_c) b.N_e, nodemap := nodemap }
  let s1 := ((List.range ktn.n_nodes).foldl (copy_node ktn b.basin_ids) (s0, 0)).1
  (s1.nodemap.map Prod.fst).foldl (copy_edges_of ktn c) s1

/-- Translation of `KPS::get_subnetwork`: the subnetwork and the updated
`nodemap`, or the failure of the consistency check of line 279. `c` is the
community label of `epsilon`. -/
def get_subnetwork (ktn : Network) (c : Int) (b : Basin) (nodemap : List (Nat × Nat)) :
    Except Failure (Network × List (Nat × Nat)) :=
  let s := build_subnetwork ktn c b nodemap
  if s.n ≠ b.N_B + b.N_c ∨ s.net.edges.length ≠ b.N_e then .error .subnetwork_mismatch
  else .ok (s.net, s.nodemap)

/-! ## `KPS::calc_gt_factor` and `KPS::gt_iteration` -/

/-- Translation of `KPS::calc_gt_factor` for the node at position `p`. -/
def calc_gt_factor (net : Network) (p : Nat) : ℚ :=
  if (net.node p).t > 999 / 1000 then
    (net.node p).top_from.foldl
      (fun factor ei =>
        let e := net.edge ei
        if ¬ (e.deadts ∨ (net.node e.to_node).eliminated) then factor + e.t else factor) 0
  else 1 - (net.node p).t

/-- The local record `nbrnode` of `gt_iteration`. -/
structure nbrnode where
  dirconn : Bool := false
  t_fromn : ℚ := 0
  t_ton : ℚ := 0
deriving DecidableEq, Inhabited

/-- Loop state of `gt_iteration`. -/
structure GTState where
  net : Network := {}
  nodes_nbrs : List Nat := []
  nbrnode_map : List (Nat × nbrnode) := []
deriving DecidableEq, Inhabited

/-- Weight of the reverse edge (`edgeptr->rev_edge->t`); a reverse pointer that
does not refer into the network reads as weight 0. -/
def rev_t (net : Network) (e : Edge) : ℚ :=
  match e.rev_edge with
  | some r => (net.edge r).t
  | none => 0

/-- Body of the first loop (lines 301-318) for the edge at position `ei` of the
adjacency list of the node `p` being eliminated. -/
def gt_scan_edge (p : Nat) (factor : ℚ) (s : GTState) (ei : Nat) : GTState :=
  let e := s.net.edge ei
  if e.deadts then s
  else
    let net1 := s.net.updNode e.to_node (fun n => { n with flag := true })
    let s1 : GTState :=
      { net := net1, nodes_nbrs := s.nodes_nbrs ++ [e.to_node],
        nbrnode_map := map_set s.nbrnode_map (net1.node e.to_node).node_id
          { dirconn := false, t_fromn := e.t, t_ton := rev_t net1 e } }
    if (net1.node e.to_node).eliminated then s1
    else
      let net2 := net1.updNode e.to_node (fun n => { n with t := n.t + e.t * rev_t net1 e / factor })
      let net3 := net2.updEdge ei (fun x => { x with t := x.t + x.t * (net2.node p).t / factor })
      { s1 with net := net3 }

/-- Body of the loop of lines 324-340 for the edge at position `ei` of the
adjacency list of a neighbour. -/
def gt_pair_edge (old_n_edges : Nat) (factor : ℚ) (s : GTState) (ei : Nat) : GTState :=
  let e := s.net.edge ei
  let tn := s.net.node e.to_node
  if e.deadts ∨ tn.eliminated ∨ ¬ tn.flag then s
  else
    let v := map_get default s.nbrnode_map tn.node_id
    let m1 := map_set s.nbrnode_map tn.node_id { v with dirconn := true }
    if e.edge_pos > old_n_edges then { s with nbrnode_map := m1 }
    else
      let inc := (map_get default m1 (s.net.node e.from_node).node_id).t_ton *
        (map_get default m1 tn.node_id).t_fromn / factor
      { s with nbrnode_map := m1, net := s.net.updEdge ei (fun x => { x with t := x.t + inc }) }

/-- Append a default edge carrying weight `t` between the nodes at positions
`a` and `b` (lines 351-361, 363-372). -/
def push_new_edge (net : Network) (t : ℚ) (a b : Nat) (rev : Nat) : Network :=
  let pos := net.edges.length
  let net1 : Network :=
    { net with edges := net.edges ++
        [{ t := t, edge_pos := pos, from_node := a, to_node := b, rev_edge := some rev }] }
  { (net1.add_from_edge a pos).add_to_edge b pos with n_edges := net.n_edges + 1 }

/-- Body of the loop over `nbrnode_map` (lines 342-375) for the key `k`, when
the neighbour at position `i` is being processed. -/
def gt_new_pair (nodemap : List (Nat × Nat)) (factor : ℚ) (i : Nat) (s : GTState) (k : Nat) :
    GTState :=
  let ni := s.net.node i
  if k = ni.node_id then s
  else if (s.net.node (map_get 0 nodemap (k - 1))).eliminated then s
  else
    let v := map_get default s.nbrnode_map k
    if v.dirconn then { s with nbrnode_map := map_set s.nbrnode_map k { v with dirconn := false } }
    else
      let vi := map_get default s.nbrnode_map ni.node_id
      let pos := s.net.edges.length
      let a := map_get 0 nodemap (ni.node_id - 1)
      let b := map_get 0 nodemap (k - 1)
      let net1 := push_new_edge s.net (v.t_fromn * vi.t_ton / factor) a b (pos + 1)
      let net2 := push_new_edge net1 (v.t_ton * vi.t_fromn / factor) b a pos
      { s with net := net2 }

/-- Body of the loop over `nodes_nbrs` (lines 322-376) for the neighbour at
position `i`. -/
def gt_neighbour (nodemap : List (Nat × Nat)) (old_n_edges : Nat) (factor : ℚ) (s : GTState)
    (i : Nat) : GTState :=
  let s1 := (s.net.node i).top_from.foldl (gt_pair_edge old_n_edges factor) s
  if (s1.net.node i).eliminated then s1
  else (s1.nbrnode_map.map Prod.fst).foldl (gt_new_pair nodemap factor i) s1

/-- Lines 378-382: the flags of the neighbours are reset. -/
def reset_flags (net : Network) (p : Nat) : Network :=
  (net.node p).top_from.foldl
    (fun nt ei => nt.updNode (nt.edge ei).to_node (fun n => { n with flag := false })) net

/-- Translation of `KPS::gt_iteration` applied to the node at position `p` of the
network `net` (the member `ktn_kps`). -/
def gt_iteration (nodemap : List (Nat × Nat)) (net : Network) (p : Nat) : Network :=
  let factor := calc_gt_factor net p
  let s1 := (net.node p).top_from.foldl (gt_scan_edge p factor) { net := net }
  let old_n_edges := s1.net.n_edges
  let s2 := s1.nodes_nbrs.foldl (gt_neighbour nodemap old_n_edges factor) s1
  (reset_flags s2.net p).updNode p (fun n => { n with eliminated := true })

/-! ## `KPS::graph_transformation` -/

/-- Lines 198-204: the networks L and U, copies of the nodes of the subnetwork
with weight zero. -/
def init_lu (sub : Network) (n : Nat) : Network :=
  (List.range sub.n_nodes).foldl
    (fun l i => l.updNode i (fun _ => { sub.node i with t := 0 })) (Network.mk_sized n 0)

/-- The loop of lines 212-222. `gt_pq` is the content of the priority queue;
the node it yields is discarded at line 217 in favour of the node at position
`N`, so only its size matters and `pop` is modelled by dropping one entry. -/
def gt_loop : List Nat → State → State
  | [], st => st
  | _ :: gt_pq, st =>
    if (st.N : Int) < st.nelim then
      let node_elim := st.N
      let net := gt_iteration st.nodemap st.ktn_kps node_elim
      gt_loop gt_pq
        { st with
          ktn_kps := net
          basin := { st.basin with
            basin_ids := st.basin.basin_ids.set ((net.node node_elim).node_id - 1) 1 }
          eliminated_nodes := st.eliminated_nodes ++ [node_elim]
          N := st.N + 1 }
    else st

/-- Translation of `KPS::graph_transformation`; `eps` is the position of
`epsilon` in the full network. -/
def graph_transformation (ktn : Network) (eps : Nat) (st : State) : Except Failure State :=
  match get_subnetwork ktn (ktn.node eps).comm_id st.basin st.nodemap with
  | .error f => .error f
  | .ok (kps, nm1) =>
    match get_subnetwork ktn (ktn.node eps).comm_id st.basin nm1 with
    | .error f => .error f
    | .ok (orig, nm2) =>
      let n := st.basin.N_B + st.basin.N_c
      let gt_pq :=
        (List.range kps.nodes.length).filter (fun i => (kps.node i).comm_id = (ktn.node eps).comm_id)
      let st2 := gt_loop gt_pq
        { st with ktn_kps := kps, ktn_kps_orig := orig, nodemap := nm2,
                  ktn_l := init_lu kps n, ktn_u := init_lu kps n,
                  h := List.replicate gt_pq.length 0 }
      if (st2.N : Int) ≠ n_to_eliminate st2 then .error .lost_track else .ok st2

/-! ## `KPS::sample_absorbing_node` -/

/-- The loop of lines 170-179 over the adjacency list of the current node,
which lives in `net`: accumulated probability and the node selected, if any. -/
def sample_edges (net : Network) (nonelimd : Bool) (node_t factor rand_no : ℚ) :
    List Nat → ℚ → ℚ × Option Nat
  | [], cum_t => (cum_t, none)
  | ei :: rest, cum_t =>
    let e := net.edge ei
    if e.deadts ∨ (net.node e.to_node).eliminated then
      sample_edges net nonelimd node_t factor rand_no rest cum_t
    else
      let cum1 := cum_t + e.t
      let cum2 := if nonelimd then cum1 + e.t * node_t / factor else cum1
      if cum2 > rand_no then (cum2, some e.to_node)
      else sample_edges net nonelimd node_t factor rand_no rest cum2

/-- Lines 156-157: the uniform draw `u` is taken and then overwritten by the
constant 0.999999. -/
def overwritten_draw (_u : ℚ) : ℚ := 999999 / 1000000

/-- The test of line 180 when the loop over the edges has selected no edge.
`next_node` is declared without an initialiser (line 152) and is set to null
only at the end of a pass (line 183): in the first pass of the walk (`first`)
the test reads an indeterminate pointer, in a later pass it reads null and the
program exits with the GT error. -/
def no_edge_selected (first : Bool) : Failure :=
  if first then .uninitialised_next_node else .gt_error

/-- One pass through the body of the do-while loop (lines 155-183) with the
uniform draw `u`: the node the walk moves to. `first` says whether this is the
first pass of the walk. The subnetworks are indexed with `node_id - 1` (lines
162, 164); an index past the end of the node vector is `out_of_bounds`. -/
def sample_step (st : State) (first : Bool) (curr : Node) (u : ℚ) : Except Failure Node :=
  let rand_no : ℚ := overwritten_draw u
  let id := st.basin.basin_ids.getD (curr.node_id - 1) 0
  if id = 1 then
    let p := curr.node_id - 1
    if st.ktn_kps.nodes.length ≤ p then .error .out_of_bounds
    else
      let r := sample_edges st.ktn_kps false (st.ktn_kps.node p).t 0 rand_no
        (st.ktn_kps.node p).top_from 0
      match r.2 with
      | none => .error (no_edge_selected first)
      | some nxt =>
        if r.1 - 1 > 1 / 100000000 then .error .gt_error else .ok (st.ktn_kps.node nxt)
  else if id = 2 then
    let p := curr.node_id - 1
    if st.ktn_kps_orig.nodes.length ≤ p then .error .out_of_bounds
    else
      let factor := calc_gt_factor st.ktn_kps_orig p
      let r := sample_edges st.ktn_kps_orig true (st.ktn_kps_orig.node p).t factor rand_no
        (st.ktn_kps_orig.node p).top_from 0
      match r.2 with
      | none => .error (no_edge_selected first)
      | some nxt =>
        if r.1 - 1 > 1 / 100000000 then .error .gt_error else .ok (st.ktn_kps_orig.node nxt)
  else .error .sampling_went_wrong

/-- The do-while loop of lines 154-184, given a budget of passes; `first` says
whether the next pass is the first one, `n_unif` counts the uniform draws
taken. -/
def sample_loop (orc : Oracle) (st : State) (curr_comm_id : Int) :
    Nat → Bool → Node → Nat → Except Failure (Node × Nat)
  | 0, _, _, _ => .error .out_of_steps
  | fuel + 1, first, curr, n_unif =>
    match sample_step st first curr (orc.unif n_unif) with
    | .error f => .error f
    | .ok nxt =>
      if nxt.comm_id = curr_comm_id then
        sample_loop orc st curr_comm_id fuel false nxt (n_unif + 1)
      else .ok (nxt, n_unif + 1)

/-- Translation of `KPS::sample_absorbing_node`: the node returned and the
state with the count of uniform draws advanced. `ktn` is the full network
`epsilon` points into, `fuel` bounds the number of passes of the loop. The
starting node is `ktn_kps->nodes[nodemap[epsilon->node_id-1]]` (line 153); an
index past the end of the node vector is `out_of_bounds`. -/
def sample_absorbing_node (orc : Oracle) (ktn : Network) (fuel : Nat) (eps : Nat) (st : State) :
    Except Failure (Node × State) :=
  let curr_comm_id := (ktn.node eps).comm_id
  let i := map_get 0 st.nodemap ((ktn.node eps).node_id - 1)
  if st.ktn_kps.nodes.length ≤ i then .error .out_of_bounds
  else
    match sample_loop orc st curr_comm_id fuel true (st.ktn_kps.node i) st.n_unif with
    | .error f => .error f
    | .ok (nd, n) => .ok (nd, { st with n_unif := n })

/-! ## Reverse randomisation and the driver -/

/-- Translation of `KPS::undo_gt_iteration`: the source only prints. -/
def undo_gt_iteration (st : State) (_node_elim : Nat) : State := st

/-- Translation of `KPS::iterative_reverse_randomisation`: two gamma draws are
printed, the eliminations are undone in reverse order, and the third gamma draw
is the escape time. (The binomial, negative binomial and exponential draws
that are printed come from generators of their own.) -/
def iterative_reverse_randomisation (orc : Oracle) (st : State) : ℚ × State :=
  let st1 := (st.eliminated_nodes.take st.N).reverse.foldl undo_gt_iteration st
  (orc.gamma (st1.n_gamma + 2), { st1 with n_gamma := st1.n_gamma + 3 })

/-- Translation of `KPS::update_path_quantities`. -/
def update_path_quantities (st : State) (t_esc : ℚ) : State :=
  { st with walker := { st.walker with t := st.walker.t + t_esc, k := st.walker.k + 1 } }

/-- Body of the loop of `run_enhanced_kmc` (lines 34-44): one macro-step.
Returns whether `alpha` lies in A, the escape time, and the new state. -/
def macro_step (orc : Oracle) (ktn : Network) (fuel : Nat) (st : State) :
    Except Failure (Bool × ℚ × State) :=
  match setup_basin_sets orc ktn st with
  | .error f => .error f
  | .ok st1 =>
    match st1.epsilon with
    | none => .error .null_epsilon
    | some eps =>
      match graph_transformation ktn eps st1 with
      | .error f => .error f
      | .ok st2 =>
        match sample_absorbing_node orc ktn fuel eps st2 with
        | .error f => .error f
        | .ok (dummy_alpha, st3) =>
          let alpha := dummy_alpha.node_id - 1
          let r := iterative_reverse_randomisation orc { st3 with alpha := some alpha }
          let t_esc := r.1
          let in_A : Bool := (ktn.node alpha).aorb = -1
          let st5 : State := { r.2 with epsilon := r.2.alpha, alpha := none }
          .ok (in_A, t_esc, update_path_quantities st5 t_esc)

/-- Result of the driver: the local counters `n_ab` and `n_kpsit`, the record
of the macro-steps performed (whether A was reached, escape time), and the
final state. -/
structure RunResult where
  n_ab : Int := 0
  n_kpsit : Int := 0
  steps : List (Bool × ℚ) := []
  st : State := {}
deriving DecidableEq, Inhabited

/-- The while loop of `run_enhanced_kmc` (line 33), given a budget `budget` of
passes. `fuel` bounds each categorical walk. -/
def kmc_loop (orc : Oracle) (ktn : Network) (fuel : Nat) : Nat → RunResult → Except Failure RunResult
  | budget, r =>
    if r.n_ab < r.st.n_abpaths ∧ r.n_kpsit < r.st.maxit then
      match budget with
      | 0 => .error .out_of_steps
      | budget + 1 =>
        match macro_step orc ktn fuel r.st with
        | .error f => .error f
        | .ok (in_A, t_esc, st1) =>
          kmc_loop orc ktn fuel budget
            { n_ab := if in_A then r.n_ab + 1 else r.n_ab, n_kpsit := r.n_kpsit + 1,
              steps := r.steps ++ [(in_A, t_esc)], st := st1 }
    else .ok r

/-- Translation of `KPS::run_enhanced_kmc`. The loop makes at most `maxit`
passes, which is the budget it is given. -/
def run_enhanced_kmc (orc : Oracle) (ktn : Network) (fuel : Nat) (st : State) :
    Except Failure RunResult :=
  kmc_loop orc ktn fuel st.maxit.toNat { st := st }

/-! ## Predicates and example networks used by the theorems -/

/-- Example input: append the pair of directed edges `a -> b` (weight `x.2.2.1`)
and `b -> a` (weight `x.2.2.2`) between the positions `a = x.1` and `b = x.2.1`,
each the reverse of the other, and splice both into the adjacency lists. -/
def link (net : Network) (x : Nat × Nat × ℚ × ℚ) : Network :=
  let pos := net.edges.length
  let a := x.1
  let b := x.2.1
  let net1 : Network :=
    { net with edges := net.edges ++
        [{ t := x.2.2.1, edge_pos := pos, from_node := a, to_node := b, rev_edge := some (pos + 1) },
         { t := x.2.2.2, edge_pos := pos + 1, from_node := b, to_node := a, rev_edge := some pos }] }
  let net2 := (net1.add_from_edge a pos).add_to_edge b pos
  let net3 := (net2.add_from_edge b (pos + 1)).add_to_edge a (pos + 1)
  let net4 := net3.updNode a (fun n => { n with udeg := n.udeg + 1 })
  let net5 := net4.updNode b (fun n => { n with udeg := n.udeg + 1 })
  { net5 with n_edges := net.n_edges + 1 }

/-- Example input: the network whose nodes have ids 1, 2, ... and the given
(community label, aorb) and whose edges are the given pairs. -/
def network_of (nodes : List (Int × Int)) (links : List (Nat × Nat × ℚ × ℚ)) : Network :=
  let ns : List Node :=
    nodes.enum.map (fun x => { node_id := x.1 + 1, comm_id := x.2.1, aorb := x.2.2 })
  links.foldl link { nodes := ns, n_nodes := ns.length }

/-- Example oracle: every uniform draw is 1/2, every gamma draw is 1. -/
def orc0 : Oracle := { unif := fun _ => 1 / 2, gamma := fun _ => 1, exp := fun _ => 1 }

/-- Example input: triangle 1, 2, 3 in community 1 (macrostate B) and node 4 in
community 2 (macrostate A), reachable only from node 3; row-stochastic weights. -/
def triangle : Network :=
  network_of [(1, 1), (1, 1), (1, 1), (2, -1)]
    [(0, 1, 1 / 2, 1 / 2), (0, 2, 1 / 2, 1 / 3), (1, 2, 1 / 2, 1 / 3), (2, 3, 1 / 3, 1)]

/-- Example state: current node at position `eps`, elimination cap `nelim`. -/
def start_at (eps : Nat) (nelim : Int) : State :=
  { nelim := nelim, n_abpaths := 1, maxit := 5, epsilon := some eps }

/-- The node with id `i + 1` is stored at position `i`, and `n_nodes` is the
number of nodes. -/
def ids_in_order (ktn : Network) : Prop :=
  ktn.n_nodes = ktn.nodes.length ∧ ∀ i, i < ktn.nodes.length → (ktn.node i).node_id = i + 1

/-- Every edge of an adjacency list points to a node of the network. -/
def targets_valid (ktn : Network) : Prop :=
  ∀ j, j < ktn.nodes.length → ∀ ei ∈ (ktn.node j).top_from,
    (ktn.edge ei).to_node < ktn.nodes.length

/-- Invariant of the first loop of the classifier after `k` nodes. -/
def Inv1 (ktn : Network) (c : Int) (k : Nat) (s : Basin) : Prop :=
  s.basin_ids.length = ktn.n_nodes ∧
  (∀ i, s.basin_ids.getD i 0 = if i < k ∧ (ktn.node i).comm_id = c then 2 else 0) ∧
  s.N_B = s.basin_ids.count 2 ∧ s.N_c = 0 ∧ s.basin_ids.count 3 = 0

/-- Invariant of the second loop of the classifier once the edges in `S` have
been scanned. -/
def Inv2 (ktn : Network) (c : Int) (S : Nat → Prop) (s : Basin) : Prop :=
  s.basin_ids.length = ktn.nodes.length ∧
  (∀ i, s.basin_ids.getD i 0 = 2 ↔ (i < ktn.nodes.length ∧ (ktn.node i).comm_id = c)) ∧
  (∀ i, s.basin_ids.getD i 0 = 3 ↔ (i < ktn.nodes.length ∧ (ktn.node i).comm_id ≠ c ∧
      ∃ ei, S ei ∧ (ktn.edge ei).deadts = false ∧ (ktn.edge ei).to_node = i)) ∧
  (∀ i, s.basin_ids.getD i 0 = 0 ∨ s.basin_ids.getD i 0 = 2 ∨ s.basin_ids.getD i 0 = 3) ∧
  s.N_B = s.basin_ids.count 2 ∧ s.N_c = s.basin_ids.count 3

/-- The edges scanned by the second loop after `k` nodes. -/
def scanned (ktn : Network) (c : Int) (k : Nat) (ei : Nat) : Prop :=
  ∃ j, j < k ∧ (ktn.node j).comm_id = c ∧ ei ∈ (ktn.node j).top_from

/-- Equality of results of fallible functions is decidable. -/
instance decEqResult {α : Type} [DecidableEq α] : DecidableEq (Except Failure α)
  | .ok a, .ok b => if h : a = b then isTrue (by rw [h]) else isFalse (fun e => h (by cases e; rfl))
  | .error a, .error b =>
    if h : a = b then isTrue (by rw [h]) else isFalse (fun e => h (by cases e; rfl))
  | .ok _, .error _ => isFalse (fun e => by cases e)
  | .error _, .ok _ => isFalse (fun e => by cases e)

/-- Example input: chain 1 - 2 - 3 of three nodes in three communities. -/
def chain3 : Network :=
  network_of [(1, 1), (2, 0), (3, -1)] [(0, 1, 1, 1 / 2), (1, 2, 1 / 2, 1)]

/-- Example input: node 1 in macrostate B and node 2 in macrostate A, joined by
one pair of edges. -/
def two_chain : Network := network_of [(1, 1), (2, -1)] [(0, 1, 1, 1)]

/-- Example input: seven nodes of community 1 and node 8 of community 2, with
the edge pairs 1-3, 1-5, 2-4, 2-5, 3-6, 4-7, 5-6, 5-7, 7-8 and uniform
row-stochastic weights. -/
def eight_nodes : Network :=
  network_of [(1, 1), (1, 1), (1, 1), (1, 1), (1, 1), (1, 1), (1, 1), (2, -1)]
    [(0, 2, 1 / 2, 1 / 2), (0, 4, 1 / 2, 1 / 4), (1, 3, 1 / 2, 1 / 2), (1, 4, 1 / 2, 1 / 4),
     (2, 5, 1 / 2, 1 / 2), (3, 6, 1 / 2, 1 / 3), (4, 5, 1 / 4, 1 / 2), (4, 6, 1 / 4, 1 / 3),
     (6, 7, 1 / 3, 1)]

/-- The classifier followed by graph transformation, from the current node at
position `eps` with elimination cap `nelim`. -/
def basin_pass (ktn : Network) (eps : Nat) (nelim : Int) : Except Failure State :=
  (setup_basin_sets orc0 ktn (start_at eps nelim)).bind (graph_transformation ktn eps)

/-- Row sum of the node at position `p`: its self-loop weight plus the weights
of its live edges to non-eliminated nodes. -/
def row_sum (net : Network) (p : Nat) : ℚ :=
  (net.node p).t + ((net.node p).top_from.map (fun ei =>
    let e := net.edge ei
    if e.deadts ∨ (net.node e.to_node).eliminated then 0 else e.t)).sum

/-- Number of recorded macro-steps whose sampled node lies in macrostate A. -/
def a_hits (steps : List (Bool × ℚ)) : Nat := (steps.filter (fun x => x.1)).length

/-- The macro-steps `xs` (whether A was reached, escape time, new state) are
the results of successive macro-steps started from the state `st`, each from
the state the previous one has returned. -/
def steps_from (orc : Oracle) (ktn : Network) (fuel : Nat) :
    State → List (Bool × ℚ × State) → Prop
  | _, [] => True
  | st, x :: xs => macro_step orc ktn fuel st = .ok x ∧ steps_from orc ktn fuel x.2.2 xs

/-- The state after the macro-steps `xs` started from `st`. -/
def last_state : State → List (Bool × ℚ × State) → State
  | st, [] => st
  | _, x :: xs => last_state x.2.2 xs

/-- The record the driver keeps of the macro-steps `xs`. -/
def step_records (xs : List (Bool × ℚ × State)) : List (Bool × ℚ) :=
  xs.map (fun x => (x.1, x.2.1))

/-- Positions below `n` that carry a non-zero basin id, in increasing order. -/
def labelled (bids : List Nat) (n : Nat) : List Nat :=
  (List.range n).filter (fun i => bids.getD i 0 ≠ 0)

/-- The map that sends the `j`-th entry of `ks` to `j`. -/
def target_map (ks : List Nat) : List (Nat × Nat) := ks.zip (List.range ks.length)

/-- The node sequence of the subnetwork after the nodes at the positions `ks`
have been copied into a sequence of `T` nodes. -/
def copied_nodes (ktn : Network) (ks : List Nat) (T : Nat) : List Node :=
  ks.map (fun i => (ktn.node i).copy) ++ List.replicate (T - ks.length) default

/-- State of the node loop of `get_subnetwork` after the positions below `k`,
when the loop is started from the map `nm0`. -/
def after_nodes (ktn : Network) (b : Basin) (nm0 : List (Nat × Nat)) (k : Nat) :
    SubBuild × Nat :=
  ({ net := { Network.mk_sized (b.N_B + b.N_c) b.N_e with
              nodes := copied_nodes ktn (labelled b.basin_ids k) (b.N_B + b.N_c) },
     nodemap := (target_map (labelled b.basin_ids k)).foldl (fun m p => map_set m p.1 p.2) nm0 },
   (labelled b.basin_ids k).length)

/-- The data fields of the nodes of a network, adjacency lists left out. -/
def node_data (net : Network) : List Node := net.nodes.map Node.copy

/-- Every edge of an adjacency list is an edge of the network that leaves the
node owning the list and points to a node of the network; every edge of the
network is in the adjacency list of its from-node. -/
def adj_valid (ktn : Network) : Prop :=
  (∀ j, j < ktn.nodes.length → ∀ ei ∈ (ktn.node j).top_from,
    ei < ktn.edges.length ∧ (ktn.edge ei).from_node = j ∧
    (ktn.edge ei).to_node < ktn.nodes.length) ∧
  (∀ ei, ei < ktn.edges.length → (ktn.edge ei).from_node < ktn.nodes.length ∧
    ei ∈ (ktn.node (ktn.edge ei).from_node).top_from)

/-- Every edge records its own position, and every live edge has a live
reverse, another edge, of which it is the reverse and whose end nodes are
swapped. -/
def edges_paired (ktn : Network) : Prop :=
  ∀ ei, ei < ktn.edges.length →
    (ktn.edge ei).edge_pos = ei ∧
    ((ktn.edge ei).deadts = false →
      ∃ r, r < ktn.edges.length ∧ (ktn.edge ei).rev_edge = some r ∧ r ≠ ei ∧
        (ktn.edge r).deadts = false ∧ (ktn.edge r).rev_edge = some ei ∧
        (ktn.edge r).from_node = (ktn.edge ei).to_node ∧
        (ktn.edge r).to_node = (ktn.edge ei).from_node)

/-- The edge sequence written by `get_subnetwork` from position `m` on, when
the pairs `(p, r)` of full-network edges are copied in this order. -/
def built_at (ktn : Network) (nm : List (Nat × Nat)) : Nat → List (Nat × Nat) → List Edge
  | _, [] => []
  | m, (p, r) :: ps =>
    sub_edge ktn nm (ktn.edge p) m (some (m + 1)) ::
      sub_edge ktn nm (ktn.edge r) (m + 1) (some m) :: built_at ktn nm (m + 2) ps

/-- The full-network edge positions of a sequence of copied pairs. -/
def pair_idx : List (Nat × Nat) → List Nat
  | [] => []
  | (p, r) :: ps => p :: r :: pair_idx ps

/-- Invariant of the edge loop of `get_subnetwork`: `S` holds of the edges
visited so far, `ps` are the pairs copied so far. -/
def EdgeInv (ktn : Network) (nm : List (Nat × Nat)) (S : Nat → Prop) (ps : List (Nat × Nat))
    (s : SubBuild) : Prop :=
  s.nodemap = nm ∧ s.net.edges = built_at ktn nm 0 ps ∧
  (∀ x, x ∈ s.edgemask ↔ x ∈ pair_idx ps) ∧
  (∀ q ∈ ps, S q.1 ∧ q.1 < ktn.edges.length ∧ q.2 < ktn.edges.length ∧
    (ktn.edge q.1).deadts = false ∧ (ktn.edge q.2).deadts = false ∧
    (ktn.edge q.1).rev_edge = some q.2 ∧ (ktn.edge q.2).rev_edge = some q.1) ∧
  (∀ ei, S ei → (ktn.edge ei).deadts = false → ei ∈ pair_idx ps) ∧
  (pair_idx ps).Nodup

/-- What `get_subnetwork` returns for the basin labelling `bids`: `nodemap`
lists the labelled positions in increasing order and numbers them 0, 1, ...;
node `nodemap[i]` of the subnetwork carries the data of node `i`; the edges of
the subnetwork are one copy each of the live edges whose from-node is interior
and of the live reverse edges of these, at the positions given by `edge_pos`
and between the images of their end nodes. -/
def is_basin_copy (ktn : Network) (bids : List Nat) (total : Nat) (sub : Network)
    (nm : List (Nat × Nat)) : Prop :=
  nm.map Prod.fst = labelled bids ktn.nodes.length ∧
  nm.map Prod.snd = List.range total ∧
  sub.nodes.length = total ∧
  (∀ p ∈ nm, map_get 0 nm p.1 = p.2 ∧ (sub.node p.2).copy = (ktn.node p.1).copy) ∧
  ∃ src : List Nat, src.Nodup ∧ sub.edges.length = src.length ∧
    (∀ ei, ei ∈ src ↔ (ei < ktn.edges.length ∧ (ktn.edge ei).deadts = false ∧
      (bids.getD (ktn.edge ei).from_node 0 = 2 ∨
        ∃ e', e' < ktn.edges.length ∧ (ktn.edge e').deadts = false ∧
          bids.getD (ktn.edge e').from_node 0 = 2 ∧ (ktn.edge e').rev_edge = some ei))) ∧
    (∀ k, k < src.length →
      (sub.edge k).t = (ktn.edge (src.getD k 0)).t ∧
      (sub.edge k).deadts = false ∧
      (sub.edge k).edge_pos = k ∧
      (sub.edge k).from_node =
        map_get 0 nm ((ktn.node (ktn.edge (src.getD k 0)).from_node).node_id - 1) ∧
      (sub.edge k).to_node =
        map_get 0 nm ((ktn.node (ktn.edge (src.getD k 0)).to_node).node_id - 1) ∧
      (sub.node (sub.edge k).from_node).node_id =
        (ktn.node (ktn.edge (src.getD k 0)).from_node).node_id ∧
      (sub.node (sub.edge k).to_node).node_id =
        (ktn.node (ktn.edge (src.getD k 0)).to_node).node_id)

/-- Reverse-edge symmetry of a network: every edge has its reverse inside the
edge sequence, is the reverse of its reverse, and the end nodes of the two are
swapped. -/
def rev_symmetric (net : Network) : Prop :=
  ∀ k, k < net.edges.length →
    ∃ r, r < net.edges.length ∧ (net.edge k).rev_edge = some r ∧
      (net.edge r).rev_edge = some k ∧
      (net.edge r).from_node = (net.edge k).to_node ∧
      (net.edge r).to_node = (net.edge k).from_node

/-- The link fields (reverse pointer, from-node, to-node) of the edges. -/
def links (net : Network) : List (Option Nat × Nat × Nat) :=
  net.edges.map (fun e => (e.rev_edge, e.from_node, e.to_node))

/-- Reverse-edge symmetry stated on the sequence of link fields. -/
def sym_links (L : List (Option Nat × Nat × Nat)) : Prop :=
  ∀ k, k < L.length →
    ∃ r a b, r < L.length ∧ L[k]? = some (some r, a, b) ∧ L[r]? = some (some k, b, a)

/-- The `eliminated` flags of the nodes of a network, in position order. -/
def flags (net : Network) : List Bool := net.nodes.map (fun n => n.eliminated)

/-- Every node's `udeg` is the number of live edges of its adjacency list. -/
def udeg_counts (ktn : Network) : Prop :=
  ∀ j, j < ktn.nodes.length →
    (ktn.node j).udeg = ((ktn.node j).top_from.filter (fun ei => !(ktn.edge ei).deadts)).length

instance decIdsInOrder (ktn : Network) : Decidable (ids_in_order ktn) := by
  unfold ids_in_order; exact inferInstance

instance decTargetsValid (ktn : Network) : Decidable (targets_valid ktn) := by
  unfold targets_valid; exact inferInstance

instance decAdjValid (ktn : Network) : Decidable (adj_valid ktn) := by
  unfold adj_valid; exact inferInstance

instance decEdgesPaired (ktn : Network) : Decidable (edges_paired ktn) := by
  unfold edges_paired; exact inferInstance

instance decUdegCounts (ktn : Network) : Decidable (udeg_counts ktn) := by
  unfold udeg_counts; exact inferInstance

/-- Example input: the triangle network with source macrostate B = {1, 2, 3}. -/
def triangle_B : Network := { triangle with nodesB := [0, 1, 2] }

/-- Example oracle: every uniform draw is `u`, every gamma draw is 1. -/
def orc_unif (u : ℚ) : Oracle := { orc0 with unif := fun _ => u }

/-- Example state: no current node, no initial condition, elimination cap
`nelim`. -/
def no_start (nelim : Int) : State := { nelim := nelim, n_abpaths := 1, maxit := 5 }

/-- Number of edges of a network from position `a` to position `b`. -/
def n_edges_between (net : Network) (a b : Nat) : Nat :=
  (net.edges.filter (fun e => e.from_node = a ∧ e.to_node = b)).length

/-- The neighbours in the adjacency list of the node at position `p`: position
of the neighbour, whether the edge is dead, whether the neighbour is
eliminated, and the weight of the edge. -/
def nbrs_of (net : Network) (p : Nat) : List (Nat × Bool × Bool × ℚ) :=
  (net.node p).top_from.map (fun ei =>
    ((net.edge ei).to_node, (net.edge ei).deadts,
     (net.node (net.edge ei).to_node).eliminated, (net.edge ei).t))

/-- The edge weights and the self-loop weights of a network. -/
def weights (net : Network) : List ℚ × List ℚ :=
  (net.edges.map (fun e => e.t), net.nodes.map (fun n => n.t))

/-! ## The samplers (lines 416-453) -/

/-- The part of the C++ standard library the samplers call: construction of a
`default_random_engine` from a seed, and the four distribution objects, each
mapping its parameters and the state of the engine to the value drawn and the
next state of the engine. -/
structure Distributions where
  engine : Int → Nat
  gamma : Int → ℚ → Nat → ℚ × Nat
  binomial : Int → ℚ → Nat → Int × Nat
  negative_binomial : Int → ℚ → Nat → Int × Nat
  exponential : ℚ → Nat → ℚ × Nat

/-- The function-local objects `static default_random_engine generator(seed)`
of the four samplers: `none` until the sampler is called for the first time in
the process, the state of the engine afterwards. -/
structure Generators where
  gamma_gen : Option Nat := none
  binomial_gen : Option Nat := none
  negbinomial_gen : Option Nat := none
  exp_gen : Option Nat := none
deriving DecidableEq, Inhabited

/-- The state of a function-local static generator when the body of its
sampler runs: the generator is constructed from `seed` only if no earlier call
has constructed it. -/
def static_generator (D : Distributions) (g : Option Nat) (seed : Int) : Nat :=
  match g with
  | some x => x
  | none => D.engine seed

/-- Translation of `KPS::gamma_distribn`: the value drawn and the generators
after the call. -/
def gamma_distribn (D : Distributions) (gs : Generators) (a : Int) (b : ℚ) (seed : Int) :
    ℚ × Generators :=
  let generator := static_generator D gs.gamma_gen seed
  let r := D.gamma a b generator
  (r.1, { gs with gamma_gen := some r.2 })

/-- Translation of `KPS::binomial_distribn`; the value `none` is the exception
thrown at line 429. -/
def binomial_distribn (D : Distributions) (gs : Generators) (h : Int) (p : ℚ) (seed : Int) :
    Option Int × Generators :=
  let generator := static_generator D gs.binomial_gen seed
  if ¬ (h ≥ 0 ∨ (p ≥ 0 ∧ p ≤ 1)) then (none, { gs with binomial_gen := some generator })
  else if h = 0 then (some 0, { gs with binomial_gen := some generator })
  else if p = 1 then (some h, { gs with binomial_gen := some generator })
  else
    let r := D.binomial h p generator
    (some r.1, { gs with binomial_gen := some r.2 })

/-- Translation of `KPS::negbinomial_distribn`; the value `none` is the
exception thrown at line 441. -/
def negbinomial_distribn (D : Distributions) (gs : Generators) (r : Int) (p : ℚ) (seed : Int) :
    Option Int × Generators :=
  let generator := static_generator D gs.negbinomial_gen seed
  if ¬ (r ≥ 0 ∨ (p > 0 ∧ p ≤ 1)) then (none, { gs with negbinomial_gen := some generator })
  else if r = 0 ∨ p = 1 then (some 0, { gs with negbinomial_gen := some generator })
  else
    let x := D.negative_binomial r p generator
    (some x.1, { gs with negbinomial_gen := some x.2 })

/-- Translation of `KPS::exp_distribn`. -/
def exp_distribn (D : Distributions) (gs : Generators) (tau : ℚ) (seed : Int) :
    ℚ × Generators :=
  let generator := static_generator D gs.exp_gen seed
  let r := D.exponential (1 / tau) generator
  (r.1, { gs with exp_gen := some r.2 })

/-- The four samplers. -/
inductive Sampler where
  | gamma
  | binomial
  | negbinomial
  | exp
deriving DecidableEq, Inhabited

/-- A call of one of the samplers, without its seed argument. -/
inductive Call where
  | gamma (a : Int) (b : ℚ)
  | binomial (h : Int) (p : ℚ)
  | negbinomial (r : Int) (p : ℚ)
  | exp (tau : ℚ)
deriving DecidableEq, Inhabited

/-- The sampler a call goes to. -/
def Call.sampler : Call → Sampler
  | .gamma _ _ => .gamma
  | .binomial _ _ => .binomial
  | .negbinomial _ _ => .negbinomial
  | .exp _ => .exp

/-- The static generator of a sampler. -/
def Generators.of_sampler (gs : Generators) : Sampler → Option Nat
  | .gamma => gs.gamma_gen
  | .binomial => gs.binomial_gen
  | .negbinomial => gs.negbinomial_gen
  | .exp => gs.exp_gen

/-- Perform a call with the seed argument `seed`: the value returned (`none`
for an exception) and the generators after the call. -/
def call_sampler (D : Distributions) (gs : Generators) (c : Call) (seed : Int) :
    Option ℚ × Generators :=
  match c with
  | .gamma a b => (some (gamma_distribn D gs a b seed).1, (gamma_distribn D gs a b seed).2)
  | .binomial h p =>
    ((binomial_distribn D gs h p seed).1.map (fun x => (x : ℚ)), (binomial_distribn D gs h p seed).2)
  | .negbinomial r p =>
    ((negbinomial_distribn D gs r p seed).1.map (fun x => (x : ℚ)),
     (negbinomial_distribn D gs r p seed).2)
  | .exp tau => (some (exp_distribn D gs tau seed).1, (exp_distribn D gs tau seed).2)

/-- The values returned by a sequence of calls (each with its seed argument)
made one after the other in a process whose static generators are `gs`. -/
def run_calls (D : Distributions) : Generators → List (Call × Int) → List (Option ℚ)
  | _, [] => []
  | gs, (c, seed) :: cs =>
    (call_sampler D gs c seed).1 :: run_calls D (call_sampler D gs c seed).2 cs

/-- The seed argument of the first call in `cs` that goes to the sampler `k`. -/
def first_seed (k : Sampler) (cs : List (Call × Int)) : Option Int :=
  ((cs.filter (fun c => c.1.sampler = k)).head?).map Prod.snd

/-- The successive calls `gamma_distribn(3, 3., seed)` that `kps.cpp` makes, in
a process in which no other gamma draw is taken: value and generators of call
number `k`. -/
def gamma_stream (D : Distributions) (seed : Int) : Nat → ℚ × Generators
  | 0 => gamma_distribn D {} 3 3 seed
  | k + 1 => gamma_distribn D (gamma_stream D seed k).2 3 3 seed

/-- The oracle of a process whose gamma draws come from `gamma_distribn` with
the seed `seed`; every uniform draw is 1/2. -/
def process_oracle (D : Distributions) (seed : Int) : Oracle :=
  { unif := fun _ => 1 / 2, gamma := fun k => (gamma_stream D seed k).1, exp := fun _ => 1 }

/-- Example library: the engine is the linear congruential generator
`minstd_rand0` (multiplier 16807, modulus 2^31 - 1; a seed congruent to 0 is
replaced by 1); every distribution advances the engine once and scales the
state, as a stand-in for the algorithms of the library. -/
def lcg : Distributions :=
  { engine := fun seed => if seed.toNat % 2147483647 = 0 then 1 else seed.toNat % 2147483647
    gamma := fun a b g => (a * b * (16807 * g % 2147483647 : Nat) / 2147483647,
                           16807 * g % 2147483647)
    binomial := fun h _ g => (h * (16807 * g % 2147483647 : Nat) / 2147483647,
                              16807 * g % 2147483647)
    negative_binomial := fun r _ g => (r * (16807 * g % 2147483647 : Nat) / 2147483647,
                                       16807 * g % 2147483647)
    exponential := fun lam g => (lam * (16807 * g % 2147483647 : Nat) / 2147483647,
                                 16807 * g % 2147483647) }

/-- The initial state of a run that follows the run `r` in the same process on
a new `KPS` object: current node at position `eps`, elimination cap `nelim`,
and the samplers advanced as `r` left them. -/
def next_run (r : RunResult) (eps : Nat) (nelim : Int) : State :=
  { start_at eps nelim with n_unif := r.st.n_unif, n_gamma := r.st.n_gamma }

/-- Sum of the out-degrees `udeg` of the nodes that carry the basin id `l`. -/
def udeg_sum (ktn : Network) (bids : List Nat) (l : Nat) : Nat :=
  ((List.range ktn.nodes.length).map
    (fun i => if bids.getD i 0 = l then (ktn.node i).udeg else 0)).sum

/-- Number of live edges of the adjacency list of the node at position `i` that
lead to a node carrying the basin id 2: the edges of the node that
`get_subnetwork` copies when the node is an absorbing boundary node. -/
def inward_degree (ktn : Network) (bids : List Nat) (i : Nat) : Nat :=
  ((ktn.node i).top_from.filter
    (fun ei => !(ktn.edge ei).deadts && bids.getD (ktn.edge ei).to_node 0 == 2)).length

/-- Sum over the absorbing boundary (label-3) nodes of the number of their live
edges into the basin. -/
def inward_sum (ktn : Network) (bids : List Nat) : Nat :=
  ((List.range ktn.nodes.length).map
    (fun i => if bids.getD i 0 = 3 then inward_degree ktn bids i else 0)).sum

/-- Every live edge of every absorbing boundary (label-3) node leads to an
interior (label-2) node. -/
def boundary_closed (ktn : Network) (bids : List Nat) : Prop :=
  ∀ i, i < ktn.nodes.length → bids.getD i 0 = 3 → ∀ ei ∈ (ktn.node i).top_from,
    (ktn.edge ei).deadts = false → bids.getD (ktn.edge ei).to_node 0 = 2

instance decBoundaryClosed (ktn : Network) (bids : List Nat) :
    Decidable (boundary_closed ktn bids) := by
  unfold boundary_closed; exact inferInstance

/-- Whether the edge at position `ei` is live and points to a node that is not
eliminated. -/
def live_target (net : Network) (ei : Nat) : Bool :=
  !(net.edge ei).deadts && !(net.node (net.edge ei).to_node).eliminated

/-- The amount added to the self-loop weight of the node at position `j` when
the edges `done` of the adjacency list of the eliminated node have been
processed by the first loop of `gt_iteration`, in terms of the weights before
the call. -/
def loop_gain (net : Network) (factor : ℚ) (done : List Nat) (j : Nat) : ℚ :=
  ((done.filter (fun ei => live_target net ei ∧ (net.edge ei).to_node = j)).map
    (fun ei => (net.edge ei).t * rev_t net (net.edge ei) / factor)).sum

/-- The weight of the edge at position `k` when the edges `done` of the
adjacency list of the eliminated node `p` have been processed by the first loop
of `gt_iteration`, in terms of the weights before the call. -/
def scan_weight (net : Network) (p : Nat) (factor : ℚ) (done : List Nat) (k : Nat) : ℚ :=
  if k ∈ done ∧ live_target net k = true then
    (net.edge k).t + (net.edge k).t * (net.node p).t / factor
  else (net.edge k).t

/-- Invariant of the first loop of `gt_iteration` on the node at position `p`
once the edges `done` have been processed: `net` is the network before the
call, `now` the network reached. -/
def ScanInv (net : Network) (p : Nat) (factor : ℚ) (done : List Nat) (now : Network) : Prop :=
  now.nodes.length = net.nodes.length ∧ now.edges.length = net.edges.length ∧
  (∀ k, now.edge k = { net.edge k with t := scan_weight net p factor done k }) ∧
  (∀ j, (now.node j).eliminated = (net.node j).eliminated ∧
    (now.node j).top_from = (net.node j).top_from ∧
    (now.node j).node_id = (net.node j).node_id ∧
    (now.node j).t = (net.node j).t + loop_gain net factor done j)

/-- No edge joins a node to itself. -/
def no_self_edges (net : Network) : Prop :=
  ∀ ei, ei < net.edges.length → (net.edge ei).from_node ≠ (net.edge ei).to_node

/-- No two live edges have the same from-node and the same to-node. -/
def no_parallel_edges (net : Network) : Prop :=
  ∀ e1, e1 < net.edges.length → ∀ e2, e2 < net.edges.length →
    ((net.edge e1).deadts = false ∧ (net.edge e2).deadts = false ∧
      (net.edge e1).from_node = (net.edge e2).from_node ∧
      (net.edge e1).to_node = (net.edge e2).to_node) → e1 = e2

/-- No adjacency list holds an edge twice. -/
def adj_nodup (net : Network) : Prop :=
  ∀ j, j < net.nodes.length → (net.node j).top_from.Nodup

instance decNoSelfEdges (net : Network) : Decidable (no_self_edges net) := by
  unfold no_self_edges; exact inferInstance

instance decNoParallelEdges (net : Network) : Decidable (no_parallel_edges net) := by
  unfold no_parallel_edges; exact inferInstance

instance decAdjNodup (net : Network) : Decidable (adj_nodup net) := by
  unfold adj_nodup; exact inferInstance

instance decRevSymmetric (net : Network) : Decidable (rev_symmetric net) := by
  unfold rev_symmetric; exact inferInstance
/-- Invariant of the loops of `gt_iteration` that follow the first one,
relative to the network `mid` the first loop left: no self-loop weight changes,
the edges `L` of the adjacency list of the eliminated node `p` are
unchanged, and no other node has an edge of `L` in its adjacency list. -/
def KeepInv (L : List Nat) (p : Nat) (mid now : Network) : Prop :=
  mid.edges.length ≤ now.edges.length ∧
  (∀ j, (now.node j).t = (mid.node j).t) ∧
  (∀ ei ∈ L, now.edge ei = mid.edge ei) ∧
  (∀ j, j ≠ p → ∀ x ∈ (now.node j).top_from, x ∉ L)
/-- Example input: the subnetwork `get_subnetwork` builds for the triangle
network with the current node in community 1 (nodes 1, 2, 3 interior, node 4
absorbing boundary). -/
def triangle_sub : Network := (build_subnetwork triangle 1 (classify triangle 1) []).net

/-- Example input: node 1 with self-loop weight 1 - 1e-16 and an edge of weight
1e-16 to node 2, which has self-loop weight 1/2 and an edge of weight 1/2 back
to node 1. -/
def near_absorbing : Network :=
  ((network_of [(1, 1), (1, 1)] [(0, 1, 1 / 10000000000000000, 1 / 2)]).updNode 0
    (fun n => { n with t := 1 - 1 / 10000000000000000 })).updNode 1
    (fun n => { n with t := 1 / 2 })

/-- A quantity read off a node that depends neither on its self-loop weight,
nor on its two flags, nor on its adjacency lists. -/
def static_field {β : Type} (g : Node → β) : Prop :=
  ∀ (n : Node) (t : ℚ) (e f : Bool) (a b : List Nat),
    g { n with t := t, eliminated := e, flag := f, top_from := a, top_to := b } = g n

/-- Example input: three nodes of one community joined in a triangle, with no
edge leaving the community. -/
def closed3 : Network :=
  network_of [(1, 1), (1, 1), (1, 1)]
    [(0, 1, 1 / 2, 1 / 2), (0, 2, 1 / 2, 1 / 2), (1, 2, 1 / 2, 1 / 2)]

/-- Example input: the cycle 1 - 2 - 3 - 4 - 1 in community 1, without edges to
another community; row-stochastic weights. -/
def closed_square : Network :=
  network_of [(1, 1), (1, 1), (1, 1), (1, 1)]
    [(0, 1, 1 / 2, 1 / 2), (1, 2, 1 / 2, 1 / 2), (2, 3, 1 / 2, 1 / 2), (3, 0, 1 / 2, 1 / 2)]

/-- Invariant of the subnetworks of a closed basin of the community `c`: `L`
nodes, all of community `c`, and every edge points to one of them. -/
def ClosedNet (c : Int) (L : Nat) (net : Network) : Prop :=
  net.nodes.length = L ∧ (∀ j, j < L → (net.node j).comm_id = c) ∧
  ∀ x ∈ links net, x.2.2 < L

/-- Example input: node 1 without edges in community 3, node 2 in community 2
(macrostate A), nodes 3 and 4 in community 1, with the edge pairs 2-3 and 3-4
and row-stochastic weights on nodes 2, 3, 4. -/
def offset_basin : Network :=
  network_of [(3, 0), (2, -1), (1, 1), (1, 1)] [(1, 2, 1, 1 / 2), (2, 3, 1 / 2, 1)]

/-- Example input: node 1 joined to node 2 (both in community 1) and to node 3
(community 2, macrostate A); nodes 2 and 3 have no other edge. -/
def hub3 : Network :=
  network_of [(1, 1), (1, 1), (2, -1)] [(0, 1, 1 / 2, 1), (0, 2, 1 / 2, 1)]

/-- The factor as the specification words it: `1 - T_nn`, with `T_nn` the
self-loop weight of the node at position `p`. -/
def factor_spec (net : Network) (p : Nat) : ℚ := 1 - (net.node p).t

/-- The value of the first branch of `calc_gt_factor` (lines 397-401): the
weights of the live edges of the node at position `p` to non-eliminated nodes,
added up along its adjacency list. -/
def factor_by_edges (net : Network) (p : Nat) : ℚ :=
  (net.node p).top_from.foldl
    (fun factor ei =>
      let e := net.edge ei
      if ¬ (e.deadts ∨ (net.node e.to_node).eliminated) then factor + e.t else factor) 0

/-! # Verified properties -/

/-! ## Sequences -/

theorem getD_set_eq {l : List Nat} {i : Nat} (h : i < l.length) (v : Nat) :
    (l.set i v).getD i 0 = v := by
  simp [List.getD_eq_getElem?_getD, List.getElem?_set, h]

theorem getD_set_ne {l : List Nat} {i j : Nat} (h : i ≠ j) (v : Nat) :
    (l.set i v).getD j 0 = l.getD j 0 := by
  simp [List.getD_eq_getElem?_getD, List.getElem?_set, h]

theorem getD_lt_of_ne_zero {l : List Nat} {i : Nat} (h : l.getD i 0 ≠ 0) : i < l.length := by
  by_contra hc
  apply h
  simp [List.getD_eq_getElem?_getD, List.getElem?_eq_none (Nat.le_of_not_lt hc)]

theorem count_set_zero {l : List Nat} {i : Nat} (h : i < l.length) (h0 : l.getD i 0 = 0)
    (v b : Nat) (hb : b ≠ 0) :
    (l.set i v).count b = l.count b + (if v = b then 1 else 0) := by
  have hi : l[i] = 0 := by
    simpa [List.getD_eq_getElem?_getD, List.getElem?_eq_getElem h] using h0
  rw [List.count_set _ _ _ _ h]
  have hne : (0 : Nat) ≠ b := fun e => hb e.symm
  simp [hi, hne]

/-! ## The classifier -/

theorem inv1_step (ktn : Network) (c : Int) (k : Nat) (s : Basin) (hk : k < ktn.n_nodes)
    (h : Inv1 ktn c k s) : Inv1 ktn c (k + 1) (mark_basin ktn c s k) := by
  obtain ⟨hlen, hget, hB, hc, h3⟩ := h
  have hk0 : s.basin_ids.getD k 0 = 0 := by rw [hget k]; simp
  have hkl : k < s.basin_ids.length := by omega
  unfold mark_basin
  by_cases hcm : (ktn.node k).comm_id = c
  · simp only [hcm, if_true]
    refine ⟨by simpa using hlen, ?_, ?_, hc, ?_⟩
    · intro i
      by_cases hik : k = i
      · subst hik
        rw [getD_set_eq hkl]; simp [hcm]
      · rw [getD_set_ne hik, hget i]
        have : (i < k + 1 ∧ (ktn.node i).comm_id = c) ↔ (i < k ∧ (ktn.node i).comm_id = c) := by
          constructor
          · rintro ⟨h1, h2⟩; exact ⟨by omega, h2⟩
          · rintro ⟨h1, h2⟩; exact ⟨by omega, h2⟩
        simp only [this]
    · show s.N_B + 1 = _
      rw [count_set_zero hkl hk0 2 2 (by decide), hB]; simp
    · show (s.basin_ids.set k 2).count 3 = 0
      rw [count_set_zero hkl hk0 2 3 (by decide), h3]; simp
  · simp only [hcm, if_false]
    refine ⟨hlen, ?_, hB, hc, h3⟩
    intro i
    rw [hget i]
    have : (i < k + 1 ∧ (ktn.node i).comm_id = c) ↔ (i < k ∧ (ktn.node i).comm_id = c) := by
      constructor
      · rintro ⟨h1, h2⟩
        refine ⟨?_, h2⟩
        rcases Nat.lt_succ_iff_lt_or_eq.mp h1 with h | h
        · exact h
        · subst h; exact absurd h2 hcm
      · rintro ⟨h1, h2⟩; exact ⟨by omega, h2⟩
    simp only [this]

theorem inv1_fold (ktn : Network) (c : Int) (k : Nat) (hk : k ≤ ktn.n_nodes) :
    Inv1 ktn c k ((List.range k).foldl (mark_basin ktn c)
      { basin_ids := List.replicate ktn.n_nodes 0 }) := by
  induction k with
  | zero =>
    refine ⟨by simp, ?_, ?_, rfl, ?_⟩
    · intro i
      have hn : ¬ (i < 0 ∧ (ktn.node i).comm_id = c) := by simp
      rw [if_neg hn]
      simp only [List.range_zero, List.foldl_nil, List.getD_eq_getElem?_getD,
        List.getElem?_replicate]
      split <;> rfl
    · simp [List.count_replicate]
    · simp [List.count_replicate]
  | succ k ih =>
    rw [List.range_succ, List.foldl_append]
    exact inv1_step ktn c k _ (by omega) (ih (by omega))

theorem inv2_congr (ktn : Network) (c : Int) (S S' : Nat → Prop) (s : Basin)
    (hS : ∀ x, S x ↔ S' x) (h : Inv2 ktn c S s) : Inv2 ktn c S' s := by
  obtain ⟨h1, h2, h3, h4, h5, h6⟩ := h
  refine ⟨h1, h2, ?_, h4, h5, h6⟩
  intro i
  rw [h3 i]
  constructor
  · rintro ⟨a, b, ei, hs, hd, ht⟩; exact ⟨a, b, ei, (hS ei).mp hs, hd, ht⟩
  · rintro ⟨a, b, ei, hs, hd, ht⟩; exact ⟨a, b, ei, (hS ei).mpr hs, hd, ht⟩

theorem inv2_edge (ktn : Network) (c : Int) (hid : ids_in_order ktn) (S : Nat → Prop)
    (s : Basin) (ei : Nat) (hv : (ktn.edge ei).to_node < ktn.nodes.length)
    (h : Inv2 ktn c S s) :
    Inv2 ktn c (fun x => S x ∨ x = ei) (mark_absorbing_edge ktn c s ei) := by
  obtain ⟨h1, h2, h3, h4, h5, h6⟩ := h
  have hidt : (ktn.node (ktn.edge ei).to_node).node_id - 1 = (ktn.edge ei).to_node := by
    rw [hid.2 _ hv]; rfl
  unfold mark_absorbing_edge
  simp only [hidt]
  by_cases hdead : (ktn.edge ei).deadts = true
  · simp only [hdead, if_true]
    refine ⟨h1, h2, ?_, h4, h5, h6⟩
    intro i
    rw [h3 i]
    constructor
    · rintro ⟨a, b, e', hs, hd, ht⟩; exact ⟨a, b, e', Or.inl hs, hd, ht⟩
    · rintro ⟨a, b, e', hs | hs, hd, ht⟩
      · exact ⟨a, b, e', hs, hd, ht⟩
      · subst hs; rw [hdead] at hd; exact absurd hd (by decide)
  · have hlive : (ktn.edge ei).deadts = false := by
      cases hx : (ktn.edge ei).deadts
      · rfl
      · exact absurd hx hdead
    simp only [hlive, Bool.false_eq_true, if_false]
    by_cases hcond : (ktn.node (ktn.edge ei).to_node).comm_id ≠ c ∧
        s.basin_ids.getD (ktn.edge ei).to_node 0 = 0
    · rw [if_pos hcond]
      obtain ⟨hcm, h0⟩ := hcond
      have htl : (ktn.edge ei).to_node < s.basin_ids.length := by omega
      refine ⟨by simpa using h1, ?_, ?_, ?_, ?_, ?_⟩
      · intro i
        by_cases hit : (ktn.edge ei).to_node = i
        · subst hit
          rw [getD_set_eq htl]
          constructor
          · intro hh; exact absurd hh (by decide)
          · rintro ⟨_, hh⟩; exact absurd hh hcm
        · rw [getD_set_ne hit]; exact h2 i
      · intro i
        by_cases hit : (ktn.edge ei).to_node = i
        · subst hit
          rw [getD_set_eq htl]
          constructor
          · intro _; exact ⟨hv, hcm, ei, Or.inr rfl, hlive, rfl⟩
          · intro _; rfl
        · rw [getD_set_ne hit, h3 i]
          constructor
          · rintro ⟨a, b, e', hs, hd, ht⟩; exact ⟨a, b, e', Or.inl hs, hd, ht⟩
          · rintro ⟨a, b, e', hs | hs, hd, ht⟩
            · exact ⟨a, b, e', hs, hd, ht⟩
            · subst hs; exact absurd ht hit
      · intro i
        by_cases hit : (ktn.edge ei).to_node = i
        · subst hit
          rw [getD_set_eq htl]; exact Or.inr (Or.inr rfl)
        · rw [getD_set_ne hit]; exact h4 i
      · show s.N_B = (s.basin_ids.set _ 3).count 2
        rw [count_set_zero htl h0 3 2 (by decide), h5]; simp
      · show s.N_c + 1 = (s.basin_ids.set _ 3).count 3
        rw [count_set_zero htl h0 3 3 (by decide), h6]; simp
    · rw [if_neg hcond]
      refine ⟨h1, h2, ?_, h4, h5, h6⟩
      intro i
      constructor
      · intro hh
        obtain ⟨a, b, e', hs, hd, ht⟩ := (h3 i).mp hh
        exact ⟨a, b, e', Or.inl hs, hd, ht⟩
      · rintro ⟨a, b, e', hs | hs, hd, ht⟩
        · exact (h3 i).mpr ⟨a, b, e', hs, hd, ht⟩
        · subst hs
          subst ht
          have hne : s.basin_ids.getD (ktn.edge e').to_node 0 ≠ 0 := fun h0 => hcond ⟨b, h0⟩
          rcases h4 (ktn.edge e').to_node with h0 | h0 | h0
          · exact absurd h0 hne
          · exact absurd ((h2 _).mp h0).2 b
          · exact h0

theorem inv2_edges (ktn : Network) (c : Int) (hid : ids_in_order ktn) (es : List Nat) :
    ∀ (S : Nat → Prop) (s : Basin),
      (∀ ei ∈ es, (ktn.edge ei).to_node < ktn.nodes.length) → Inv2 ktn c S s →
      Inv2 ktn c (fun x => S x ∨ x ∈ es) (es.foldl (mark_absorbing_edge ktn c) s) := by
  induction es with
  | nil =>
    intro S s _ h
    exact inv2_congr ktn c S _ s (fun x => by simp) h
  | cons e es ih =>
    intro S s hv h
    rw [List.foldl_cons]
    have h1 := inv2_edge ktn c hid S s e (hv e (List.mem_cons_self _ _)) h
    have h2 := ih _ _ (fun x hx => hv x (List.mem_cons_of_mem _ hx)) h1
    refine inv2_congr ktn c _ _ _ (fun x => ?_) h2
    simp only [List.mem_cons]
    tauto

theorem inv2_node (ktn : Network) (c : Int) (hid : ids_in_order ktn) (hval : targets_valid ktn)
    (k : Nat) (hk : k < ktn.nodes.length) (s : Basin) (h : Inv2 ktn c (scanned ktn c k) s) :
    Inv2 ktn c (scanned ktn c (k + 1)) (mark_absorbing_node ktn c s k) := by
  unfold mark_absorbing_node
  by_cases h2 : s.basin_ids.getD k 0 = 2
  · have hc : (ktn.node k).comm_id = c := ((h.2.1 k).mp h2).2
    simp only [h2, ne_eq, not_true_eq_false, if_false]
    refine inv2_congr ktn c _ _ _ (fun x => ?_) (inv2_edges ktn c hid _ _ s (hval k hk) h)
    unfold scanned
    constructor
    · rintro (⟨j, hj, hcj, hm⟩ | hm)
      · exact ⟨j, by omega, hcj, hm⟩
      · exact ⟨k, by omega, hc, hm⟩
    · rintro ⟨j, hj, hcj, hm⟩
      rcases Nat.lt_succ_iff_lt_or_eq.mp hj with hlt | heq
      · exact Or.inl ⟨j, hlt, hcj, hm⟩
      · subst heq; exact Or.inr hm
  · have hc : (ktn.node k).comm_id ≠ c := fun hc => h2 ((h.2.1 k).mpr ⟨hk, hc⟩)
    simp only [ne_eq, h2, not_false_eq_true, if_true]
    refine inv2_congr ktn c _ _ _ (fun x => ?_) h
    unfold scanned
    constructor
    · rintro ⟨j, hj, hcj, hm⟩; exact ⟨j, by omega, hcj, hm⟩
    · rintro ⟨j, hj, hcj, hm⟩
      rcases Nat.lt_succ_iff_lt_or_eq.mp hj with hlt | heq
      · exact ⟨j, hlt, hcj, hm⟩
      · subst heq; exact absurd hcj hc

theorem inv2_fold (ktn : Network) (c : Int) (hid : ids_in_order ktn) (hval : targets_valid ktn)
    (s : Basin) (h : Inv2 ktn c (scanned ktn c 0) s) (k : Nat) (hk : k ≤ ktn.nodes.length) :
    Inv2 ktn c (scanned ktn c k) ((List.range k).foldl (mark_absorbing_node ktn c) s) := by
  induction k with
  | zero => simpa using h
  | succ k ih =>
    rw [List.range_succ, List.foldl_append]
    exact inv2_node ktn c hid hval k (by omega) _ (ih (by omega))

theorem inv1_to_inv2 (ktn : Network) (c : Int) (hid : ids_in_order ktn) (s : Basin)
    (h : Inv1 ktn c ktn.n_nodes s) : Inv2 ktn c (scanned ktn c 0) s := by
  obtain ⟨h1, h2, h3, h4, h5⟩ := h
  rw [hid.1] at h1 h2
  refine ⟨h1, ?_, ?_, ?_, h3, by rw [h4, h5]⟩
  · intro i
    rw [h2 i]
    by_cases hc : i < ktn.nodes.length ∧ (ktn.node i).comm_id = c
    · simp [hc]
    · simp [hc]
  · intro i
    rw [h2 i]
    constructor
    · intro hh
      split at hh <;> exact absurd hh (by decide)
    · rintro ⟨_, _, ei, ⟨j, hj, _⟩, _⟩
      exact absurd hj (by omega)
  · intro i
    rw [h2 i]
    by_cases hc : i < ktn.nodes.length ∧ (ktn.node i).comm_id = c
    · simp [hc]
    · simp [hc]

/-- The classifier establishes the labelling invariant over all scanned edges. -/
theorem classify_inv (ktn : Network) (c : Int) (hid : ids_in_order ktn)
    (hval : targets_valid ktn) :
    Inv2 ktn c (scanned ktn c ktn.nodes.length) (classify ktn c) := by
  unfold classify
  have h1 := inv1_fold ktn c ktn.n_nodes (le_refl _)
  have h2 := inv1_to_inv2 ktn c hid _ h1
  have h3 := inv2_fold ktn c hid hval _ h2 ktn.nodes.length (le_refl _)
  rw [hid.1]
  rw [hid.1] at h3
  exact h3

theorem n_to_eliminate_neg (st : State) : n_to_eliminate st < 0 ↔ st.nelim < 0 := by
  unfold n_to_eliminate
  split <;> omega

/-- With a current node, community-based labelling and `nelim >= 0`,
`setup_basin_sets` returns the state with the classifier's labelling. -/
theorem setup_basin_sets_eq (orc : Oracle) (ktn : Network) (st : State) (eps : Nat)
    (heps : st.epsilon = some eps) (hbins : st.adaptivebins = false) (hnelim : 0 ≤ st.nelim) :
    setup_basin_sets orc ktn st =
      .ok { st with N := 0, basin := classify ktn (ktn.node eps).comm_id,
                    eliminated_nodes := [], nodemap := [] } := by
  have hn : ∀ s : State, s.nelim = st.nelim → ¬ n_to_eliminate s < 0 := by
    intro s hs
    rw [n_to_eliminate_neg, hs]
    exact not_lt.mpr hnelim
  simp only [setup_basin_sets, choose_epsilon, heps, hbins, label_basin, Bool.false_eq_true,
    if_false]
  split
  · rename_i h
    exact absurd h (hn _ rfl)
  · rfl

/-- With a current node and `nelim < 0`, `setup_basin_sets` ends with the
exception of line 112. -/
theorem setup_basin_sets_negative (orc : Oracle) (ktn : Network) (st : State) (eps : Nat)
    (heps : st.epsilon = some eps) (hnelim : st.nelim < 0) :
    setup_basin_sets orc ktn st = .error .length_error := by
  have hn : ∀ s : State, s.nelim = st.nelim → n_to_eliminate s < 0 := by
    intro s hs
    rw [n_to_eliminate_neg, hs]
    exact hnelim
  simp only [setup_basin_sets, choose_epsilon, heps]
  split
  · rfl
  · rename_i h
    exact (h (hn _ rfl)).elim

/-- C1: for a network that stores node id i+1 at position i, any current node
and `nelim >= 0`, `setup_basin_sets` returns with: label 2 exactly on the nodes of the
community of the current node, label 3 exactly on the nodes of another community
that are the target of a live edge of the adjacency list of a label-2 node,
label 0 elsewhere, `N_B` the number of labels 2 and `N_c` the number of labels 3. -/
theorem setup_basin_sets_labels (orc : Oracle) (ktn : Network) (st : State) (eps : Nat)
    (hid : ids_in_order ktn) (hval : targets_valid ktn)
    (heps : st.epsilon = some eps) (hbins : st.adaptivebins = false)
    (hnelim : 0 ≤ st.nelim) :
    ∃ st', setup_basin_sets orc ktn st = .ok st' ∧
      st'.basin.basin_ids.length = ktn.nodes.length ∧
      (∀ i, i < ktn.nodes.length →
        (st'.basin.basin_ids.getD i 0 = 2 ↔
          (ktn.node i).comm_id = (ktn.node eps).comm_id) ∧
        (st'.basin.basin_ids.getD i 0 = 3 ↔
          ((ktn.node i).comm_id ≠ (ktn.node eps).comm_id ∧
            ∃ j, j < ktn.nodes.length ∧ st'.basin.basin_ids.getD j 0 = 2 ∧
              ∃ ei ∈ (ktn.node j).top_from,
                (ktn.edge ei).deadts = false ∧ (ktn.edge ei).to_node = i)) ∧
        (st'.basin.basin_ids.getD i 0 ≠ 2 → st'.basin.basin_ids.getD i 0 ≠ 3 →
          st'.basin.basin_ids.getD i 0 = 0)) ∧
      st'.basin.N_B = st'.basin.basin_ids.count 2 ∧
      st'.basin.N_c = st'.basin.basin_ids.count 3 := by
  obtain ⟨h1, h2, h3, h4, h5, h6⟩ := classify_inv ktn (ktn.node eps).comm_id hid hval
  refine ⟨{ st with N := 0, basin := classify ktn (ktn.node eps).comm_id,
                    eliminated_nodes := [], nodemap := [] }, ?_, h1, ?_, h5, h6⟩
  · exact setup_basin_sets_eq orc ktn st eps heps hbins hnelim
  · intro i hi
    refine ⟨?_, ?_, ?_⟩
    · rw [h2 i]; exact ⟨fun h => h.2, fun h => ⟨hi, h⟩⟩
    · rw [h3 i]
      constructor
      · rintro ⟨_, hc, ei, ⟨j, hj, hcj, hm⟩, hd, ht⟩
        exact ⟨hc, j, hj, (h2 j).mpr ⟨hj, hcj⟩, ei, hm, hd, ht⟩
      · rintro ⟨hc, j, hj, h2j, ei, hm, hd, ht⟩
        exact ⟨hi, hc, ei, ⟨j, hj, ((h2 j).mp h2j).2, hm⟩, hd, ht⟩
    · intro n2 n3
      rcases h4 i with h | h | h
      · exact h
      · exact absurd h n2
      · exact absurd h n3

/-- Witness for C1: the triangle network with the current node at position 0
and `nelim = 3`. -/
theorem setup_basin_sets_labels_witness :
    ids_in_order triangle ∧ targets_valid triangle ∧ (0 : Int) ≤ (start_at 0 3).nelim ∧
    ∃ st', setup_basin_sets orc0 triangle (start_at 0 3) = .ok st' ∧
      st'.basin.basin_ids.length = triangle.nodes.length ∧
      (∀ i, i < triangle.nodes.length →
        (st'.basin.basin_ids.getD i 0 = 2 ↔
          (triangle.node i).comm_id = (triangle.node 0).comm_id) ∧
        (st'.basin.basin_ids.getD i 0 = 3 ↔
          ((triangle.node i).comm_id ≠ (triangle.node 0).comm_id ∧
            ∃ j, j < triangle.nodes.length ∧ st'.basin.basin_ids.getD j 0 = 2 ∧
              ∃ ei ∈ (triangle.node j).top_from,
                (triangle.edge ei).deadts = false ∧ (triangle.edge ei).to_node = i)) ∧
        (st'.basin.basin_ids.getD i 0 ≠ 2 → st'.basin.basin_ids.getD i 0 ≠ 3 →
          st'.basin.basin_ids.getD i 0 = 0)) ∧
      st'.basin.N_B = st'.basin.basin_ids.count 2 ∧
      st'.basin.N_c = st'.basin.basin_ids.count 3 :=
  have h1 : ids_in_order triangle := by unfold ids_in_order; decide!
  have h2 : targets_valid triangle := by unfold targets_valid; decide!
  ⟨h1, h2, by decide, setup_basin_sets_labels orc0 triangle (start_at 0 3) 0 h1 h2 rfl rfl
    (by decide)⟩

/-! ## Claims the code does not meet, evaluated at a failing input -/

/-- C2 (failing input): the chain 1 - 2 - 3 is well formed, its live edges come
in live reverse pairs and `udeg` counts the live outgoing edges; with current
node 1 the classifier counts `N_e = 3`, because the out-degree of the boundary node 2
includes its edge to node 3; `get_subnetwork` copies two edges and its
consistency check fails. -/
theorem get_subnetwork_check_fails_on_chain3 :
    ids_in_order chain3 ∧ adj_valid chain3 ∧ edges_paired chain3 ∧ udeg_counts chain3 ∧
    (setup_basin_sets orc0 chain3 (start_at 0 1)).map (fun st => st.basin) =
      .ok { basin_ids := [2, 3, 0], N_B := 1, N_c := 1, N_e := 3 } ∧
    (build_subnetwork chain3 1 (classify chain3 1) []).net.edges.length = 2 ∧
    get_subnetwork chain3 1 (classify chain3 1) [] = .error .subnetwork_mismatch := by
  decide!

/-- C4 (failing input): the eight-node network is well formed and every row
sums to 1. After four eliminations the
rows of the remaining nodes (positions 4 to 7) sum to 1; eliminating node 5
(position 4) leaves the rows of nodes 6 and 7 (positions 5 and 6) with sums
2/3 and 7/9, and adds no edge between them. -/
theorem gt_iteration_breaks_row_sum :
    ids_in_order eight_nodes ∧ adj_valid eight_nodes ∧ edges_paired eight_nodes ∧
    udeg_counts eight_nodes ∧ (List.range 8).all (fun p => row_sum eight_nodes p = 1) ∧
    (basin_pass eight_nodes 0 4).map (fun st =>
      ([4, 5, 6, 7].map (fun p => ((st.ktn_kps.node p).eliminated, row_sum st.ktn_kps p)),
       row_sum (gt_iteration st.nodemap st.ktn_kps 4) 5,
       row_sum (gt_iteration st.nodemap st.ktn_kps 4) 6,
       (gt_iteration st.nodemap st.ktn_kps 4).edges.length - st.ktn_kps.edges.length)) =
    .ok ([(false, 1), (false, 1), (false, 1), (false, 1)], 2 / 3, 7 / 9, 0) := by
  decide!

/-- C7 (failing input): the triangle network is well formed and every row sums
to 1. With `nelim = 3`, in the macro-step started at node 1 or at node 2 the
first pass of `sample_absorbing_node` selects no edge, since every neighbour of
the start node is eliminated, and line 180 tests the uninitialised `next_node`:
node 4 is not sampled. Started at node 3 the macro-step returns node 4. -/
theorem sample_absorbing_node_fails_on_triangle :
    ids_in_order triangle ∧ adj_valid triangle ∧ edges_paired triangle ∧
    udeg_counts triangle ∧ (List.range 4).all (fun p => row_sum triangle p = 1) ∧
    macro_step orc0 triangle 10 (start_at 0 3) = .error .uninitialised_next_node ∧
    macro_step orc0 triangle 10 (start_at 1 3) = .error .uninitialised_next_node ∧
    (macro_step orc0 triangle 10 (start_at 2 3)).map (fun r => r.2.2.epsilon) =
      .ok (some 3) := by
  decide!

/-- C8 (failing input): node 1 of the untransformed triangle has the live
edges to node 2 and to node 3, of weight 1/2 each, in this order. With the draw
1/4 the running sum exceeds the draw at the first edge, with the draw 3/4 at the
second; the code moves to node 3 for both draws. -/
theorem sample_step_ignores_draw :
    (basin_pass triangle 0 0).map (fun st =>
      ((st.ktn_kps_orig.node 0).top_from.map (fun ei =>
          ((st.ktn_kps_orig.node (st.ktn_kps_orig.edge ei).to_node).node_id,
           (st.ktn_kps_orig.edge ei).t)),
       (sample_step st true (st.ktn_kps.node 0) (1 / 4)).map (fun n => n.node_id),
       (sample_step st true (st.ktn_kps.node 0) (3 / 4)).map (fun n => n.node_id))) =
    .ok ([(2, 1 / 2), (3, 1 / 2)], .ok 3, .ok 3) := by
  decide!

/-- C10 (failing input): on the two-node chain the first macro-step reaches
node 2 of macrostate A, and afterwards `epsilon` is node 2 (position 1), not
null; with `n_abpaths = 2` the run goes on from node 2 and takes three
macro-steps, the second of which leaves A. -/
theorem epsilon_not_reset_after_reaching_A :
    ids_in_order two_chain ∧ adj_valid two_chain ∧ edges_paired two_chain ∧
    udeg_counts two_chain ∧
    (macro_step orc0 two_chain 10 (start_at 0 1)).map (fun r => (r.1, r.2.2.epsilon)) =
      .ok (true, some 1) ∧
    (run_enhanced_kmc orc0 two_chain 10 { start_at 0 1 with n_abpaths := 2 }).map
      (fun r => (r.steps.map (fun x => x.1), r.st.epsilon)) =
      .ok ([true, false, true], some 1) := by
  decide!

/-! ## The driver -/

theorem choose_epsilon_frame (orc : Oracle) (ktn : Network) (st : State) :
    (choose_epsilon orc ktn st).maxit = st.maxit ∧
    (choose_epsilon orc ktn st).n_abpaths = st.n_abpaths ∧
    (choose_epsilon orc ktn st).walker = st.walker ∧
    (choose_epsilon orc ktn st).nelim = st.nelim := by
  unfold choose_epsilon
  cases st.epsilon with
  | some e => exact ⟨rfl, rfl, rfl, rfl⟩
  | none =>
    simp only
    split
    · exact ⟨rfl, rfl, rfl, rfl⟩
    · split <;> exact ⟨rfl, rfl, rfl, rfl⟩

theorem setup_basin_sets_frame (orc : Oracle) (ktn : Network) (st st1 : State)
    (h : setup_basin_sets orc ktn st = .ok st1) :
    st1.maxit = st.maxit ∧ st1.n_abpaths = st.n_abpaths ∧ st1.walker = st.walker ∧
    st1.nelim = st.nelim := by
  unfold setup_basin_sets at h
  have hf := choose_epsilon_frame orc ktn { st with N := 0 }
  revert h
  simp only
  split
  · intro h; cases h
  · intro h
    split at h
    · cases h
    · injection h with h
      subst h
      exact hf

theorem gt_loop_frame (gt_pq : List Nat) : ∀ st : State,
    (gt_loop gt_pq st).maxit = st.maxit ∧ (gt_loop gt_pq st).n_abpaths = st.n_abpaths ∧
    (gt_loop gt_pq st).walker = st.walker ∧ (gt_loop gt_pq st).nelim = st.nelim := by
  induction gt_pq with
  | nil => intro st; exact ⟨rfl, rfl, rfl, rfl⟩
  | cons a q ih =>
    intro st
    unfold gt_loop
    split
    · exact ih _
    · exact ⟨rfl, rfl, rfl, rfl⟩

theorem graph_transformation_frame (ktn : Network) (eps : Nat) (st st2 : State)
    (h : graph_transformation ktn eps st = .ok st2) :
    st2.maxit = st.maxit ∧ st2.n_abpaths = st.n_abpaths ∧ st2.walker = st.walker ∧
    st2.nelim = st.nelim := by
  unfold graph_transformation at h
  split at h
  · cases h
  · split at h
    · cases h
    · simp only at h
      split at h
      · cases h
      · injection h with h
        subst h
        exact gt_loop_frame _ _

theorem sample_absorbing_node_frame (orc : Oracle) (ktn : Network) (fuel eps : Nat)
    (st st3 : State) (nd : Node) (h : sample_absorbing_node orc ktn fuel eps st = .ok (nd, st3)) :
    st3 = { st with n_unif := st3.n_unif } := by
  unfold sample_absorbing_node at h
  revert h
  simp only
  split
  · intro h; cases h
  · split
    · intro h; cases h
    · intro h
      injection h with h
      injection h with h1 h2
      subst h2
      rfl

theorem undo_fold (l : List Nat) (st : State) : l.foldl undo_gt_iteration st = st := by
  induction l with
  | nil => rfl
  | cons a l ih => simpa [undo_gt_iteration] using ih

/-- One successful macro-step keeps the parameters, adds the escape time to the
walker time and one to the step count. -/
theorem macro_step_frame (orc : Oracle) (ktn : Network) (fuel : Nat) (st st' : State)
    (a : Bool) (t : ℚ) (h : macro_step orc ktn fuel st = .ok (a, t, st')) :
    st'.maxit = st.maxit ∧ st'.n_abpaths = st.n_abpaths ∧
    st'.walker.k = st.walker.k + 1 ∧ st'.walker.t = st.walker.t + t := by
  unfold macro_step at h
  split at h
  · cases h
  · rename_i st1 h1
    obtain ⟨f1, f2, f3, _⟩ := setup_basin_sets_frame orc ktn st st1 h1
    split at h
    · cases h
    · rename_i eps he
      split at h
      · cases h
      · rename_i st2 h2
        obtain ⟨g1, g2, g3, _⟩ := graph_transformation_frame ktn eps st1 st2 h2
        split at h
        · cases h
        · rename_i nd st3 h3
          have h4 := sample_absorbing_node_frame orc ktn fuel eps st2 st3 nd h3
          simp only [iterative_reverse_randomisation, undo_fold, update_path_quantities] at h
          injection h with h
          injection h with ha h
          injection h with ht hs
          subst hs
          subst ht
          rw [h4]
          simp only
          rw [g1, g2, g3, f1, f2, f3]
          exact ⟨rfl, rfl, rfl, rfl⟩

theorem a_hits_cons (x : Bool × ℚ) (l : List (Bool × ℚ)) :
    a_hits (x :: l) = (if x.1 then 1 else 0) + a_hits l := by
  unfold a_hits
  cases hx : x.1 <;> simp [List.filter, hx]
  omega

theorem kmc_loop_trace (orc : Oracle) (ktn : Network) (fuel : Nat) (budget : Nat) :
    ∀ r : RunResult, r.st.maxit ≤ r.n_kpsit + budget →
    ∃ ys : List (Bool × ℚ × State),
      steps_from orc ktn fuel r.st ys ∧
      (∀ j, j < ys.length →
        r.n_ab + a_hits ((step_records ys).take j) < r.st.n_abpaths ∧
        r.n_kpsit + j < r.st.maxit) ∧
      (last_state r.st ys).walker.k = r.st.walker.k + ys.length ∧
      (last_state r.st ys).walker.t = r.st.walker.t + ((step_records ys).map (fun x => x.2)).sum ∧
      ((¬ (r.n_ab + a_hits (step_records ys) < r.st.n_abpaths ∧
            r.n_kpsit + ys.length < r.st.maxit) ∧
        kmc_loop orc ktn fuel budget r =
          .ok { n_ab := r.n_ab + a_hits (step_records ys), n_kpsit := r.n_kpsit + ys.length,
                steps := r.steps ++ step_records ys, st := last_state r.st ys }) ∨
       ((r.n_ab + a_hits (step_records ys) < r.st.n_abpaths ∧
            r.n_kpsit + ys.length < r.st.maxit) ∧
        ∃ f, macro_step orc ktn fuel (last_state r.st ys) = .error f ∧
          kmc_loop orc ktn fuel budget r = .error f)) := by
  induction budget with
  | zero =>
    intro r hb
    have hstop : ¬ (r.n_ab < r.st.n_abpaths ∧ r.n_kpsit < r.st.maxit) := by
      rintro ⟨_, h⟩
      simp at hb
      omega
    refine ⟨[], trivial, ?_, ?_, ?_, Or.inl ⟨?_, ?_⟩⟩
    · intro j hj; exact absurd hj (Nat.not_lt_zero j)
    · show r.st.walker.k = r.st.walker.k + ((0 : Nat) : Int)
      simp
    · show r.st.walker.t = r.st.walker.t + 0
      simp
    · simpa [step_records, a_hits] using hstop
    · unfold kmc_loop
      rw [if_neg hstop]
      simp [step_records, a_hits, last_state]
  | succ b ih =>
    intro r hb
    by_cases hc : r.n_ab < r.st.n_abpaths ∧ r.n_kpsit < r.st.maxit
    · cases hm : macro_step orc ktn fuel r.st with
      | error f =>
        refine ⟨[], trivial, ?_, ?_, ?_, Or.inr ⟨?_, f, hm, ?_⟩⟩
        · intro j hj; exact absurd hj (Nat.not_lt_zero j)
        · show r.st.walker.k = r.st.walker.k + ((0 : Nat) : Int)
          simp
        · show r.st.walker.t = r.st.walker.t + 0
          simp
        · simpa [step_records, a_hits] using hc
        · unfold kmc_loop
          rw [if_pos hc]
          simp only [hm]
      | ok x =>
        obtain ⟨a, t, st1⟩ := x
        obtain ⟨m1, m2, m3, m4⟩ := macro_step_frame orc ktn fuel r.st st1 a t hm
        obtain ⟨ys, s1, s2, s3, s4, s5⟩ := ih
          { n_ab := if a then r.n_ab + 1 else r.n_ab, n_kpsit := r.n_kpsit + 1,
            steps := r.steps ++ [(a, t)], st := st1 }
          (by
            show st1.maxit ≤ r.n_kpsit + 1 + (b : Int)
            rw [m1]
            push_cast at hb
            omega)
        simp only at s2 s3 s4 s5
        have hab : ∀ l : List (Bool × ℚ),
            (if a then r.n_ab + 1 else r.n_ab) + (a_hits l : Int) =
              r.n_ab + (a_hits ((a, t) :: l) : Int) := by
          intro l
          rw [a_hits_cons]
          cases a
          · simp
          · simp only [if_true]
            push_cast
            ring
        have hrec : step_records ((a, t, st1) :: ys) = (a, t) :: step_records ys := rfl
        have hlen : (((a, t, st1) :: ys).length : Int) = 1 + ys.length := by
          rw [List.length_cons]; push_cast; ring
        have hk : r.n_kpsit + 1 + (ys.length : Int) =
            r.n_kpsit + (((a, t, st1) :: ys).length : Int) := by
          rw [hlen]; ring
        have hloop : kmc_loop orc ktn fuel (b + 1) r = kmc_loop orc ktn fuel b
            { n_ab := if a then r.n_ab + 1 else r.n_ab, n_kpsit := r.n_kpsit + 1,
              steps := r.steps ++ [(a, t)], st := st1 } := by
          rw [kmc_loop]
          rw [if_pos hc]
          simp only [hm]
        refine ⟨(a, t, st1) :: ys, ⟨hm, s1⟩, ?_, ?_, ?_, ?_⟩
        · intro j hj
          cases j with
          | zero =>
            simp only [List.take_zero]
            simpa [a_hits] using hc
          | succ j =>
            have hj' : j < ys.length := by
              rw [List.length_cons] at hj; omega
            obtain ⟨u1, u2⟩ := s2 j hj'
            rw [hrec, List.take_succ_cons, ← hab]
            rw [m1, m2] at *
            refine ⟨u1, ?_⟩
            push_cast
            omega
        · show (last_state st1 ys).walker.k = _
          rw [s3, m3, hlen]; ring
        · show (last_state st1 ys).walker.t = _
          rw [s4, m4, hrec, List.map_cons, List.sum_cons]; ring
        · rw [hloop]
          rw [hab, hk, m1, m2] at s5
          rw [← hrec] at s5
          rcases s5 with ⟨p, q⟩ | ⟨p, q⟩
          · refine Or.inl ⟨p, ?_⟩
            rw [q, hrec]
            simp [List.append_assoc]
            rfl
          · exact Or.inr ⟨p, q⟩
    · refine ⟨[], trivial, ?_, ?_, ?_, Or.inl ⟨?_, ?_⟩⟩
      · intro j hj; exact absurd hj (Nat.not_lt_zero j)
      · show r.st.walker.k = r.st.walker.k + ((0 : Nat) : Int)
        simp
      · show r.st.walker.t = r.st.walker.t + 0
        simp
      · simpa [step_records, a_hits] using hc
      · unfold kmc_loop
        rw [if_neg hc]
        simp [step_records, a_hits, last_state]

/-- C9: the driver performs the macro-steps `xs` one after the other, each from
the state the previous one has returned, and before each of them the count of
A-hits is below `n_abpaths` and the number of steps made is below `maxit`; so
it makes at most `maxit` steps, and none when `n_abpaths <= 0` or `maxit <= 0`.
After these steps the walker's step count has grown by their number and its
time by the sum of their escape times. Then either the count of A-hits has
reached `n_abpaths` or the number of steps has reached `maxit`, and the driver
returns with these steps; or neither holds, the next macro-step fails, and the
driver ends with that failure. So when every macro-step succeeds the driver
returns after exactly `k` macro-steps, `k` being the least number at which one
of the two bounds is reached. -/
theorem run_enhanced_kmc_accounting (orc : Oracle) (ktn : Network) (fuel : Nat) (st : State) :
    ∃ xs : List (Bool × ℚ × State),
      steps_from orc ktn fuel st xs ∧
      (∀ j, j < xs.length →
        (a_hits ((step_records xs).take j) : Int) < st.n_abpaths ∧ (j : Int) < st.maxit) ∧
      xs.length ≤ st.maxit.toNat ∧
      (st.n_abpaths ≤ 0 ∨ st.maxit ≤ 0 → xs = []) ∧
      (last_state st xs).walker.k = st.walker.k + xs.length ∧
      (last_state st xs).walker.t = st.walker.t + ((step_records xs).map (fun x => x.2)).sum ∧
      (((st.n_abpaths ≤ a_hits (step_records xs) ∨ st.maxit ≤ xs.length) ∧
        run_enhanced_kmc orc ktn fuel st =
          .ok { n_ab := a_hits (step_records xs), n_kpsit := xs.length,
                steps := step_records xs, st := last_state st xs }) ∨
       (((a_hits (step_records xs) : Int) < st.n_abpaths ∧ (xs.length : Int) < st.maxit) ∧
        ∃ f, macro_step orc ktn fuel (last_state st xs) = .error f ∧
          run_enhanced_kmc orc ktn fuel st = .error f)) := by
  obtain ⟨xs, s1, s2, s3, s4, s5⟩ := kmc_loop_trace orc ktn fuel st.maxit.toNat { st := st }
    (by
      show st.maxit ≤ (0 : Int) + (st.maxit.toNat : Int)
      have := Int.self_le_toNat st.maxit
      omega)
  have e1 : ∀ n : Int, (0 : Int) + n = n := fun n => Int.zero_add n
  simp only [e1] at s2 s3 s4 s5
  have s2' : ∀ j, j < xs.length →
      (a_hits ((step_records xs).take j) : Int) < st.n_abpaths ∧ (j : Int) < st.maxit := by
    intro j hj
    have := s2 j hj
    exact this
  have hlen : xs.length ≤ st.maxit.toNat := by
    by_contra hc
    have hpos : 0 < xs.length := by omega
    have := (s2' (xs.length - 1) (by omega)).2
    omega
  refine ⟨xs, s1, s2', hlen, ?_, s3, s4, ?_⟩
  · intro hz
    by_contra hne
    have hpos : 0 < xs.length := List.length_pos.mpr hne
    have h := s2' 0 hpos
    simp only [List.take_zero] at h
    have h1 : (a_hits ([] : List (Bool × ℚ)) : Int) = 0 := rfl
    rw [h1] at h
    rcases hz with hz | hz
    · omega
    · have := h.2
      simp at this
      omega
  · rcases s5 with ⟨p, q⟩ | ⟨p, q⟩
    · refine Or.inl ⟨?_, ?_⟩
      · by_contra hc
        push_neg at hc
        exact p ⟨hc.1, hc.2⟩
      · unfold run_enhanced_kmc
        rw [q]
        rfl
    · refine Or.inr ⟨p, ?_⟩
      obtain ⟨f, hf, hr⟩ := q
      exact ⟨f, hf, hr⟩

/-- Instance of C9: the run on the two-node chain with `n_abpaths = 2`, which
returns after three macro-steps. -/
theorem run_enhanced_kmc_accounting_witness :
    (run_enhanced_kmc orc0 two_chain 10 { start_at 0 1 with n_abpaths := 2 }).map
      (fun r => (r.n_kpsit, r.n_ab, r.steps.map (fun x => x.1))) =
      .ok (3, 2, [true, false, true]) ∧
    ∃ xs : List (Bool × ℚ × State),
      steps_from orc0 two_chain 10 { start_at 0 1 with n_abpaths := 2 } xs ∧
      (∀ j, j < xs.length →
        (a_hits ((step_records xs).take j) : Int) < 2 ∧ (j : Int) < 5) ∧
      xs.length ≤ 5 ∧
      ((2 : Int) ≤ 0 ∨ (5 : Int) ≤ 0 → xs = []) ∧
      (last_state { start_at 0 1 with n_abpaths := 2 } xs).walker.k = 0 + xs.length ∧
      (last_state { start_at 0 1 with n_abpaths := 2 } xs).walker.t =
        0 + ((step_records xs).map (fun x => x.2)).sum ∧
      ((((2 : Int) ≤ a_hits (step_records xs) ∨ (5 : Int) ≤ xs.length) ∧
        run_enhanced_kmc orc0 two_chain 10 { start_at 0 1 with n_abpaths := 2 } =
          .ok { n_ab := a_hits (step_records xs), n_kpsit := xs.length,
                steps := step_records xs,
                st := last_state { start_at 0 1 with n_abpaths := 2 } xs }) ∨
       (((a_hits (step_records xs) : Int) < 2 ∧ (xs.length : Int) < 5) ∧
        ∃ f, macro_step orc0 two_chain 10
              (last_state { start_at 0 1 with n_abpaths := 2 } xs) = .error f ∧
          run_enhanced_kmc orc0 two_chain 10 { start_at 0 1 with n_abpaths := 2 } =
            .error f)) :=
  ⟨by decide!,
   run_enhanced_kmc_accounting orc0 two_chain 10 { start_at 0 1 with n_abpaths := 2 }⟩

/-! ## Ordered maps -/

theorem map_set_append_gt {β : Type} (A : List (Nat × β)) (k : Nat) (v : β)
    (h : ∀ p ∈ A, p.1 < k) : map_set A k v = A ++ [(k, v)] := by
  induction A with
  | nil => rfl
  | cons a A ih =>
    obtain ⟨k', v'⟩ := a
    have hk : k' < k := h (k', v') (List.mem_cons_self _ _)
    have h1 : ¬ k < k' := by omega
    have h2 : ¬ k = k' := by omega
    simp only [map_set, h1, h2, if_false, List.cons_append]
    rw [ih (fun p hp => h p (List.mem_cons_of_mem _ hp))]

theorem map_set_of_mem {β : Type} (M : List (Nat × β)) (k : Nat) (v : β)
    (hs : M.Pairwise (fun a b => a.1 < b.1)) (hm : (k, v) ∈ M) : map_set M k v = M := by
  induction M with
  | nil => cases hm
  | cons a M ih =>
    obtain ⟨k', v'⟩ := a
    rw [List.pairwise_cons] at hs
    rcases List.mem_cons.mp hm with heq | hin
    · injection heq with e1 e2
      subst e1; subst e2
      simp [map_set]
    · have hlt : k' < k := hs.1 (k, v) hin
      have h1 : ¬ k < k' := by omega
      have h2 : ¬ k = k' := by omega
      simp only [map_set, h1, h2, if_false]
      rw [ih hs.2 hin]

theorem map_get_append_of_lt {β : Type} (d : β) (A B : List (Nat × β)) (k : Nat)
    (h : ∀ p ∈ A, p.1 ≠ k) : map_get d (A ++ B) k = map_get d B k := by
  induction A with
  | nil => rfl
  | cons a A ih =>
    obtain ⟨k', v'⟩ := a
    have hk : k' ≠ k := h (k', v') (List.mem_cons_self _ _)
    have h2 : ¬ k = k' := fun e => hk e.symm
    simp only [List.cons_append, map_get, h2, if_false]
    exact ih (fun p hp => h p (List.mem_cons_of_mem _ hp))

/-! ## Labelled positions -/

theorem labelled_succ (bids : List Nat) (k : Nat) :
    labelled bids (k + 1) =
      labelled bids k ++ (if bids.getD k 0 ≠ 0 then [k] else []) := by
  unfold labelled
  rw [List.range_succ, List.filter_append]
  simp only [List.filter_cons, List.filter_nil, decide_eq_true_eq]

theorem mem_labelled (bids : List Nat) (n i : Nat) :
    i ∈ labelled bids n ↔ i < n ∧ bids.getD i 0 ≠ 0 := by
  unfold labelled
  simp [List.mem_filter]

theorem labelled_length_mono (bids : List Nat) (k n : Nat) (h : k ≤ n) :
    (labelled bids k).length ≤ (labelled bids n).length := by
  induction n with
  | zero =>
    have : k = 0 := by omega
    subst this; exact le_refl _
  | succ n ih =>
    rcases Nat.lt_succ_iff_lt_or_eq.mp (Nat.lt_succ_of_le h) with hlt | heq
    · have := ih (by omega)
      rw [labelled_succ, List.length_append]
      omega
    · subst heq; exact le_refl _

theorem labelled_sorted (bids : List Nat) (n : Nat) :
    (labelled bids n).Pairwise (fun a b => a < b) := by
  unfold labelled
  exact List.Pairwise.filter _ (List.pairwise_lt_range n)

theorem labelled_nodup (bids : List Nat) (n : Nat) : (labelled bids n).Nodup :=
  (labelled_sorted bids n).imp (fun h => Nat.ne_of_lt h)

/-- The number of positions with a non-zero entry is the number of entries
that satisfy the predicate. -/
theorem filter_range_length (p : Nat → Bool) (l : List Nat) :
    ((List.range l.length).filter (fun i => p (l.getD i 0))).length = l.countP p := by
  induction l using List.reverseRecOn with
  | nil => rfl
  | append_singleton l a ih =>
    rw [List.length_append, List.length_singleton, List.range_succ, List.filter_append,
      List.length_append, List.countP_append]
    have h1 : (List.range l.length).filter (fun i => p ((l ++ [a]).getD i 0)) =
        (List.range l.length).filter (fun i => p (l.getD i 0)) := by
      apply List.filter_congr
      intro i hi
      rw [List.mem_range] at hi
      simp [List.getD_eq_getElem?_getD, List.getElem?_append_left hi]
    rw [h1, ih]
    congr 1
    have h2 : (l ++ [a]).getD l.length 0 = a := by
      simp [List.getD_eq_getElem?_getD]
    simp only [List.filter, h2, List.countP_cons, List.countP_nil]
    cases p a <;> simp

theorem labelled_length (bids : List Nat)
    (h : ∀ i, bids.getD i 0 = 0 ∨ bids.getD i 0 = 2 ∨ bids.getD i 0 = 3) :
    (labelled bids bids.length).length = bids.count 2 + bids.count 3 := by
  unfold labelled
  have h1 := filter_range_length (fun x => decide (x ≠ 0)) bids
  simp only at h1
  rw [h1]
  have hall : ∀ x ∈ bids, x = 0 ∨ x = 2 ∨ x = 3 := by
    intro x hx
    obtain ⟨i, hi, rfl⟩ := List.getElem_of_mem hx
    have := h i
    simpa [List.getD_eq_getElem?_getD, List.getElem?_eq_getElem hi] using this
  clear h h1
  induction bids with
  | nil => rfl
  | cons a l ih =>
    have ha := hall a (List.mem_cons_self _ _)
    have ih' := ih (fun x hx => hall x (List.mem_cons_of_mem _ hx))
    rw [List.countP_cons, List.count_cons, List.count_cons, ih']
    rcases ha with ha | ha | ha <;> subst ha <;> simp <;> omega

/-! ## The node loop of `get_subnetwork` -/

theorem target_map_append (ks : List Nat) (k : Nat) :
    target_map (ks ++ [k]) = target_map ks ++ [(k, ks.length)] := by
  unfold target_map
  rw [List.length_append, List.length_singleton, List.range_succ]
  rw [List.zip_append (by simp)]
  rfl

theorem target_map_keys (ks : List Nat) : (target_map ks).map Prod.fst = ks := by
  unfold target_map
  rw [List.map_fst_zip]
  simp

theorem target_map_key_mem (ks : List Nat) (p : Nat × Nat) (h : p ∈ target_map ks) :
    p.1 ∈ ks := by
  have : p.1 ∈ (target_map ks).map Prod.fst := List.mem_map_of_mem _ h
  rwa [target_map_keys] at this

theorem updAt_length {α : Type} (f : α → α) (i : Nat) (l : List α) :
    (updAt f i l).length = l.length := by
  induction l generalizing i with
  | nil => cases i <;> rfl
  | cons a l ih =>
    cases i with
    | zero => rfl
    | succ i => simp [updAt, ih]

theorem updAt_map_of_fixed {α β : Type} (f : α → α) (g : α → β) (h : ∀ x, g (f x) = g x)
    (i : Nat) (l : List α) : (updAt f i l).map g = l.map g := by
  induction l generalizing i with
  | nil => cases i <;> rfl
  | cons a l ih =>
    cases i with
    | zero => simp [updAt, h]
    | succ i => simp [updAt, ih]

theorem updAt_append_cons {α : Type} (f : α → α) (A : List α) (x : α) (B : List α) :
    updAt f A.length (A ++ x :: B) = A ++ f x :: B := by
  induction A with
  | nil => rfl
  | cons a A ih => simp [updAt, ih]

theorem getD_updAt {α : Type} (f : α → α) (d : α) (i j : Nat) (l : List α) :
    (updAt f i l).getD j d = if i = j ∧ j < l.length then f (l.getD j d) else l.getD j d := by
  induction l generalizing i j with
  | nil => cases i <;> simp [updAt]
  | cons a l ih =>
    cases i with
    | zero =>
      cases j with
      | zero => simp [updAt]
      | succ j => simp [updAt]
    | succ i =>
      cases j with
      | zero => simp [updAt]
      | succ j =>
        simp only [updAt, List.getD_cons_succ, ih, List.length_cons, Nat.add_lt_add_iff_right,
          Nat.add_right_cancel_iff]

theorem target_map_sorted (ks : List Nat) (h : ks.Pairwise (fun a b => a < b)) :
    (target_map ks).Pairwise (fun a b => a.1 < b.1) := by
  induction ks using List.reverseRecOn with
  | nil => exact List.Pairwise.nil
  | append_singleton ks k ih =>
    rw [List.pairwise_append] at h
    rw [target_map_append, List.pairwise_append]
    refine ⟨ih h.1, List.pairwise_singleton _ _, ?_⟩
    intro p hp q hq
    rw [List.mem_singleton] at hq
    subst hq
    exact h.2.2 p.1 (target_map_key_mem ks p hp) k (List.mem_singleton_self k)

theorem fold_map_set_nil (ks : List Nat) (h : ks.Pairwise (fun a b => a < b)) :
    (target_map ks).foldl (fun m p => map_set m p.1 p.2) [] = target_map ks := by
  induction ks using List.reverseRecOn with
  | nil => rfl
  | append_singleton ks k ih =>
    rw [List.pairwise_append] at h
    rw [target_map_append, List.foldl_append, ih h.1]
    simp only [List.foldl_cons, List.foldl_nil]
    apply map_set_append_gt
    intro p hp
    exact h.2.2 p.1 (target_map_key_mem ks p hp) k (List.mem_singleton_self k)

theorem fold_map_set_self (M L : List (Nat × Nat)) (hs : M.Pairwise (fun a b => a.1 < b.1))
    (hL : ∀ p ∈ L, p ∈ M) : L.foldl (fun m p => map_set m p.1 p.2) M = M := by
  induction L with
  | nil => rfl
  | cons p L ih =>
    rw [List.foldl_cons]
    have hp : (p.1, p.2) ∈ M := hL p (List.mem_cons_self _ _)
    rw [map_set_of_mem M p.1 p.2 hs hp]
    exact ih (fun q hq => hL q (List.mem_cons_of_mem _ hq))

theorem copied_nodes_snoc (ktn : Network) (ks : List Nat) (k T : Nat) (h : ks.length < T) :
    updAt (fun _ => (ktn.node k).copy) ks.length (copied_nodes ktn ks T) =
      copied_nodes ktn (ks ++ [k]) T := by
  unfold copied_nodes
  obtain ⟨m, hm⟩ : ∃ m, T - ks.length = m + 1 := ⟨T - ks.length - 1, by omega⟩
  have hm' : T - (ks ++ [k]).length = m := by
    rw [List.length_append, List.length_singleton]; omega
  rw [hm, hm', List.replicate_succ]
  have := updAt_append_cons (fun _ => (ktn.node k).copy)
    (ks.map (fun i => (ktn.node i).copy)) default (List.replicate m default)
  rw [List.length_map] at this
  rw [this, List.map_append]
  simp

/-- The node loop of `get_subnetwork`, in closed form. -/
theorem node_loop (ktn : Network) (b : Basin) (nm0 : List (Nat × Nat)) (n : Nat)
    (hT : (labelled b.basin_ids n).length ≤ b.N_B + b.N_c) (k : Nat) (hk : k ≤ n) :
    (List.range k).foldl (copy_node ktn b.basin_ids)
      ({ net := Network.mk_sized (b.N_B + b.N_c) b.N_e, nodemap := nm0 }, 0) =
    after_nodes ktn b nm0 k := by
  induction k with
  | zero =>
    simp only [List.range_zero, List.foldl_nil, after_nodes, labelled, List.filter_nil,
      target_map, List.length_nil, copied_nodes, List.map_nil, List.nil_append,
      Network.mk_sized, List.zip_nil_left]
    rfl
  | succ k ih =>
    rw [List.range_succ, List.foldl_append, ih (by omega)]
    simp only [List.foldl_cons, List.foldl_nil]
    unfold copy_node after_nodes
    by_cases hz : b.basin_ids.getD k 0 = 0
    · have hl : labelled b.basin_ids (k + 1) = labelled b.basin_ids k := by
        rw [labelled_succ, if_neg (fun h => h hz), List.append_nil]
      simp only [hz, if_true]
      rw [hl]
    · have hl : labelled b.basin_ids (k + 1) = labelled b.basin_ids k ++ [k] := by
        rw [labelled_succ, if_pos hz]
      have hlt : (labelled b.basin_ids k).length < b.N_B + b.N_c := by
        have := labelled_length_mono b.basin_ids (k + 1) n (by omega)
        rw [hl, List.length_append, List.length_singleton] at this
        omega
      simp only [hz, if_false]
      rw [hl, target_map_append, List.foldl_append, List.length_append, List.length_singleton]
      simp only [List.foldl_cons, List.foldl_nil, Network.updNode, Nat.add_sub_cancel,
        Network.mk_sized]
      rw [copied_nodes_snoc ktn _ k _ hlt]

/-! ## The edge loop of `get_subnetwork` -/

theorem built_at_length (ktn : Network) (nm : List (Nat × Nat)) (ps : List (Nat × Nat)) :
    ∀ m, (built_at ktn nm m ps).length = 2 * ps.length := by
  induction ps with
  | nil => intro m; rfl
  | cons q ps ih =>
    intro m
    obtain ⟨p, r⟩ := q
    simp only [built_at, List.length_cons, ih]
    omega

theorem built_at_append (ktn : Network) (nm : List (Nat × Nat)) (ps : List (Nat × Nat))
    (p r : Nat) : ∀ m, built_at ktn nm m (ps ++ [(p, r)]) =
      built_at ktn nm m ps ++
        [sub_edge ktn nm (ktn.edge p) (m + 2 * ps.length) (some (m + 2 * ps.length + 1)),
         sub_edge ktn nm (ktn.edge r) (m + 2 * ps.length + 1) (some (m + 2 * ps.length))] := by
  induction ps with
  | nil => intro m; simp [built_at]
  | cons q ps ih =>
    intro m
    obtain ⟨p', r'⟩ := q
    rw [List.cons_append]
    simp only [built_at]
    rw [ih (m + 2)]
    have h1 : m + 2 + 2 * ps.length = m + 2 * (ps.length + 1) := by omega
    simp only [List.cons_append, List.length_cons, h1]

theorem pair_idx_append (ps : List (Nat × Nat)) (p r : Nat) :
    pair_idx (ps ++ [(p, r)]) = pair_idx ps ++ [p, r] := by
  induction ps with
  | nil => rfl
  | cons q ps ih =>
    obtain ⟨p', r'⟩ := q
    rw [List.cons_append]
    simp only [pair_idx]
    rw [ih]
    rfl

theorem mem_pair_idx (ps : List (Nat × Nat)) (x : Nat) :
    x ∈ pair_idx ps ↔ ∃ q ∈ ps, x = q.1 ∨ x = q.2 := by
  induction ps with
  | nil => simp [pair_idx]
  | cons q ps ih =>
    obtain ⟨p, r⟩ := q
    simp only [pair_idx, List.mem_cons, ih]
    constructor
    · rintro (h | h | ⟨q, hq, h⟩)
      · exact ⟨(p, r), Or.inl rfl, Or.inl h⟩
      · exact ⟨(p, r), Or.inl rfl, Or.inr h⟩
      · exact ⟨q, Or.inr hq, h⟩
    · rintro ⟨q, hq | hq, h⟩
      · subst hq
        rcases h with h | h
        · exact Or.inl h
        · exact Or.inr (Or.inl h)
      · exact Or.inr (Or.inr ⟨q, hq, h⟩)

theorem push_edge_edges (net : Network) (e : Edge) :
    (push_edge net e).edges = net.edges ++ [e] := rfl

theorem edgeinv_congr (ktn : Network) (nm : List (Nat × Nat)) (S S' : Nat → Prop)
    (ps : List (Nat × Nat)) (s : SubBuild) (hS : ∀ x, S x ↔ S' x)
    (h : EdgeInv ktn nm S ps s) : EdgeInv ktn nm S' ps s := by
  obtain ⟨h1, h2, h3, h4, h5, h6⟩ := h
  refine ⟨h1, h2, h3, ?_, ?_, h6⟩
  · intro q hq
    obtain ⟨a, b⟩ := h4 q hq
    exact ⟨(hS _).mp a, b⟩
  · intro ei hs hl
    exact h5 ei ((hS _).mpr hs) hl

/-- One pass of the edge loop keeps the invariant. -/
theorem edgeinv_step (ktn : Network) (nm : List (Nat × Nat)) (hp : edges_paired ktn)
    (S : Nat → Prop) (ps : List (Nat × Nat)) (s : SubBuild) (ei : Nat)
    (hei : ei < ktn.edges.length) (h : EdgeInv ktn nm S ps s) :
    ∃ ps', EdgeInv ktn nm (fun x => S x ∨ x = ei) ps' (copy_edge ktn s ei) := by
  obtain ⟨h1, h2, h3, h4, h5, h6⟩ := h
  obtain ⟨hpos, hrev⟩ := hp ei hei
  unfold copy_edge
  simp only [hpos]
  by_cases hskip : (ktn.edge ei).deadts = true ∨ ei ∈ s.edgemask
  · rw [if_pos hskip]
    refine ⟨ps, h1, h2, h3, ?_, ?_, h6⟩
    · intro q hq
      obtain ⟨a, b⟩ := h4 q hq
      exact ⟨Or.inl a, b⟩
    · rintro x (hx | hx) hl
      · exact h5 x hx hl
      · subst hx
        rcases hskip with hd | hm
        · rw [hd] at hl; exact absurd hl (by decide)
        · exact (h3 x).mp hm
  · rw [if_neg hskip]
    push_neg at hskip
    obtain ⟨hlive', hnm⟩ := hskip
    have hlive : (ktn.edge ei).deadts = false := by
      cases hx : (ktn.edge ei).deadts
      · rfl
      · exact absurd hx hlive'
    obtain ⟨r, hrl, hr, hne, hrlive, hrr, _, _⟩ := hrev hlive
    have hrpos : (ktn.edge r).edge_pos = r := (hp r hrl).1
    have hei_not : ei ∉ pair_idx ps := fun hx => hnm ((h3 ei).mpr hx)
    have hr_not : r ∉ pair_idx ps := by
      intro hx
      obtain ⟨q, hq, hx⟩ := (mem_pair_idx ps r).mp hx
      obtain ⟨_, _, _, _, _, q1, q2⟩ := h4 q hq
      apply hei_not
      rw [mem_pair_idx]
      rcases hx with hx | hx
      · refine ⟨q, hq, Or.inr ?_⟩
        rw [← hx, hrr] at q1
        injection q1
      · refine ⟨q, hq, Or.inl ?_⟩
        rw [← hx, hrr] at q2
        injection q2
    have hcond : ¬ ((ktn.edge r).deadts = true ∨ r ∈ ei :: s.edgemask) := by
      rintro (hd | hm)
      · rw [hrlive] at hd; exact absurd hd (by decide)
      · rcases List.mem_cons.mp hm with hm | hm
        · exact hne hm
        · exact hr_not ((h3 r).mp hm)
    simp only [hr, hrpos, if_neg hcond]
    refine ⟨ps ++ [(ei, r)], h1, ?_, ?_, ?_, ?_, ?_⟩
    · show (push_edge (push_edge s.net _) _).edges = _
      rw [push_edge_edges, push_edge_edges, h2, built_at_append, built_at_length, h1]
      simp
    · intro x
      show x ∈ r :: ei :: s.edgemask ↔ _
      rw [pair_idx_append]
      simp only [List.mem_cons, List.mem_append, h3 x, List.mem_singleton, List.mem_nil_iff,
        or_false]
      tauto
    · intro q hq
      rcases List.mem_append.mp hq with hq | hq
      · obtain ⟨a, b⟩ := h4 q hq
        exact ⟨Or.inl a, b⟩
      · rw [List.mem_singleton] at hq
        subst hq
        exact ⟨Or.inr rfl, hei, hrl, hlive, hrlive, hr, hrr⟩
    · rintro x (hx | hx) hl
      · rw [pair_idx_append]
        exact List.mem_append_left _ (h5 x hx hl)
      · subst hx
        rw [pair_idx_append]
        exact List.mem_append_right _ (List.mem_cons_self _ _)
    · rw [pair_idx_append, List.nodup_append]
      refine ⟨h6, ?_, ?_⟩
      · simp only [List.nodup_cons, List.mem_singleton, List.not_mem_nil, not_false_eq_true,
          List.nodup_nil, and_true]
        exact fun e => hne e.symm
      · intro x hx hx'
        simp only [List.mem_cons, List.mem_singleton, List.mem_nil_iff, or_false] at hx'
        rcases hx' with hx' | hx'
        · subst hx'; exact hei_not hx
        · subst hx'; exact hr_not hx

theorem edgeinv_fold (ktn : Network) (nm : List (Nat × Nat)) (hp : edges_paired ktn)
    (es : List Nat) : ∀ (S : Nat → Prop) (ps : List (Nat × Nat)) (s : SubBuild),
      (∀ ei ∈ es, ei < ktn.edges.length) → EdgeInv ktn nm S ps s →
      ∃ ps', EdgeInv ktn nm (fun x => S x ∨ x ∈ es) ps' (es.foldl (copy_edge ktn) s) := by
  induction es with
  | nil =>
    intro S ps s _ h
    exact ⟨ps, edgeinv_congr ktn nm S _ ps s (fun x => by simp) h⟩
  | cons e es ih =>
    intro S ps s hv h
    rw [List.foldl_cons]
    obtain ⟨ps1, h1⟩ := edgeinv_step ktn nm hp S ps s e (hv e (List.mem_cons_self _ _)) h
    obtain ⟨ps2, h2⟩ := ih _ ps1 _ (fun x hx => hv x (List.mem_cons_of_mem _ hx)) h1
    refine ⟨ps2, edgeinv_congr ktn nm _ _ ps2 _ (fun x => ?_) h2⟩
    simp only [List.mem_cons]
    tauto

theorem edgeinv_keys (ktn : Network) (nm : List (Nat × Nat)) (c : Int) (hp : edges_paired ktn)
    (hadj : adj_valid ktn) (ks : List Nat) :
    ∀ (S : Nat → Prop) (ps : List (Nat × Nat)) (s : SubBuild),
      (∀ j ∈ ks, j < ktn.nodes.length) → EdgeInv ktn nm S ps s →
      ∃ ps', EdgeInv ktn nm
        (fun x => S x ∨ ∃ j ∈ ks, (ktn.node j).comm_id = c ∧ x ∈ (ktn.node j).top_from) ps'
        (ks.foldl (copy_edges_of ktn c) s) := by
  induction ks with
  | nil =>
    intro S ps s _ h
    exact ⟨ps, edgeinv_congr ktn nm S _ ps s (fun x => by simp) h⟩
  | cons i ks ih =>
    intro S ps s hv h
    rw [List.foldl_cons]
    have hi : i < ktn.nodes.length := hv i (List.mem_cons_self _ _)
    have h0 : EdgeInv ktn nm S ps { s with n := s.n + 1 } := h
    have hstep : ∃ ps1, EdgeInv ktn nm
        (fun x => S x ∨ ((ktn.node i).comm_id = c ∧ x ∈ (ktn.node i).top_from)) ps1
        (copy_edges_of ktn c s i) := by
      unfold copy_edges_of
      by_cases hc : (ktn.node i).comm_id = c
      · simp only [hc, ne_eq, not_true_eq_false, if_false]
        obtain ⟨ps1, h1⟩ := edgeinv_fold ktn nm hp (ktn.node i).top_from S ps _
          (fun ei hm => (hadj.1 i hi ei hm).1) h0
        refine ⟨ps1, edgeinv_congr ktn nm _ _ ps1 _ (fun x => ?_) h1⟩
        simp
      · simp only [ne_eq, hc, not_false_eq_true, if_true]
        refine ⟨ps, edgeinv_congr ktn nm _ _ ps _ (fun x => ?_) h0⟩
        simp [hc]
    obtain ⟨ps1, h1⟩ := hstep
    obtain ⟨ps2, h2⟩ := ih _ ps1 _ (fun x hx => hv x (List.mem_cons_of_mem _ hx)) h1
    refine ⟨ps2, edgeinv_congr ktn nm _ _ ps2 _ (fun x => ?_) h2⟩
    simp only [List.mem_cons]
    constructor
    · rintro ((h | h) | ⟨j, hj, h⟩)
      · exact Or.inl h
      · exact Or.inr ⟨i, Or.inl rfl, h⟩
      · exact Or.inr ⟨j, Or.inr hj, h⟩
    · rintro (h | ⟨j, hj | hj, h⟩)
      · exact Or.inl (Or.inl h)
      · subst hj; exact Or.inl (Or.inr h)
      · exact Or.inr ⟨j, hj, h⟩

/-! ### Nodes and counters are untouched by the edge loop -/

theorem push_edge_frame (net : Network) (e : Edge) :
    node_data (push_edge net e) = node_data net ∧
    (push_edge net e).n_nodes = net.n_nodes ∧ (push_edge net e).n_edges = net.n_edges := by
  refine ⟨?_, rfl, rfl⟩
  unfold node_data push_edge Network.add_to_edge Network.add_from_edge Network.updNode
  simp only
  refine Eq.trans (updAt_map_of_fixed _ Node.copy ?_ _ _) (updAt_map_of_fixed _ Node.copy ?_ _ _)
  · intro x; rfl
  · intro x; rfl

theorem copy_edge_frame (ktn : Network) (s : SubBuild) (ei : Nat) :
    node_data (copy_edge ktn s ei).net = node_data s.net ∧
    (copy_edge ktn s ei).net.n_nodes = s.net.n_nodes ∧
    (copy_edge ktn s ei).net.n_edges = s.net.n_edges ∧
    (copy_edge ktn s ei).n = s.n ∧ (copy_edge ktn s ei).nodemap = s.nodemap := by
  unfold copy_edge
  simp only
  split
  · exact ⟨rfl, rfl, rfl, rfl, rfl⟩
  · split
    · exact ⟨(push_edge_frame _ _).1, rfl, rfl, rfl, rfl⟩
    · split
      · exact ⟨(push_edge_frame _ _).1, rfl, rfl, rfl, rfl⟩
      · refine ⟨?_, rfl, rfl, rfl, rfl⟩
        show node_data (push_edge (push_edge s.net _) _) = _
        rw [(push_edge_frame _ _).1, (push_edge_frame _ _).1]

theorem copy_edge_fold_frame (ktn : Network) (es : List Nat) : ∀ s : SubBuild,
    node_data (es.foldl (copy_edge ktn) s).net = node_data s.net ∧
    (es.foldl (copy_edge ktn) s).net.n_nodes = s.net.n_nodes ∧
    (es.foldl (copy_edge ktn) s).net.n_edges = s.net.n_edges ∧
    (es.foldl (copy_edge ktn) s).n = s.n ∧ (es.foldl (copy_edge ktn) s).nodemap = s.nodemap := by
  induction es with
  | nil => intro s; exact ⟨rfl, rfl, rfl, rfl, rfl⟩
  | cons e es ih =>
    intro s
    rw [List.foldl_cons]
    obtain ⟨a1, a2, a3, a4, a5⟩ := ih (copy_edge ktn s e)
    obtain ⟨b1, b2, b3, b4, b5⟩ := copy_edge_frame ktn s e
    exact ⟨a1.trans b1, a2.trans b2, a3.trans b3, a4.trans b4, a5.trans b5⟩

theorem copy_edges_of_frame (ktn : Network) (c : Int) (ks : List Nat) : ∀ s : SubBuild,
    node_data (ks.foldl (copy_edges_of ktn c) s).net = node_data s.net ∧
    (ks.foldl (copy_edges_of ktn c) s).net.n_nodes = s.net.n_nodes ∧
    (ks.foldl (copy_edges_of ktn c) s).net.n_edges = s.net.n_edges ∧
    (ks.foldl (copy_edges_of ktn c) s).n = s.n + ks.length ∧
    (ks.foldl (copy_edges_of ktn c) s).nodemap = s.nodemap := by
  induction ks with
  | nil => intro s; exact ⟨rfl, rfl, rfl, rfl, rfl⟩
  | cons i ks ih =>
    intro s
    rw [List.foldl_cons]
    obtain ⟨a1, a2, a3, a4, a5⟩ := ih (copy_edges_of ktn c s i)
    have hb : node_data (copy_edges_of ktn c s i).net = node_data s.net ∧
        (copy_edges_of ktn c s i).net.n_nodes = s.net.n_nodes ∧
        (copy_edges_of ktn c s i).net.n_edges = s.net.n_edges ∧
        (copy_edges_of ktn c s i).n = s.n + 1 ∧
        (copy_edges_of ktn c s i).nodemap = s.nodemap := by
      unfold copy_edges_of
      simp only
      split
      · exact ⟨rfl, rfl, rfl, rfl, rfl⟩
      · exact copy_edge_fold_frame ktn _ _
    obtain ⟨b1, b2, b3, b4, b5⟩ := hb
    refine ⟨a1.trans b1, a2.trans b2, a3.trans b3, ?_, a5.trans b5⟩
    rw [a4, b4, List.length_cons]
    omega

/-- The builder in closed form, for the classifier's output and a map that is
empty (first call) or the map a previous call has left (second call). -/
theorem build_spec (ktn : Network) (c : Int) (nm0 : List (Nat × Nat))
    (hid : ids_in_order ktn) (hadj : adj_valid ktn) (hp : edges_paired ktn)
    (hnm : nm0 = [] ∨
      nm0 = target_map (labelled (classify ktn c).basin_ids ktn.nodes.length)) :
    (labelled (classify ktn c).basin_ids ktn.nodes.length).length =
      (classify ktn c).N_B + (classify ktn c).N_c ∧
    (build_subnetwork ktn c (classify ktn c) nm0).nodemap =
      target_map (labelled (classify ktn c).basin_ids ktn.nodes.length) ∧
    (build_subnetwork ktn c (classify ktn c) nm0).n = (classify ktn c).N_B + (classify ktn c).N_c ∧
    node_data (build_subnetwork ktn c (classify ktn c) nm0).net =
      (labelled (classify ktn c).basin_ids ktn.nodes.length).map (fun i => (ktn.node i).copy) ∧
    (build_subnetwork ktn c (classify ktn c) nm0).net.n_nodes =
      (classify ktn c).N_B + (classify ktn c).N_c ∧
    (build_subnetwork ktn c (classify ktn c) nm0).net.n_edges = (classify ktn c).N_e ∧
    ∃ ps, EdgeInv ktn (target_map (labelled (classify ktn c).basin_ids ktn.nodes.length))
      (scanned ktn c ktn.nodes.length) ps (build_subnetwork ktn c (classify ktn c) nm0) := by
  have hval : targets_valid ktn := fun j hj ei hm => (hadj.1 j hj ei hm).2.2
  obtain ⟨c1, c2, c3, c4, c5, c6⟩ := classify_inv ktn c hid hval
  generalize hb : classify ktn c = b at *
  generalize hks : labelled b.basin_ids ktn.nodes.length = ks at *
  have hlen : ks.length = b.N_B + b.N_c := by
    rw [← hks, ← c1, labelled_length b.basin_ids c4, c5, c6]
  have hsorted : ks.Pairwise (fun a b => a < b) := by
    rw [← hks]; exact labelled_sorted _ _
  have hnodemap : (target_map ks).foldl (fun m p => map_set m p.1 p.2) nm0 = target_map ks := by
    rcases hnm with h | h
    · rw [h]; exact fold_map_set_nil ks hsorted
    · rw [h]
      exact fold_map_set_self _ _ (target_map_sorted ks hsorted) (fun p hp => hp)
  have hloop := node_loop ktn b nm0 ktn.nodes.length (by rw [hks, hlen]) ktn.nodes.length
    (le_refl _)
  have hbuild : build_subnetwork ktn c b nm0 =
      ((target_map ks).map Prod.fst).foldl (copy_edges_of ktn c)
        { net := { Network.mk_sized (b.N_B + b.N_c) b.N_e with
                   nodes := copied_nodes ktn ks (b.N_B + b.N_c) },
          nodemap := target_map ks } := by
    unfold build_subnetwork
    simp only
    rw [hid.1, hloop]
    unfold after_nodes
    simp only [hks, hnodemap]
  rw [hbuild, target_map_keys]
  obtain ⟨f1, f2, f3, f4, f5⟩ := copy_edges_of_frame ktn c ks
    { net := { Network.mk_sized (b.N_B + b.N_c) b.N_e with
               nodes := copied_nodes ktn ks (b.N_B + b.N_c) },
      nodemap := target_map ks }
  refine ⟨hlen, f5, ?_, ?_, f2, f3, ?_⟩
  · rw [f4]; simp [hlen]
  · rw [f1]
    unfold node_data copied_nodes
    simp only
    rw [hlen, Nat.sub_self, List.replicate_zero, List.append_nil, List.map_map]
    rfl
  · have hkv : ∀ j ∈ ks, j < ktn.nodes.length := by
      intro j hj
      rw [← hks, mem_labelled] at hj
      exact hj.1
    have h0 : EdgeInv ktn (target_map ks) (fun _ => False) []
        { net := { Network.mk_sized (b.N_B + b.N_c) b.N_e with
                   nodes := copied_nodes ktn ks (b.N_B + b.N_c) },
          nodemap := target_map ks } := by
      refine ⟨rfl, rfl, ?_, ?_, ?_, List.nodup_nil⟩
      · intro x; exact Iff.rfl
      · intro q hq; cases hq
      · intro ei hf; exact absurd hf id
    obtain ⟨ps, hE⟩ := edgeinv_keys ktn (target_map ks) c hp hadj ks _ [] _ hkv h0
    refine ⟨ps, edgeinv_congr ktn _ _ _ ps _ (fun x => ?_) hE⟩
    unfold scanned
    constructor
    · rintro (h | ⟨j, hj, hc, hm⟩)
      · exact absurd h id
      · exact ⟨j, hkv j hj, hc, hm⟩
    · rintro ⟨j, hj, hc, hm⟩
      refine Or.inr ⟨j, ?_, hc, hm⟩
      rw [← hks, mem_labelled]
      refine ⟨hj, ?_⟩
      rw [(c2 j).mpr ⟨hj, hc⟩]
      decide

/-! ## What `get_subnetwork` returns -/

theorem mem_target_map (ks : List Nat) (p : Nat × Nat) (h : p ∈ target_map ks) :
    ks[p.2]? = some p.1 := by
  unfold target_map at h
  obtain ⟨i, hi⟩ := List.mem_iff_getElem?.mp h
  rw [List.getElem?_zip_eq_some] at hi
  obtain ⟨h1, h2⟩ := hi
  have hlt : i < ks.length := by
    by_contra hc
    rw [List.getElem?_eq_none (Nat.le_of_not_lt hc)] at h1
    cases h1
  rw [List.getElem?_range hlt] at h2
  injection h2 with h2
  rw [← h2]
  exact h1

theorem map_get_of_mem {β : Type} (d : β) (M : List (Nat × β)) (k : Nat) (v : β)
    (hs : M.Pairwise (fun a b => a.1 < b.1)) (hm : (k, v) ∈ M) : map_get d M k = v := by
  induction M with
  | nil => cases hm
  | cons a M ih =>
    obtain ⟨k', v'⟩ := a
    rw [List.pairwise_cons] at hs
    rcases List.mem_cons.mp hm with heq | hin
    · injection heq with e1 e2
      subst e1; subst e2
      simp [map_get]
    · have hlt : k' < k := hs.1 (k, v) hin
      have h2 : ¬ k = k' := by omega
      simp only [map_get, h2, if_false]
      exact ih hs.2 hin

theorem map_get_mem {β : Type} (d : β) (M : List (Nat × β)) (k : Nat)
    (h : k ∈ M.map Prod.fst) : (k, map_get d M k) ∈ M := by
  induction M with
  | nil => cases h
  | cons a M ih =>
    obtain ⟨k', v'⟩ := a
    by_cases hk : k = k'
    · subst hk
      simp [map_get]
    · simp only [map_get, hk, if_false]
      rw [List.map_cons, List.mem_cons] at h
      rcases h with h | h
      · exact absurd h hk
      · exact List.mem_cons_of_mem _ (ih h)

theorem pair_idx_length (ps : List (Nat × Nat)) : (pair_idx ps).length = 2 * ps.length := by
  induction ps with
  | nil => rfl
  | cons q ps ih =>
    obtain ⟨p, r⟩ := q
    simp only [pair_idx, List.length_cons, ih]
    omega

theorem built_at_getD (ktn : Network) (nm : List (Nat × Nat)) (ps : List (Nat × Nat)) :
    ∀ m k, k < 2 * ps.length →
      (built_at ktn nm m ps).getD k default =
        sub_edge ktn nm (ktn.edge ((pair_idx ps).getD k 0)) (m + k)
          (some (if k % 2 = 0 then m + k + 1 else m + k - 1)) := by
  induction ps with
  | nil => intro m k hk; simp at hk
  | cons q ps ih =>
    intro m k hk
    obtain ⟨p, r⟩ := q
    match k with
    | 0 => simp [built_at, pair_idx]
    | 1 => simp [built_at, pair_idx]
    | k + 2 =>
      simp only [built_at, pair_idx, List.getD_cons_succ]
      rw [ih (m + 2) k (by simp only [List.length_cons] at hk; omega)]
      have h1 : (k + 2) % 2 = k % 2 := by omega
      have h2 : m + 2 + k = m + (k + 2) := by omega
      rw [h1, h2]

theorem node_at (ktn : Network) (sub : Network) (ks : List Nat)
    (hd : node_data sub = ks.map (fun i => (ktn.node i).copy)) (j : Nat) (i : Nat)
    (h : ks[j]? = some i) : (sub.node j).copy = (ktn.node i).copy := by
  have h1 : (node_data sub)[j]? = some (ktn.node i).copy := by
    rw [hd, List.getElem?_map, h]; rfl
  unfold node_data at h1
  rw [List.getElem?_map] at h1
  unfold Network.node
  rw [List.getD_eq_getElem?_getD]
  cases hx : sub.nodes[j]? with
  | none => rw [hx] at h1; cases h1
  | some x =>
    rw [hx] at h1
    simp only [Option.map_some', Option.some.injEq] at h1
    simp only [Option.getD_some]
    exact h1

/-- Both end nodes of a copied edge carry a non-zero basin id. -/
theorem endpoints_labelled (ktn : Network) (c : Int) (nm : List (Nat × Nat))
    (hid : ids_in_order ktn) (hadj : adj_valid ktn) (hp : edges_paired ktn)
    (ps : List (Nat × Nat)) (s : SubBuild)
    (hE : EdgeInv ktn nm (scanned ktn c ktn.nodes.length) ps s) (ei : Nat)
    (hei : ei ∈ pair_idx ps) :
    (ktn.edge ei).from_node ∈ labelled (classify ktn c).basin_ids ktn.nodes.length ∧
    (ktn.edge ei).to_node ∈ labelled (classify ktn c).basin_ids ktn.nodes.length := by
  have hval : targets_valid ktn := fun j hj ei hm => (hadj.1 j hj ei hm).2.2
  obtain ⟨c1, c2, c3, c4, c5, c6⟩ := classify_inv ktn c hid hval
  obtain ⟨_, _, _, h4, _, _⟩ := hE
  obtain ⟨q, hq, hx⟩ := (mem_pair_idx ps ei).mp hei
  obtain ⟨⟨j, hj, hcj, hm⟩, q1, q2, l1, l2, r1, r2⟩ := h4 q hq
  obtain ⟨_, hfrom, hto⟩ := hadj.1 j hj q.1 hm
  have hfrom_lab : (ktn.edge q.1).from_node ∈
      labelled (classify ktn c).basin_ids ktn.nodes.length := by
    rw [mem_labelled, hfrom]
    refine ⟨hj, ?_⟩
    rw [(c2 j).mpr ⟨hj, hcj⟩]
    decide
  have hto_lab : (ktn.edge q.1).to_node ∈
      labelled (classify ktn c).basin_ids ktn.nodes.length := by
    rw [mem_labelled]
    refine ⟨hto, ?_⟩
    by_cases hc : (ktn.node (ktn.edge q.1).to_node).comm_id = c
    · rw [(c2 _).mpr ⟨hto, hc⟩]
      decide
    · rw [(c3 _).mpr ⟨hto, hc, q.1, ⟨j, hj, hcj, hm⟩, l1, rfl⟩]
      decide
  rcases hx with hx | hx
  · rw [hx]; exact ⟨hfrom_lab, hto_lab⟩
  · obtain ⟨r, _, hr, _, _, _, f1, f2⟩ := (hp q.1 q1).2 l1
    rw [r1] at hr
    injection hr with hr
    rw [hx, hr, f1, f2]
    exact ⟨hto_lab, hfrom_lab⟩

/-- The copied edges are the live edges leaving an interior node and their
live reverse edges. -/
theorem copied_edges_iff (ktn : Network) (c : Int) (nm : List (Nat × Nat))
    (hid : ids_in_order ktn) (hadj : adj_valid ktn)
    (ps : List (Nat × Nat)) (s : SubBuild)
    (hE : EdgeInv ktn nm (scanned ktn c ktn.nodes.length) ps s) (ei : Nat) :
    ei ∈ pair_idx ps ↔ (ei < ktn.edges.length ∧ (ktn.edge ei).deadts = false ∧
      ((classify ktn c).basin_ids.getD (ktn.edge ei).from_node 0 = 2 ∨
        ∃ e', e' < ktn.edges.length ∧ (ktn.edge e').deadts = false ∧
          (classify ktn c).basin_ids.getD (ktn.edge e').from_node 0 = 2 ∧
          (ktn.edge e').rev_edge = some ei)) := by
  have hval : targets_valid ktn := fun j hj ei hm => (hadj.1 j hj ei hm).2.2
  obtain ⟨c1, c2, c3, c4, c5, c6⟩ := classify_inv ktn c hid hval
  obtain ⟨_, _, _, h4, h5, _⟩ := hE
  have hscan : ∀ e', e' < ktn.edges.length →
      (classify ktn c).basin_ids.getD (ktn.edge e').from_node 0 = 2 →
      scanned ktn c ktn.nodes.length e' := by
    intro e' he' h2
    obtain ⟨hj, hc⟩ := (c2 _).mp h2
    exact ⟨_, hj, hc, (hadj.2 e' he').2⟩
  constructor
  · intro hei
    obtain ⟨q, hq, hx⟩ := (mem_pair_idx ps ei).mp hei
    obtain ⟨⟨j, hj, hcj, hm⟩, q1, q2, l1, l2, r1, r2⟩ := h4 q hq
    obtain ⟨_, hfrom, _⟩ := hadj.1 j hj q.1 hm
    have h2 : (classify ktn c).basin_ids.getD (ktn.edge q.1).from_node 0 = 2 := by
      rw [hfrom]; exact (c2 j).mpr ⟨hj, hcj⟩
    rcases hx with hx | hx
    · rw [hx]; exact ⟨q1, l1, Or.inl h2⟩
    · rw [hx]; exact ⟨q2, l2, Or.inr ⟨q.1, q1, l1, h2, r1⟩⟩
  · rintro ⟨hlt, hlive, h2 | ⟨e', he', hl', h2, hr⟩⟩
    · exact h5 ei (hscan ei hlt h2) hlive
    · have hin := h5 e' (hscan e' he' h2) hl'
      obtain ⟨q, hq, hx⟩ := (mem_pair_idx ps e').mp hin
      obtain ⟨_, _, _, _, _, r1, r2⟩ := h4 q hq
      rw [mem_pair_idx]
      rcases hx with hx | hx
      · rw [hx, r1] at hr
        injection hr with hr
        exact ⟨q, hq, Or.inr hr.symm⟩
      · rw [hx, r2] at hr
        injection hr with hr
        exact ⟨q, hq, Or.inl hr.symm⟩

theorem get_subnetwork_ok (ktn : Network) (c : Int) (b : Basin) (nm0 : List (Nat × Nat))
    (sub : Network) (nm : List (Nat × Nat))
    (h : get_subnetwork ktn c b nm0 = .ok (sub, nm)) :
    sub = (build_subnetwork ktn c b nm0).net ∧ nm = (build_subnetwork ktn c b nm0).nodemap ∧
    (build_subnetwork ktn c b nm0).n = b.N_B + b.N_c ∧
    (build_subnetwork ktn c b nm0).net.edges.length = b.N_e := by
  unfold get_subnetwork at h
  simp only at h
  split at h
  · cases h
  · rename_i hc
    push_neg at hc
    injection h with h
    injection h with h1 h2
    exact ⟨h1.symm, h2.symm, hc.1, hc.2⟩

/-- C3: whenever `get_subnetwork` returns for the classifier's labelling (with
`nodemap` empty, as `setup_basin_sets` leaves it, or as a previous call has left
it), `nodemap` numbers the labelled positions 0, 1, ... in increasing order,
node `nodemap[i]` of the subnetwork carries the data of node `i`, and the edges
of the subnetwork are one copy each of the live edges whose from-node is
interior and of their live reverse edges, with `edge_pos` the position in the
edge sequence and end nodes the images under `nodemap`. -/
theorem get_subnetwork_content (ktn : Network) (c : Int) (nm0 : List (Nat × Nat))
    (sub : Network) (nm : List (Nat × Nat))
    (hid : ids_in_order ktn) (hadj : adj_valid ktn) (hp : edges_paired ktn)
    (hnm : nm0 = [] ∨
      nm0 = target_map (labelled (classify ktn c).basin_ids ktn.nodes.length))
    (h : get_subnetwork ktn c (classify ktn c) nm0 = .ok (sub, nm)) :
    is_basin_copy ktn (classify ktn c).basin_ids
      ((classify ktn c).N_B + (classify ktn c).N_c) sub nm := by
  obtain ⟨hsub, hnmeq, _, _⟩ := get_subnetwork_ok ktn c _ nm0 sub nm h
  obtain ⟨hlen, hmap, _, hdata, _, _, ps, hE⟩ := build_spec ktn c nm0 hid hadj hp hnm
  rw [← hsub] at hdata
  rw [← hnmeq] at hmap
  have hedges : sub.edges = built_at ktn
      (target_map (labelled (classify ktn c).basin_ids ktn.nodes.length)) 0 ps := by
    rw [hsub]; exact hE.2.1
  have hsorted := target_map_sorted _ (labelled_sorted (classify ktn c).basin_ids ktn.nodes.length)
  have hnode : ∀ i, i ∈ labelled (classify ktn c).basin_ids ktn.nodes.length →
      (sub.node (map_get 0 nm i)).node_id = (ktn.node i).node_id := by
    intro i hi
    have hmem : (i, map_get 0 nm i) ∈ nm := by
      apply map_get_mem
      rw [hmap, target_map_keys]; exact hi
    rw [hmap] at hmem
    have := node_at ktn sub _ hdata _ _ (mem_target_map _ _ hmem)
    rw [hmap]
    have h3 := congrArg Node.node_id this
    exact h3
  refine ⟨?_, ?_, ?_, ?_, pair_idx ps, hE.2.2.2.2.2, ?_, ?_, ?_⟩
  · rw [hmap, target_map_keys]
  · rw [hmap]
    unfold target_map
    rw [List.map_snd_zip _ _ (by simp), hlen]
  · have : (node_data sub).length = sub.nodes.length := by
      unfold node_data; simp
    rw [← this, hdata, List.length_map, hlen]
  · intro p hpm
    rw [hmap] at hpm
    refine ⟨?_, node_at ktn sub _ hdata _ _ (mem_target_map _ _ hpm)⟩
    rw [hmap]
    exact map_get_of_mem 0 _ p.1 p.2 hsorted hpm
  · rw [hedges, built_at_length, pair_idx_length]
  · exact copied_edges_iff ktn c _ hid hadj ps _ hE
  · intro k hk
    have hk2 : k < 2 * ps.length := by rw [pair_idx_length] at hk; exact hk
    have hedge : sub.edge k = sub_edge ktn nm (ktn.edge ((pair_idx ps).getD k 0)) (0 + k)
        (some (if k % 2 = 0 then 0 + k + 1 else 0 + k - 1)) := by
      show sub.edges.getD k default = _
      rw [hedges, built_at_getD ktn _ ps 0 k hk2, hmap]
    have hmemk : (pair_idx ps).getD k 0 ∈ pair_idx ps := by
      rw [List.getD_eq_getElem?_getD, List.getElem?_eq_getElem hk]
      exact List.getElem_mem _
    obtain ⟨_, hlive, _⟩ := (copied_edges_iff ktn c _ hid hadj ps _ hE _).mp hmemk
    obtain ⟨hf, ht⟩ := endpoints_labelled ktn c _ hid hadj hp ps _ hE _ hmemk
    have hfid : (ktn.node (ktn.edge ((pair_idx ps).getD k 0)).from_node).node_id - 1 =
        (ktn.edge ((pair_idx ps).getD k 0)).from_node := by
      rw [hid.2 _ ((mem_labelled _ _ _).mp hf).1]; rfl
    have htid : (ktn.node (ktn.edge ((pair_idx ps).getD k 0)).to_node).node_id - 1 =
        (ktn.edge ((pair_idx ps).getD k 0)).to_node := by
      rw [hid.2 _ ((mem_labelled _ _ _).mp ht).1]; rfl
    rw [hedge]
    refine ⟨rfl, hlive, by simp [sub_edge], rfl, rfl, ?_, ?_⟩
    · show (sub.node (map_get 0 nm _)).node_id = _
      rw [hfid]
      exact hnode _ hf
    · show (sub.node (map_get 0 nm _)).node_id = _
      rw [htid]
      exact hnode _ ht

/-- Witness for C3: the triangle network, community 1, `nodemap` empty. -/
theorem get_subnetwork_content_witness :
    ids_in_order triangle ∧ adj_valid triangle ∧ edges_paired triangle ∧
    ∃ sub nm, get_subnetwork triangle 1 (classify triangle 1) [] = .ok (sub, nm) ∧
      is_basin_copy triangle (classify triangle 1).basin_ids
        ((classify triangle 1).N_B + (classify triangle 1).N_c) sub nm := by
  have h1 : ids_in_order triangle := by unfold ids_in_order; decide!
  have h2 : adj_valid triangle := by unfold adj_valid; decide!
  have h3 : edges_paired triangle := by unfold edges_paired; decide!
  have hok : (get_subnetwork triangle 1 (classify triangle 1) []).toBool = true := by decide!
  cases h : get_subnetwork triangle 1 (classify triangle 1) [] with
  | error f => rw [h] at hok; cases hok
  | ok r =>
    obtain ⟨sub, nm⟩ := r
    exact ⟨h1, h2, h3, sub, nm, rfl,
      get_subnetwork_content triangle 1 [] sub nm h1 h2 h3 (Or.inl rfl) h⟩

/-! ## Reverse-edge symmetry -/

theorem links_getElem? (net : Network) (k : Nat) (hk : k < net.edges.length) :
    (links net)[k]? = some ((net.edge k).rev_edge, (net.edge k).from_node, (net.edge k).to_node) := by
  unfold links Network.edge
  rw [List.getElem?_map, List.getD_eq_getElem?_getD, List.getElem?_eq_getElem hk]
  rfl

theorem rev_symmetric_iff (net : Network) : rev_symmetric net ↔ sym_links (links net) := by
  have hl : (links net).length = net.edges.length := by unfold links; simp
  constructor
  · intro h k hk
    rw [hl] at hk
    obtain ⟨r, hr, h1, h2, h3, h4⟩ := h k hk
    refine ⟨r, (net.edge k).from_node, (net.edge k).to_node, by rw [hl]; exact hr, ?_, ?_⟩
    · rw [links_getElem? net k hk, h1]
    · rw [links_getElem? net r hr, h2, h3, h4]
  · intro h k hk
    obtain ⟨r, a, b, hr, h1, h2⟩ := h k (by rw [hl]; exact hk)
    rw [hl] at hr
    rw [links_getElem? net k hk] at h1
    rw [links_getElem? net r hr] at h2
    injection h1 with h1
    injection h2 with h2
    injection h1 with e1 h1
    injection h1 with e2 e3
    injection h2 with f1 h2
    injection h2 with f2 f3
    exact ⟨r, hr, e1, f1, by rw [f2, e3], by rw [f3, e2]⟩

theorem sym_links_append_pair (L : List (Option Nat × Nat × Nat)) (a b : Nat)
    (h : sym_links L) :
    sym_links (L ++ [(some (L.length + 1), a, b), (some L.length, b, a)]) := by
  intro k hk
  simp only [List.length_append, List.length_cons, List.length_nil] at hk
  by_cases hlt : k < L.length
  · obtain ⟨r, x, y, hr, h1, h2⟩ := h k hlt
    refine ⟨r, x, y, ?_, ?_, ?_⟩
    · simp only [List.length_append, List.length_cons, List.length_nil]; omega
    · rw [List.getElem?_append_left hlt]; exact h1
    · rw [List.getElem?_append_left hr]; exact h2
  · by_cases hk0 : k = L.length
    · subst hk0
      refine ⟨L.length + 1, a, b, ?_, ?_, ?_⟩
      · simp only [List.length_append, List.length_cons, List.length_nil]; omega
      · rw [List.getElem?_append_right (le_refl _)]; simp
      · rw [List.getElem?_append_right (by omega)]; simp
    · have hk1 : k = L.length + 1 := by omega
      subst hk1
      refine ⟨L.length, b, a, ?_, ?_, ?_⟩
      · simp only [List.length_append, List.length_cons, List.length_nil]; omega
      · rw [List.getElem?_append_right (by omega)]; simp
      · rw [List.getElem?_append_right (le_refl _)]; simp

theorem links_updNode (net : Network) (i : Nat) (f : Node → Node) :
    links (net.updNode i f) = links net := rfl

theorem links_updEdge (net : Network) (i : Nat) (f : Edge → Edge)
    (hf : ∀ x, ((f x).rev_edge, (f x).from_node, (f x).to_node) =
      (x.rev_edge, x.from_node, x.to_node)) :
    links (net.updEdge i f) = links net := by
  unfold links Network.updEdge
  exact updAt_map_of_fixed f _ hf i net.edges

theorem links_push_new_edge (net : Network) (t : ℚ) (a b rev : Nat) :
    links (push_new_edge net t a b rev) = links net ++ [(some rev, a, b)] := by
  unfold links push_new_edge Network.add_to_edge Network.add_from_edge Network.updNode
  simp

theorem push_new_edge_length (net : Network) (t : ℚ) (a b rev : Nat) :
    (push_new_edge net t a b rev).edges.length = net.edges.length + 1 := by
  unfold push_new_edge Network.add_to_edge Network.add_from_edge Network.updNode
  simp

theorem gt_scan_edge_links (p : Nat) (factor : ℚ) (s : GTState) (ei : Nat) :
    links (gt_scan_edge p factor s ei).net = links s.net := by
  unfold gt_scan_edge
  simp only
  split
  · rfl
  · split
    · rfl
    · refine Eq.trans (links_updEdge _ _ _ ?_) rfl
      intro x; rfl

theorem gt_pair_edge_links (old_n_edges : Nat) (factor : ℚ) (s : GTState) (ei : Nat) :
    links (gt_pair_edge old_n_edges factor s ei).net = links s.net := by
  unfold gt_pair_edge
  simp only
  split
  · rfl
  · split
    · rfl
    · refine Eq.trans (links_updEdge _ _ _ ?_) rfl
      intro x; rfl

theorem gt_new_pair_sym (nodemap : List (Nat × Nat)) (factor : ℚ) (i : Nat) (s : GTState)
    (k : Nat) (h : sym_links (links s.net)) :
    sym_links (links (gt_new_pair nodemap factor i s k).net) := by
  unfold gt_new_pair
  simp only
  split
  · exact h
  · split
    · exact h
    · split
      · exact h
      · show sym_links (links (push_new_edge (push_new_edge _ _ _ _ _) _ _ _ _))
        rw [links_push_new_edge, links_push_new_edge, List.append_assoc]
        have hl : s.net.edges.length = (links s.net).length := by unfold links; simp
        rw [hl]
        exact sym_links_append_pair _ _ _ h

theorem gt_scan_fold_links (p : Nat) (factor : ℚ) (es : List Nat) : ∀ s : GTState,
    links (es.foldl (gt_scan_edge p factor) s).net = links s.net := by
  induction es with
  | nil => intro s; rfl
  | cons e es ih =>
    intro s
    rw [List.foldl_cons, ih, gt_scan_edge_links]

theorem gt_pair_fold_links (old_n_edges : Nat) (factor : ℚ) (es : List Nat) : ∀ s : GTState,
    links (es.foldl (gt_pair_edge old_n_edges factor) s).net = links s.net := by
  induction es with
  | nil => intro s; rfl
  | cons e es ih =>
    intro s
    rw [List.foldl_cons, ih, gt_pair_edge_links]

theorem gt_new_pair_fold_sym (nodemap : List (Nat × Nat)) (factor : ℚ) (i : Nat)
    (ks : List Nat) : ∀ s : GTState, sym_links (links s.net) →
      sym_links (links (ks.foldl (gt_new_pair nodemap factor i) s).net) := by
  induction ks with
  | nil => intro s h; exact h
  | cons k ks ih =>
    intro s h
    rw [List.foldl_cons]
    exact ih _ (gt_new_pair_sym nodemap factor i s k h)

theorem gt_neighbour_sym (nodemap : List (Nat × Nat)) (old_n_edges : Nat) (factor : ℚ)
    (s : GTState) (i : Nat) (h : sym_links (links s.net)) :
    sym_links (links (gt_neighbour nodemap old_n_edges factor s i).net) := by
  unfold gt_neighbour
  have h1 : sym_links (links ((s.net.node i).top_from.foldl
      (gt_pair_edge old_n_edges factor) s).net) := by
    rw [gt_pair_fold_links]; exact h
  simp only
  split
  · exact h1
  · exact gt_new_pair_fold_sym nodemap factor i _ _ h1

theorem gt_neighbour_fold_sym (nodemap : List (Nat × Nat)) (old_n_edges : Nat) (factor : ℚ)
    (ns : List Nat) : ∀ s : GTState, sym_links (links s.net) →
      sym_links (links (ns.foldl (gt_neighbour nodemap old_n_edges factor) s).net) := by
  induction ns with
  | nil => intro s h; exact h
  | cons i ns ih =>
    intro s h
    rw [List.foldl_cons]
    exact ih _ (gt_neighbour_sym nodemap old_n_edges factor s i h)

theorem reset_fold_links (es : List Nat) : ∀ net : Network,
    links (es.foldl
      (fun nt ei => nt.updNode (nt.edge ei).to_node (fun n => { n with flag := false })) net) =
    links net := by
  induction es with
  | nil => intro net; rfl
  | cons e es ih =>
    intro net
    rw [List.foldl_cons, ih]
    rfl

/-- A GT iteration keeps reverse-edge symmetry. -/
theorem gt_iteration_sym (nodemap : List (Nat × Nat)) (net : Network) (p : Nat)
    (h : rev_symmetric net) : rev_symmetric (gt_iteration nodemap net p) := by
  rw [rev_symmetric_iff] at h ⊢
  unfold gt_iteration
  simp only
  rw [links_updNode]
  unfold reset_flags
  rw [reset_fold_links]
  apply gt_neighbour_fold_sym
  rw [gt_scan_fold_links]
  exact h

theorem built_at_sym (ktn : Network) (nm : List (Nat × Nat)) (ps : List (Nat × Nat))
    (hP : ∀ q ∈ ps, (ktn.edge q.2).from_node = (ktn.edge q.1).to_node ∧
      (ktn.edge q.2).to_node = (ktn.edge q.1).from_node) :
    ∀ m k, k < 2 * ps.length →
      ∃ r, r < 2 * ps.length ∧
        ((built_at ktn nm m ps).getD k default).rev_edge = some (m + r) ∧
        ((built_at ktn nm m ps).getD r default).rev_edge = some (m + k) ∧
        ((built_at ktn nm m ps).getD r default).from_node =
          ((built_at ktn nm m ps).getD k default).to_node ∧
        ((built_at ktn nm m ps).getD r default).to_node =
          ((built_at ktn nm m ps).getD k default).from_node := by
  induction ps with
  | nil => intro m k hk; simp at hk
  | cons q ps ih =>
    intro m k hk
    obtain ⟨p, r⟩ := q
    obtain ⟨hq1, hq2⟩ := hP (p, r) (List.mem_cons_self _ _)
    simp only at hq1 hq2
    simp only [List.length_cons] at hk ⊢
    match k with
    | 0 =>
      refine ⟨1, by omega, ?_, ?_, ?_, ?_⟩ <;> simp [built_at, sub_edge, hq1, hq2]
    | 1 =>
      refine ⟨0, by omega, ?_, ?_, ?_, ?_⟩ <;> simp [built_at, sub_edge, hq1, hq2]
    | k + 2 =>
      obtain ⟨r', hr', h1, h2, h3, h4⟩ :=
        ih (fun q hq => hP q (List.mem_cons_of_mem _ hq)) (m + 2) k (by omega)
      refine ⟨r' + 2, by omega, ?_, ?_, ?_, ?_⟩
      · simp only [built_at, List.getD_cons_succ]
        rw [h1]; congr 1; omega
      · simp only [built_at, List.getD_cons_succ]
        rw [h2]; congr 1; omega
      · simp only [built_at, List.getD_cons_succ]
        exact h3
      · simp only [built_at, List.getD_cons_succ]
        exact h4

/-- C6: for a full network in which every live edge has a live reverse (another
edge, of which it is the reverse, with the end nodes swapped), the network
returned by `get_subnetwork` for the classifier's labelling has reverse-edge
symmetry on all of its edges, every `gt_iteration` keeps reverse-edge symmetry
of the network it transforms (the pairs it appends included), and so does any
sequence of GT iterations on the returned subnetwork. -/
theorem rev_symmetry_established_and_kept (ktn : Network) (c : Int) (nm0 : List (Nat × Nat))
    (sub : Network) (nm : List (Nat × Nat))
    (hid : ids_in_order ktn) (hadj : adj_valid ktn) (hp : edges_paired ktn)
    (hnm : nm0 = [] ∨
      nm0 = target_map (labelled (classify ktn c).basin_ids ktn.nodes.length))
    (h : get_subnetwork ktn c (classify ktn c) nm0 = .ok (sub, nm)) :
    rev_symmetric sub ∧
    (∀ (net : Network) (nodemap : List (Nat × Nat)) (p : Nat),
      rev_symmetric net → rev_symmetric (gt_iteration nodemap net p)) ∧
    (∀ elim : List Nat, rev_symmetric (elim.foldl (gt_iteration nm) sub)) := by
  obtain ⟨hsub, hnmeq, _, _⟩ := get_subnetwork_ok ktn c _ nm0 sub nm h
  obtain ⟨_, _, _, _, _, _, ps, hE⟩ := build_spec ktn c nm0 hid hadj hp hnm
  have hedges : sub.edges = built_at ktn
      (target_map (labelled (classify ktn c).basin_ids ktn.nodes.length)) 0 ps := by
    rw [hsub]; exact hE.2.1
  have hP : ∀ q ∈ ps, (ktn.edge q.2).from_node = (ktn.edge q.1).to_node ∧
      (ktn.edge q.2).to_node = (ktn.edge q.1).from_node := by
    intro q hq
    obtain ⟨_, q1, _, l1, _, r1, _⟩ := hE.2.2.2.1 q hq
    obtain ⟨r, _, hr, _, _, _, f1, f2⟩ := (hp q.1 q1).2 l1
    rw [r1] at hr
    injection hr with hr
    rw [hr]
    exact ⟨f1, f2⟩
  have hsym : rev_symmetric sub := by
    intro k hk
    have hlen : sub.edges.length = 2 * ps.length := by rw [hedges, built_at_length]
    rw [hlen] at hk
    obtain ⟨r, hr, h1, h2, h3, h4⟩ := built_at_sym ktn _ ps hP 0 k hk
    rw [Nat.zero_add] at h1 h2
    refine ⟨r, by rw [hlen]; exact hr, ?_, ?_, ?_, ?_⟩
    · show (sub.edges.getD k default).rev_edge = _
      rw [hedges]; exact h1
    · show (sub.edges.getD r default).rev_edge = _
      rw [hedges]; exact h2
    · show (sub.edges.getD r default).from_node = (sub.edges.getD k default).to_node
      rw [hedges]; exact h3
    · show (sub.edges.getD r default).to_node = (sub.edges.getD k default).from_node
      rw [hedges]; exact h4
  refine ⟨hsym, fun net nodemap p hn => gt_iteration_sym nodemap net p hn, ?_⟩
  intro elim
  have : ∀ (l : List Nat) (net : Network), rev_symmetric net →
      rev_symmetric (l.foldl (gt_iteration nm) net) := by
    intro l
    induction l with
    | nil => intro net hn; exact hn
    | cons a l ih =>
      intro net hn
      rw [List.foldl_cons]
      exact ih _ (gt_iteration_sym nm net a hn)
  exact this elim sub hsym

/-- Witness for C6: the triangle network, community 1, `nodemap` empty. -/
theorem rev_symmetry_established_and_kept_witness :
    ids_in_order triangle ∧ adj_valid triangle ∧ edges_paired triangle ∧
    ∃ sub nm, get_subnetwork triangle 1 (classify triangle 1) [] = .ok (sub, nm) ∧
      rev_symmetric sub ∧ rev_symmetric (gt_iteration nm sub 0) ∧
      rev_symmetric ([0, 1, 2].foldl (gt_iteration nm) sub) := by
  have h1 : ids_in_order triangle := by unfold ids_in_order; decide!
  have h2 : adj_valid triangle := by unfold adj_valid; decide!
  have h3 : edges_paired triangle := by unfold edges_paired; decide!
  have hok : (get_subnetwork triangle 1 (classify triangle 1) []).toBool = true := by decide!
  cases h : get_subnetwork triangle 1 (classify triangle 1) [] with
  | error f => rw [h] at hok; cases hok
  | ok r =>
    obtain ⟨sub, nm⟩ := r
    have hw := rev_symmetry_established_and_kept triangle 1 [] sub nm h1 h2 h3 (Or.inl rfl) h
    exact ⟨h1, h2, h3, sub, nm, rfl, hw.1, hw.2.1 sub nm 0 hw.1, hw.2.2 [0, 1, 2]⟩

/-! ## Counting eliminated nodes -/

theorem updAt_map_comm {α β : Type} (f : α → α) (f' : β → β) (g : α → β)
    (h : ∀ x, g (f x) = f' (g x)) (i : Nat) (l : List α) :
    (updAt f i l).map g = updAt f' i (l.map g) := by
  induction l generalizing i with
  | nil => cases i <;> rfl
  | cons a l ih =>
    cases i with
    | zero => simp [updAt, h]
    | succ i => simp [updAt, ih]

theorem flags_updNode (net : Network) (i : Nat) (f : Node → Node)
    (hf : ∀ x, (f x).eliminated = x.eliminated) : flags (net.updNode i f) = flags net := by
  unfold flags Network.updNode
  exact updAt_map_of_fixed f _ hf i net.nodes

theorem flags_push_new_edge (net : Network) (t : ℚ) (a b rev : Nat) :
    flags (push_new_edge net t a b rev) = flags net := by
  unfold push_new_edge Network.add_to_edge Network.add_from_edge
  simp only
  refine Eq.trans (flags_updNode _ _ _ ?_) (Eq.trans (flags_updNode _ _ _ ?_) rfl)
  · intro x; rfl
  · intro x; rfl

theorem gt_scan_edge_flags (p : Nat) (factor : ℚ) (s : GTState) (ei : Nat) :
    flags (gt_scan_edge p factor s ei).net = flags s.net := by
  unfold gt_scan_edge
  simp only
  split
  · rfl
  · split
    · refine flags_updNode _ _ _ ?_
      intro x; rfl
    · show flags (Network.updNode (Network.updNode _ _ _) _ _) = _
      refine Eq.trans (flags_updNode _ _ _ ?_) (flags_updNode _ _ _ ?_)
      · intro x; rfl
      · intro x; rfl

theorem gt_pair_edge_flags (old_n_edges : Nat) (factor : ℚ) (s : GTState) (ei : Nat) :
    flags (gt_pair_edge old_n_edges factor s ei).net = flags s.net := by
  unfold gt_pair_edge
  simp only
  split
  · rfl
  · split <;> rfl

theorem gt_new_pair_flags (nodemap : List (Nat × Nat)) (factor : ℚ) (i : Nat) (s : GTState)
    (k : Nat) : flags (gt_new_pair nodemap factor i s k).net = flags s.net := by
  unfold gt_new_pair
  simp only
  split
  · rfl
  · split
    · rfl
    · split
      · rfl
      · show flags (push_new_edge (push_new_edge _ _ _ _ _) _ _ _ _) = _
        rw [flags_push_new_edge, flags_push_new_edge]

theorem fold_flags {σ : Type} (net_of : σ → Network) (step : σ → Nat → σ)
    (h : ∀ s x, flags (net_of (step s x)) = flags (net_of s)) (l : List Nat) :
    ∀ s, flags (net_of (l.foldl step s)) = flags (net_of s) := by
  induction l with
  | nil => intro s; rfl
  | cons a l ih =>
    intro s
    rw [List.foldl_cons, ih, h]

theorem gt_neighbour_flags (nodemap : List (Nat × Nat)) (old_n_edges : Nat) (factor : ℚ)
    (s : GTState) (i : Nat) :
    flags (gt_neighbour nodemap old_n_edges factor s i).net = flags s.net := by
  unfold gt_neighbour
  have h1 := fold_flags (fun s : GTState => s.net) (gt_pair_edge old_n_edges factor)
    (gt_pair_edge_flags old_n_edges factor) (s.net.node i).top_from s
  simp only at h1 ⊢
  split
  · exact h1
  · rw [fold_flags (fun s : GTState => s.net) (gt_new_pair nodemap factor i)
      (gt_new_pair_flags nodemap factor i)]
    exact h1

/-- A GT iteration sets the `eliminated` flag of the node at position `p` and
leaves the other flags as they are. -/
theorem gt_iteration_flags (nodemap : List (Nat × Nat)) (net : Network) (p : Nat) :
    flags (gt_iteration nodemap net p) = updAt (fun _ => true) p (flags net) := by
  unfold gt_iteration
  simp only
  have h1 : ∀ (n : Network), flags (n.updNode p (fun x => { x with eliminated := true })) =
      updAt (fun _ => true) p (flags n) := by
    intro n
    unfold flags Network.updNode
    refine updAt_map_comm _ _ _ ?_ p n.nodes
    intro x; rfl
  rw [h1]
  congr 1
  unfold reset_flags
  have hreset : ∀ (s : Network) (x : Nat),
      flags (s.updNode (s.edge x).to_node (fun n => { n with flag := false })) = flags s := by
    intro s x
    refine flags_updNode _ _ _ ?_
    intro y; rfl
  rw [fold_flags (fun n : Network => n)
    (fun nt ei => nt.updNode (nt.edge ei).to_node (fun n => { n with flag := false })) hreset]
  rw [fold_flags (fun s : GTState => s.net) _ (gt_neighbour_flags nodemap _ _)]
  rw [fold_flags (fun s : GTState => s.net) _ (gt_scan_edge_flags p _)]

/-- The builder in closed form: the loop over `nodemap` run from the state the
node loop leaves, which does not depend on the map the call is started from. -/
theorem build_closed_form (ktn : Network) (c : Int) (nm0 : List (Nat × Nat))
    (hid : ids_in_order ktn) (hval : targets_valid ktn)
    (hnm : nm0 = [] ∨
      nm0 = target_map (labelled (classify ktn c).basin_ids ktn.nodes.length)) :
    (labelled (classify ktn c).basin_ids ktn.nodes.length).length =
      (classify ktn c).N_B + (classify ktn c).N_c ∧
    build_subnetwork ktn c (classify ktn c) nm0 =
      (labelled (classify ktn c).basin_ids ktn.nodes.length).foldl (copy_edges_of ktn c)
        { net := { Network.mk_sized ((classify ktn c).N_B + (classify ktn c).N_c)
                     (classify ktn c).N_e with
                   nodes := copied_nodes ktn
                     (labelled (classify ktn c).basin_ids ktn.nodes.length)
                     ((classify ktn c).N_B + (classify ktn c).N_c) },
          nodemap := target_map (labelled (classify ktn c).basin_ids ktn.nodes.length) } := by
  obtain ⟨c1, c2, c3, c4, c5, c6⟩ := classify_inv ktn c hid hval
  generalize hb : classify ktn c = b at *
  generalize hks : labelled b.basin_ids ktn.nodes.length = ks at *
  have hlen : ks.length = b.N_B + b.N_c := by
    rw [← hks, ← c1, labelled_length b.basin_ids c4, c5, c6]
  have hsorted : ks.Pairwise (fun a b => a < b) := by
    rw [← hks]; exact labelled_sorted _ _
  have hnodemap : (target_map ks).foldl (fun m p => map_set m p.1 p.2) nm0 = target_map ks := by
    rcases hnm with h | h
    · rw [h]; exact fold_map_set_nil ks hsorted
    · rw [h]
      exact fold_map_set_self _ _ (target_map_sorted ks hsorted) (fun p hp => hp)
  have hloop := node_loop ktn b nm0 ktn.nodes.length (by rw [hks, hlen]) ktn.nodes.length
    (le_refl _)
  refine ⟨hlen, ?_⟩
  unfold build_subnetwork
  simp only
  rw [hid.1, hloop]
  unfold after_nodes
  simp only [hks, hnodemap, target_map_keys]

/-- The second call of `get_subnetwork` in `graph_transformation` returns what
the first call has returned. -/
theorem first_call (ktn : Network) (c : Int) (sub : Network) (nm : List (Nat × Nat))
    (hid : ids_in_order ktn) (hval : targets_valid ktn)
    (h : get_subnetwork ktn c (classify ktn c) [] = .ok (sub, nm)) :
    get_subnetwork ktn c (classify ktn c) nm = .ok (sub, nm) ∧
    node_data sub =
      (labelled (classify ktn c).basin_ids ktn.nodes.length).map (fun i => (ktn.node i).copy) ∧
    sub.nodes.length = (classify ktn c).N_B + (classify ktn c).N_c := by
  obtain ⟨hlen, hform⟩ := build_closed_form ktn c [] hid hval (Or.inl rfl)
  obtain ⟨hsub, hnmeq, _, _⟩ := get_subnetwork_ok ktn c _ [] sub nm h
  obtain ⟨f1, _, _, _, f5⟩ := copy_edges_of_frame ktn c
    (labelled (classify ktn c).basin_ids ktn.nodes.length)
    { net := { Network.mk_sized ((classify ktn c).N_B + (classify ktn c).N_c)
                 (classify ktn c).N_e with
               nodes := copied_nodes ktn
                 (labelled (classify ktn c).basin_ids ktn.nodes.length)
                 ((classify ktn c).N_B + (classify ktn c).N_c) },
      nodemap := target_map (labelled (classify ktn c).basin_ids ktn.nodes.length) }
  rw [← hform] at f1 f5
  have hnm : nm = target_map (labelled (classify ktn c).basin_ids ktn.nodes.length) := by
    rw [hnmeq]; exact f5
  have hform2 := (build_closed_form ktn c nm hid hval (Or.inr hnm)).2
  have hdata : node_data sub =
      (labelled (classify ktn c).basin_ids ktn.nodes.length).map
        (fun i => (ktn.node i).copy) := by
    rw [hsub, f1]
    unfold node_data copied_nodes
    simp only
    rw [hlen, Nat.sub_self, List.replicate_zero, List.append_nil, List.map_map]
    rfl
  refine ⟨?_, hdata, ?_⟩
  · have : build_subnetwork ktn c (classify ktn c) nm =
        build_subnetwork ktn c (classify ktn c) [] := by rw [hform2, hform]
    unfold get_subnetwork at h ⊢
    rw [this]
    exact h
  · have : (node_data sub).length = sub.nodes.length := by
      unfold node_data; simp
    rw [← this, hdata, List.length_map, hlen]

/-- C13 (failing input): with B = {1, 2, 3} on the triangle network, equal
stationary weights and no current node, the vector of accumulated
probabilities starts with three null entries of probability 0; for the draw
`u = 0` the first of them is selected and the current node stays null, where the
claim selects node 1. For the draws 1/1000 and 1/2 the nodes 1 and 2 are
selected. -/
theorem setup_basin_sets_null_start_for_zero_draw :
    eps_probs orc0 triangle_B =
      [(none, 0), (none, 0), (none, 0), (some 0, 1 / 3), (some 1, 2 / 3), (some 2, 1)] ∧
    setup_basin_sets (orc_unif 0) triangle_B (no_start 3) = .error .null_epsilon ∧
    (setup_basin_sets (orc_unif (1 / 1000)) triangle_B (no_start 3)).map (fun st => st.epsilon) =
      .ok (some 0) ∧
    (setup_basin_sets (orc_unif (1 / 2)) triangle_B (no_start 3)).map (fun st => st.epsilon) =
      .ok (some 1) := by
  decide!

/-- C16 (failing input): on the triangle network with current node 3 and
`nelim = 3`, three nodes are eliminated; after the reverse pass the transformed
subnetwork still carries the weights graph transformation left, which differ
from the weights before graph transformation (those of the untransformed
copy). -/
theorem reverse_pass_keeps_transformed_weights :
    (basin_pass triangle 2 3).map (fun st => (st.N, st.eliminated_nodes)) = .ok (3, [0, 1, 2]) ∧
    (basin_pass triangle 2 3).map (fun st =>
      weights (iterative_reverse_randomisation orc0 st).2.ktn_kps) =
      .ok ([1, 1 / 3, 1 / 2, 1 / 2, 1, 1 / 2, 1, 1], [0, 1 / 4, 2 / 3, 1]) ∧
    (basin_pass triangle 2 3).map (fun st => weights st.ktn_kps_orig) =
      .ok ([1 / 2, 1 / 3, 1 / 2, 1 / 2, 1 / 2, 1 / 3, 1 / 3, 1], [0, 0, 0, 0]) := by
  decide!

/-- C19 (failing input): in the eight-node network after four eliminations,
node 5 (position 4) has factor 2/3 and the live edges to the non-eliminated
nodes 6 and 7 (positions 5 and 6), which are not joined by an edge; its
adjacency list starts with edges to the eliminated nodes 4 and 3. After
`gt_iteration` on node 5 there is still no edge from node 6 to node 7 nor from
node 7 to node 6, and no edge has been appended. -/
theorem gt_iteration_misses_new_pair :
    (basin_pass eight_nodes 0 4).map (fun st => nbrs_of st.ktn_kps 4) =
      .ok [(3, false, true, 1 / 8), (2, false, true, 1 / 8), (5, false, false, 1 / 3),
           (6, false, false, 1 / 3), (1, false, true, 1 / 4), (0, false, true, 1 / 4)] ∧
    (basin_pass eight_nodes 0 4).map (fun st =>
      (calc_gt_factor st.ktn_kps 4, n_edges_between st.ktn_kps 5 6)) = .ok (2 / 3, 0) ∧
    (basin_pass eight_nodes 0 4).map (fun st =>
      (n_edges_between (gt_iteration st.nodemap st.ktn_kps 4) 5 6,
       n_edges_between (gt_iteration st.nodemap st.ktn_kps 4) 6 5,
       (gt_iteration st.nodemap st.ktn_kps 4).edges.length - st.ktn_kps.edges.length)) =
      .ok (0, 0, 0) := by
  decide!

/-- C20 (failing input): on the two-node chain with current node 2 (position 1,
community 2), node 2 is the only interior node and node 1 (community 1) is the
absorbing boundary node, with basin ids `[3, 2]`. Graph transformation with
`nelim = 1` eliminates the node at position 0 of the subnetwork, which is the
boundary node 1, and relabels it from 3 to 1. -/
theorem graph_transformation_eliminates_boundary_node :
    ids_in_order two_chain ∧ adj_valid two_chain ∧ edges_paired two_chain ∧
    udeg_counts two_chain ∧ (two_chain.node 1).comm_id = 2 ∧
    (setup_basin_sets orc0 two_chain (start_at 1 1)).map (fun st => st.basin.basin_ids) =
      .ok [3, 2] ∧
    (basin_pass two_chain 1 1).map (fun st =>
      (st.basin.basin_ids,
       st.eliminated_nodes.map (fun p =>
         ((st.ktn_kps.node p).node_id, (st.ktn_kps.node p).comm_id)),
       st.ktn_kps.nodes.map (fun n => (n.node_id, n.eliminated)))) =
    .ok ([1, 2], [(1, 1)], [(1, true), (2, false)]) := by
  decide!

/-! ## The samplers -/

theorem binomial_distribn_throws_iff (D : Distributions) (gs : Generators) (h : Int) (p : ℚ)
    (seed : Int) :
    (binomial_distribn D gs h p seed).1 = none ↔ h < 0 ∧ (p < 0 ∨ 1 < p) := by
  unfold binomial_distribn
  by_cases h1 : h ≥ 0 ∨ (p ≥ 0 ∧ p ≤ 1)
  · simp only [h1, not_true_eq_false, if_false]
    have hr : ¬ (h < 0 ∧ (p < 0 ∨ 1 < p)) := by
      rintro ⟨a, b⟩
      rcases h1 with h1 | ⟨h1, h2⟩
      · omega
      · rcases b with b | b
        · exact absurd h1 (not_le.mpr b)
        · exact absurd h2 (not_le.mpr b)
    split_ifs <;> simp [hr]
  · have hr : h < 0 ∧ (p < 0 ∨ 1 < p) := by
      push_neg at h1
      refine ⟨h1.1, ?_⟩
      by_cases h2 : p ≥ 0
      · exact Or.inr (h1.2 h2)
      · exact Or.inl (not_le.mp h2)
    simp [h1, hr]

theorem negbinomial_distribn_throws_iff (D : Distributions) (gs : Generators) (r : Int) (p : ℚ)
    (seed : Int) :
    (negbinomial_distribn D gs r p seed).1 = none ↔ r < 0 ∧ (p ≤ 0 ∨ 1 < p) := by
  unfold negbinomial_distribn
  by_cases h1 : r ≥ 0 ∨ (p > 0 ∧ p ≤ 1)
  · simp only [h1, not_true_eq_false, if_false]
    have hr : ¬ (r < 0 ∧ (p ≤ 0 ∨ 1 < p)) := by
      rintro ⟨a, b⟩
      rcases h1 with h1 | ⟨h1, h2⟩
      · omega
      · rcases b with b | b
        · exact absurd h1 (not_lt.mpr b)
        · exact absurd h2 (not_le.mpr b)
    split_ifs <;> simp [hr]
  · have hr : r < 0 ∧ (p ≤ 0 ∨ 1 < p) := by
      push_neg at h1
      refine ⟨h1.1, ?_⟩
      by_cases h2 : p > 0
      · exact Or.inr (h1.2 h2)
      · exact Or.inl (not_lt.mp h2)
    simp [h1, hr]

/-- C15 (failing input): for every library, generator state and seed,
`binomial_distribn(12, 2., seed)` and `binomial_distribn(12, -0.5, seed)` raise
no exception although `p` lies outside [0,1], `binomial_distribn(-1, 0.5, seed)`
raises none although `h < 0`, and `negbinomial_distribn(8, 0., seed)`,
`negbinomial_distribn(8, 2., seed)` and `negbinomial_distribn(-1, 0.5, seed)`
raise none although `p` lies outside (0,1] or `r < 0`; an exception is raised
for `h = -1, p = 2`. -/
theorem binomial_distribn_accepts_invalid_parameters (D : Distributions) (gs : Generators)
    (seed : Int) :
    (binomial_distribn D gs 12 2 seed).1 = some (D.binomial 12 2
      (static_generator D gs.binomial_gen seed)).1 ∧
    (binomial_distribn D gs 12 (-1 / 2) seed).1 ≠ none ∧
    (binomial_distribn D gs (-1) (1 / 2) seed).1 ≠ none ∧
    (negbinomial_distribn D gs 8 0 seed).1 ≠ none ∧
    (negbinomial_distribn D gs 8 2 seed).1 ≠ none ∧
    (negbinomial_distribn D gs (-1) (1 / 2) seed).1 ≠ none ∧
    (binomial_distribn D gs (-1) 2 seed).1 = none ∧
    (negbinomial_distribn D gs (-1) 2 seed).1 = none := by
  refine ⟨?_, ?_, ?_, ?_, ?_, ?_, ?_, ?_⟩
  · unfold binomial_distribn; norm_num
  · rw [Ne, binomial_distribn_throws_iff]; norm_num
  · rw [Ne, binomial_distribn_throws_iff]; norm_num
  · rw [Ne, negbinomial_distribn_throws_iff]; norm_num
  · rw [Ne, negbinomial_distribn_throws_iff]; norm_num
  · rw [Ne, negbinomial_distribn_throws_iff]; norm_num
  · rw [binomial_distribn_throws_iff]; norm_num
  · rw [negbinomial_distribn_throws_iff]; norm_num

theorem call_sampler_seed (D : Distributions) (gs : Generators) (c : Call) (s s' : Int)
    (h : gs.of_sampler c.sampler ≠ none ∨ s = s') :
    call_sampler D gs c s = call_sampler D gs c s' := by
  rcases h with h | h
  · cases c <;>
      simp only [Call.sampler, Generators.of_sampler] at h <;>
      obtain ⟨g, hg⟩ := Option.ne_none_iff_exists'.mp h <;>
      simp only [call_sampler, gamma_distribn, binomial_distribn, negbinomial_distribn,
        exp_distribn, static_generator, hg]
  · rw [h]

theorem call_sampler_generators (D : Distributions) (gs : Generators) (c : Call) (s : Int)
    (k : Sampler) :
    ((call_sampler D gs c s).2.of_sampler k ≠ none ↔ (k = c.sampler ∨ gs.of_sampler k ≠ none)) := by
  cases c <;> cases k <;>
    simp only [call_sampler, gamma_distribn, binomial_distribn, negbinomial_distribn,
      exp_distribn, Call.sampler, Generators.of_sampler] <;>
    (try split_ifs) <;> simp

theorem run_calls_seeds (D : Distributions) : ∀ (cs cs' : List (Call × Int)) (gs : Generators),
    cs.map Prod.fst = cs'.map Prod.fst →
    (∀ k, gs.of_sampler k ≠ none ∨ first_seed k cs = first_seed k cs') →
    run_calls D gs cs = run_calls D gs cs' := by
  intro cs
  induction cs with
  | nil =>
    intro cs' gs hc _
    cases cs' with
    | nil => rfl
    | cons a l => simp at hc
  | cons x cs ih =>
    intro cs' gs hc hs
    cases cs' with
    | nil => simp at hc
    | cons y cs' =>
      obtain ⟨c, s⟩ := x
      obtain ⟨c', s'⟩ := y
      simp only [List.map_cons, List.cons.injEq] at hc
      obtain ⟨hcc, hc⟩ := hc
      subst hcc
      have hseed : call_sampler D gs c s = call_sampler D gs c s' := by
        apply call_sampler_seed
        rcases hs c.sampler with h | h
        · exact Or.inl h
        · right
          simpa [first_seed] using h
      simp only [run_calls]
      rw [← hseed]
      congr 1
      apply ih _ _ hc
      intro k
      by_cases hk : k = c.sampler
      · left
        exact (call_sampler_generators D gs c s k).mpr (Or.inl hk)
      · rcases hs k with h | h
        · left
          exact (call_sampler_generators D gs c s k).mpr (Or.inr h)
        · right
          have hk' : ¬ c.sampler = k := fun e => hk e.symm
          simpa [first_seed, List.filter_cons, hk'] using h

/-- C17 (counterexample): with the example library, `gamma_distribn(3, 3., 7)`
called as the first gamma draw of a run returns another value in a fresh
process than in a process in which an earlier run has drawn once with seed 5,
although the seed passed and the number of earlier calls in the run are the
same; and of two runs on the triangle network with seed 7, current node 3 and
`nelim = 3` made one after the other in one process, the first ends with
another walker time than the second. -/
theorem static_generator_breaks_determinism :
    (gamma_distribn lcg {} 3 3 7).1 = 1058841 / 2147483647 ∧
    (gamma_distribn lcg (gamma_distribn lcg {} 3 3 5).2 3 3 7).1 = 12711386205 / 2147483647 ∧
    (run_enhanced_kmc (process_oracle lcg 7) triangle 10 (start_at 2 3)).map
      (fun r => (r.st.walker.t, r.st.walker.k, r.st.walker.s)) =
      .ok (5590190484 / 2147483647, 1, 0) ∧
    ((run_enhanced_kmc (process_oracle lcg 7) triangle 10 (start_at 2 3)).bind (fun r1 =>
      run_enhanced_kmc (process_oracle lcg 7) triangle 10 (next_run r1 2 3))).map
      (fun r => (r.st.walker.t, r.st.walker.k, r.st.walker.s)) =
      .ok (10295957313 / 2147483647, 1, 0) := by
  decide!

/-- C17 (amended): the values returned by a sequence of calls of the four
samplers in a fresh process are determined by the calls without their seed
arguments and by the seed argument of the first call of each sampler: two
sequences that make the same calls and agree on the seed of the first call of
each sampler return the same values (an exception counting as a value),
whatever seeds the later calls pass. -/
theorem sampler_values_fixed_by_first_seeds (D : Distributions) (cs cs' : List (Call × Int))
    (hc : cs.map Prod.fst = cs'.map Prod.fst)
    (hs : ∀ k, first_seed k cs = first_seed k cs') :
    run_calls D {} cs = run_calls D {} cs' :=
  run_calls_seeds D cs cs' {} hc (fun k => Or.inr (hs k))

/-- Witness for C17 (amended): three calls whose last seeds differ. -/
theorem sampler_values_fixed_by_first_seeds_witness :
    ([(Call.gamma 3 3, (7 : Int)), (.binomial 12 (1 / 2), 7), (.gamma 3 3, 7)].map Prod.fst =
      [(Call.gamma 3 3, (7 : Int)), (.binomial 12 (1 / 2), 7), (.gamma 3 3, 8)].map Prod.fst) ∧
    (∀ k, first_seed k [(.gamma 3 3, 7), (.binomial 12 (1 / 2), 7), (.gamma 3 3, 7)] =
      first_seed k [(.gamma 3 3, 7), (.binomial 12 (1 / 2), 7), (.gamma 3 3, 8)]) ∧
    run_calls lcg {} [(.gamma 3 3, 7), (.binomial 12 (1 / 2), 7), (.gamma 3 3, 7)] =
    run_calls lcg {} [(.gamma 3 3, 7), (.binomial 12 (1 / 2), 7), (.gamma 3 3, 8)] :=
  ⟨by decide!, by intro k; cases k <;> decide!,
   sampler_values_fixed_by_first_seeds lcg _ _ (by decide!) (by intro k; cases k <;> decide!)⟩

/-! ## The edge count of the classifier -/

theorem foldl_preserves {σ α : Type} (P : σ → Prop) (f : σ → α → σ) :
    ∀ (l : List α), (∀ s, ∀ x ∈ l, P s → P (f s x)) → ∀ s, P s → P (l.foldl f s) := by
  intro l
  induction l with
  | nil => intro _ s hs; exact hs
  | cons a l ih =>
    intro h s hs
    rw [List.foldl_cons]
    exact ih (fun s x hx => h s x (List.mem_cons_of_mem _ hx)) _
      (h s a (List.mem_cons_self _ _) hs)

theorem sum_range_point (f g : Nat → Nat) (i : Nat) (h : ∀ j, j ≠ i → g j = f j) :
    ∀ n, i < n → ((List.range n).map g).sum + f i = ((List.range n).map f).sum + g i := by
  have hbelow : ∀ n, n ≤ i → ((List.range n).map g).sum = ((List.range n).map f).sum := by
    intro n
    induction n with
    | zero => intro _; rfl
    | succ n ih =>
      intro hn
      rw [List.range_succ, List.map_append, List.map_append, List.sum_append, List.sum_append,
        ih (by omega)]
      simp only [List.map_cons, List.map_nil, List.sum_cons, List.sum_nil]
      rw [h n (by omega)]
  intro n
  induction n with
  | zero => intro hi; omega
  | succ n ih =>
    intro hi
    rw [List.range_succ, List.map_append, List.map_append, List.sum_append, List.sum_append]
    simp only [List.map_cons, List.map_nil, List.sum_cons, List.sum_nil, Nat.add_zero]
    by_cases hin : i = n
    · subst hin
      rw [hbelow i (le_refl _)]
      omega
    · have := ih (by omega)
      rw [h n (fun e => hin e.symm)]
      omega

theorem mark_basin_edge_count (ktn : Network) (c : Int) (s : Basin) (k : Nat) :
    (mark_basin ktn c s k).N_e =
      s.N_e + (if (ktn.node k).comm_id = c then (ktn.node k).udeg else 0) := by
  unfold mark_basin
  split <;> rfl

theorem mark_basin_fold_edge_count (ktn : Network) (c : Int) (s : Basin) (k : Nat) :
    ((List.range k).foldl (mark_basin ktn c) s).N_e =
      s.N_e + ((List.range k).map
        (fun i => if (ktn.node i).comm_id = c then (ktn.node i).udeg else 0)).sum := by
  induction k with
  | zero => simp
  | succ k ih =>
    rw [List.range_succ, List.foldl_append, List.map_append, List.sum_append]
    simp only [List.foldl_cons, List.foldl_nil, List.map_cons, List.map_nil, List.sum_cons,
      List.sum_nil, Nat.add_zero]
    rw [mark_basin_edge_count, ih]
    omega

/-- Invariant of the second loop of the classifier for the edge count: `A` is
the count left by the first loop. -/
theorem mark_absorbing_edge_count (ktn : Network) (c : Int) (A : Nat) (hid : ids_in_order ktn)
    (s : Basin) (ei : Nat) (ht : (ktn.edge ei).to_node < ktn.nodes.length)
    (h : s.basin_ids.length = ktn.nodes.length ∧ s.N_e = A + udeg_sum ktn s.basin_ids 3) :
    (mark_absorbing_edge ktn c s ei).basin_ids.length = ktn.nodes.length ∧
    (mark_absorbing_edge ktn c s ei).N_e =
      A + udeg_sum ktn (mark_absorbing_edge ktn c s ei).basin_ids 3 := by
  obtain ⟨hl, hN⟩ := h
  unfold mark_absorbing_edge
  simp only []
  by_cases hd : (ktn.edge ei).deadts = true
  · rw [if_pos hd]; exact ⟨hl, hN⟩
  · rw [if_neg hd]
    have hidt : (ktn.node (ktn.edge ei).to_node).node_id - 1 = (ktn.edge ei).to_node := by
      rw [hid.2 _ ht]; omega
    rw [hidt]
    by_cases hc : (ktn.node (ktn.edge ei).to_node).comm_id ≠ c ∧
        s.basin_ids.getD (ktn.edge ei).to_node 0 = 0
    · rw [if_pos hc]
      refine ⟨by simp [hl], ?_⟩
      show s.N_e + (ktn.node (ktn.edge ei).to_node).udeg =
        A + udeg_sum ktn (s.basin_ids.set (ktn.edge ei).to_node 3) 3
      have hlt : (ktn.edge ei).to_node < s.basin_ids.length := by rw [hl]; exact ht
      have key := sum_range_point
        (fun i => if s.basin_ids.getD i 0 = 3 then (ktn.node i).udeg else 0)
        (fun i => if (s.basin_ids.set (ktn.edge ei).to_node 3).getD i 0 = 3
          then (ktn.node i).udeg else 0)
        (ktn.edge ei).to_node
        (by
          intro j hj
          show (if (s.basin_ids.set (ktn.edge ei).to_node 3).getD j 0 = 3
            then (ktn.node j).udeg else 0) = _
          rw [getD_set_ne (fun e => hj e.symm)])
        ktn.nodes.length ht
      simp only [getD_set_eq hlt, hc.2, if_true] at key
      have h03 : ¬ ((0 : Nat) = 3) := by decide
      rw [if_neg h03] at key
      unfold udeg_sum
      rw [hN]
      unfold udeg_sum
      omega
    · rw [if_neg hc]; exact ⟨hl, hN⟩

theorem mark_absorbing_node_count (ktn : Network) (c : Int) (A : Nat) (hid : ids_in_order ktn)
    (hval : targets_valid ktn) (s : Basin) (i : Nat) (hi : i < ktn.nodes.length)
    (h : s.basin_ids.length = ktn.nodes.length ∧ s.N_e = A + udeg_sum ktn s.basin_ids 3) :
    (mark_absorbing_node ktn c s i).basin_ids.length = ktn.nodes.length ∧
    (mark_absorbing_node ktn c s i).N_e =
      A + udeg_sum ktn (mark_absorbing_node ktn c s i).basin_ids 3 := by
  unfold mark_absorbing_node
  split
  · exact h
  · exact foldl_preserves
      (fun s : Basin => s.basin_ids.length = ktn.nodes.length ∧
        s.N_e = A + udeg_sum ktn s.basin_ids 3)
      (mark_absorbing_edge ktn c) _
      (fun s ei hei hs => mark_absorbing_edge_count ktn c A hid s ei (hval i hi ei hei) hs) s h

theorem udeg_sum_congr (ktn : Network) (b1 b2 : List Nat) (l1 l2 : Nat)
    (h : ∀ i, i < ktn.nodes.length → (b1.getD i 0 = l1 ↔ b2.getD i 0 = l2)) :
    udeg_sum ktn b1 l1 = udeg_sum ktn b2 l2 := by
  unfold udeg_sum
  congr 1
  apply List.map_congr_left
  intro i hi
  have hi' : i < ktn.nodes.length := List.mem_range.mp hi
  by_cases h1 : b1.getD i 0 = l1
  · rw [if_pos h1, if_pos ((h i hi').mp h1)]
  · rw [if_neg h1, if_neg (fun e => h1 ((h i hi').mpr e))]

theorem udeg_sum_zero (ktn : Network) (bids : List Nat) (l : Nat)
    (h : ∀ i, bids.getD i 0 ≠ l) : udeg_sum ktn bids l = 0 := by
  unfold udeg_sum
  apply List.sum_eq_zero
  intro x hx
  obtain ⟨i, _, hi⟩ := List.mem_map.mp hx
  rw [if_neg (h i)] at hi
  exact hi.symm

theorem classify_edge_count (ktn : Network) (c : Int) (hid : ids_in_order ktn)
    (hval : targets_valid ktn) :
    (classify ktn c).N_e =
      udeg_sum ktn (classify ktn c).basin_ids 2 + udeg_sum ktn (classify ktn c).basin_ids 3 := by
  have hI := classify_inv ktn c hid hval
  have h1 := inv1_fold ktn c ktn.n_nodes (le_refl _)
  have hA := mark_basin_fold_edge_count ktn c { basin_ids := List.replicate ktn.n_nodes 0 }
    ktn.n_nodes
  obtain ⟨s1, hs1⟩ : ∃ s1, s1 = (List.range ktn.n_nodes).foldl (mark_basin ktn c)
    { basin_ids := List.replicate ktn.n_nodes 0 } := ⟨_, rfl⟩
  rw [← hs1] at h1 hA
  have hQ1 : s1.basin_ids.length = ktn.nodes.length ∧ s1.N_e = s1.N_e + udeg_sum ktn s1.basin_ids 3 := by
    refine ⟨by rw [h1.1, hid.1], ?_⟩
    have hz : udeg_sum ktn s1.basin_ids 3 = 0 := by
      apply udeg_sum_zero
      intro i
      rw [h1.2.1 i]
      split <;> decide
    rw [hz]; rfl
  have hQ := foldl_preserves
    (fun s : Basin => s.basin_ids.length = ktn.nodes.length ∧
      s.N_e = s1.N_e + udeg_sum ktn s.basin_ids 3)
    (mark_absorbing_node ktn c) (List.range ktn.n_nodes)
    (fun s i hi hs => mark_absorbing_node_count ktn c s1.N_e hid hval s i
      (by rw [← hid.1]; exact List.mem_range.mp hi) hs) s1 hQ1
  have hcl : classify ktn c = (List.range ktn.n_nodes).foldl (mark_absorbing_node ktn c) s1 := by
    rw [hs1]; rfl
  rw [← hcl] at hQ
  rw [hQ.2, hA]
  congr 1
  simp only [Nat.zero_add]
  rw [hid.1]
  unfold udeg_sum
  congr 1
  apply List.map_congr_left
  intro i hi
  have hi' : i < ktn.nodes.length := List.mem_range.mp hi
  by_cases hc : (ktn.node i).comm_id = c
  · rw [if_pos hc, if_pos ((hI.2.1 i).mpr ⟨hi', hc⟩)]
  · rw [if_neg hc, if_neg (fun e => hc ((hI.2.1 i).mp e).2)]

theorem inward_sum_of_closed (ktn : Network) (bids : List Nat) (hdeg : udeg_counts ktn)
    (hcl : boundary_closed ktn bids) : udeg_sum ktn bids 3 = inward_sum ktn bids := by
  unfold udeg_sum inward_sum
  congr 1
  apply List.map_congr_left
  intro i hi
  have hi' : i < ktn.nodes.length := List.mem_range.mp hi
  by_cases h3 : bids.getD i 0 = 3
  · rw [if_pos h3, if_pos h3, hdeg i hi']
    unfold inward_degree
    congr 1
    apply List.filter_congr
    intro ei hei
    show (!(ktn.edge ei).deadts) =
      (!(ktn.edge ei).deadts && bids.getD (ktn.edge ei).to_node 0 == 2)
    by_cases hd : (ktn.edge ei).deadts = false
    · rw [hcl i hi' h3 ei hei hd, hd]
      rfl
    · rw [Bool.not_eq_false] at hd
      rw [hd]
      rfl
  · rw [if_neg h3, if_neg h3]

/-- C14 (counterexample): on the triangle network with current node 1 the
interior nodes 1, 2, 3 have the out-degrees 2, 2, 3, of sum 7, while the
classifier returns `N_e = 8`: the edge of the boundary node 4 into the basin is
counted as well, and with this count the consistency check of `get_subnetwork`
passes. -/
theorem edge_count_includes_boundary_inward_edges :
    (setup_basin_sets orc0 triangle (start_at 0 3)).map (fun st =>
      (st.basin.basin_ids, st.basin.N_e, udeg_sum triangle st.basin.basin_ids 2,
       inward_sum triangle st.basin.basin_ids)) = .ok ([2, 2, 2, 3], 8, 7, 1) ∧
    ((setup_basin_sets orc0 triangle (start_at 0 3)).bind (fun st =>
      get_subnetwork triangle (triangle.node 0).comm_id st.basin [])).map
      (fun r => r.1.edges.length) = .ok 8 := by
  decide!

/-- C14 (amended): for a network that stores node id i+1 at position i, in
which `udeg` counts the live edges of a node, any current node and
`nelim >= 0`: if every live edge of every absorbing boundary (label-3) node
leads to an interior (label-2) node, then after `setup_basin_sets` the edge
count `N_e` is the sum of the out-degrees `udeg` of the interior nodes plus the
number of live edges from absorbing boundary nodes into the basin. -/
theorem setup_basin_sets_edge_count (orc : Oracle) (ktn : Network) (st : State) (eps : Nat)
    (hid : ids_in_order ktn) (hval : targets_valid ktn) (hdeg : udeg_counts ktn)
    (heps : st.epsilon = some eps) (hbins : st.adaptivebins = false) (hnelim : 0 ≤ st.nelim)
    (hcl : boundary_closed ktn (classify ktn (ktn.node eps).comm_id).basin_ids) :
    ∃ st', setup_basin_sets orc ktn st = .ok st' ∧
      st'.basin.N_e =
        udeg_sum ktn st'.basin.basin_ids 2 + inward_sum ktn st'.basin.basin_ids := by
  refine ⟨_, setup_basin_sets_eq orc ktn st eps heps hbins hnelim, ?_⟩
  show (classify ktn (ktn.node eps).comm_id).N_e = _
  rw [classify_edge_count ktn (ktn.node eps).comm_id hid hval]
  congr 1
  exact inward_sum_of_closed ktn _ hdeg hcl

/-- Witness for C14 (amended): the triangle network with the current node at
position 0 and `nelim = 3`. -/
theorem setup_basin_sets_edge_count_witness :
    ids_in_order triangle ∧ targets_valid triangle ∧ udeg_counts triangle ∧
    (0 : Int) ≤ (start_at 0 3).nelim ∧
    boundary_closed triangle (classify triangle (triangle.node 0).comm_id).basin_ids ∧
    ∃ st', setup_basin_sets orc0 triangle (start_at 0 3) = .ok st' ∧
      st'.basin.N_e =
        udeg_sum triangle st'.basin.basin_ids 2 + inward_sum triangle st'.basin.basin_ids :=
  have h1 : ids_in_order triangle := by unfold ids_in_order; decide!
  have h2 : targets_valid triangle := by unfold targets_valid; decide!
  have h3 : udeg_counts triangle := by unfold udeg_counts; decide!
  have h4 : boundary_closed triangle (classify triangle (triangle.node 0).comm_id).basin_ids := by
    unfold boundary_closed; decide!
  ⟨h1, h2, h3, by decide, h4,
   setup_basin_sets_edge_count orc0 triangle (start_at 0 3) 0 h1 h2 h3 rfl rfl (by decide) h4⟩

/-! ## Step 2 of a GT iteration -/

theorem node_updNode (net : Network) (i j : Nat) (g : Node → Node) :
    (net.updNode i g).node j =
      if i = j ∧ j < net.nodes.length then g (net.node j) else net.node j := by
  unfold Network.node Network.updNode
  exact getD_updAt g default i j net.nodes

theorem edge_updEdge (net : Network) (i k : Nat) (g : Edge → Edge) :
    (net.updEdge i g).edge k =
      if i = k ∧ k < net.edges.length then g (net.edge k) else net.edge k := by
  unfold Network.edge Network.updEdge
  exact getD_updAt g default i k net.edges

theorem loop_gain_append (net : Network) (factor : ℚ) (done : List Nat) (ei j : Nat) :
    loop_gain net factor (done ++ [ei]) j =
      loop_gain net factor done j +
        (if live_target net ei = true ∧ (net.edge ei).to_node = j then
          (net.edge ei).t * rev_t net (net.edge ei) / factor else 0) := by
  unfold loop_gain
  rw [List.filter_append, List.map_append, List.sum_append]
  congr 1
  by_cases h : live_target net ei = true ∧ (net.edge ei).to_node = j
  · rw [if_pos h]
    simp [List.filter_cons, h]
  · rw [if_neg h]
    simp [List.filter_cons, h]

theorem loop_gain_zero (net : Network) (factor : ℚ) (done : List Nat) (j : Nat)
    (h : ∀ ei ∈ done, (net.edge ei).to_node ≠ j) : loop_gain net factor done j = 0 := by
  unfold loop_gain
  have : done.filter (fun ei => live_target net ei ∧ (net.edge ei).to_node = j) = [] := by
    rw [List.filter_eq_nil_iff]
    intro a ha
    simp [h a ha]
  rw [this]; rfl

theorem scaninv_skip (net : Network) (p : Nat) (factor : ℚ) (done : List Nat) (ei : Nat)
    (now : Network) (h : ScanInv net p factor done now) (hl : live_target net ei = false) :
    ScanInv net p factor (done ++ [ei]) now := by
  obtain ⟨h1, h2, h3, h4⟩ := h
  refine ⟨h1, h2, ?_, ?_⟩
  · intro k
    rw [h3 k]
    unfold scan_weight
    by_cases hk : k ∈ done ∧ live_target net k = true
    · have hk' : k ∈ done ++ [ei] ∧ live_target net k = true :=
        ⟨List.mem_append_left _ hk.1, hk.2⟩
      rw [if_pos hk, if_pos hk']
    · have hk' : ¬ (k ∈ done ++ [ei] ∧ live_target net k = true) := by
        rintro ⟨a, b⟩
        rcases List.mem_append.mp a with a | a
        · exact hk ⟨a, b⟩
        · rw [List.mem_singleton.mp a, hl] at b
          exact absurd b (by decide)
      rw [if_neg hk, if_neg hk']
  · intro j
    obtain ⟨a, b, c, d⟩ := h4 j
    refine ⟨a, b, c, ?_⟩
    rw [d, loop_gain_append]
    have hn : ¬ (live_target net ei = true ∧ (net.edge ei).to_node = j) := by
      rw [hl]; simp
    rw [if_neg hn, add_zero]

theorem scaninv_flag (net : Network) (p : Nat) (factor : ℚ) (done : List Nat)
    (now : Network) (i : Nat) (b : Bool) (h : ScanInv net p factor done now) :
    ScanInv net p factor done (now.updNode i (fun n => { n with flag := b })) := by
  obtain ⟨h1, h2, h3, h4⟩ := h
  refine ⟨?_, h2, h3, ?_⟩
  · show (updAt _ i now.nodes).length = _
    rw [updAt_length]; exact h1
  · intro j
    rw [node_updNode]
    split
    · exact h4 j
    · exact h4 j

theorem scan_weight_append (net : Network) (p : Nat) (factor : ℚ) (done : List Nat)
    (ei k : Nat) (hk : k ≠ ei) :
    scan_weight net p factor (done ++ [ei]) k = scan_weight net p factor done k := by
  unfold scan_weight
  have : (k ∈ done ++ [ei] ∧ live_target net k = true) ↔ (k ∈ done ∧ live_target net k = true) := by
    constructor
    · rintro ⟨a, b⟩
      rcases List.mem_append.mp a with a | a
      · exact ⟨a, b⟩
      · exact absurd (List.mem_singleton.mp a) hk
    · rintro ⟨a, b⟩
      exact ⟨List.mem_append_left _ a, b⟩
  rw [if_congr this rfl rfl]

theorem node_updEdge (net : Network) (i j : Nat) (g : Edge → Edge) :
    (net.updEdge i g).node j = net.node j := rfl

theorem edge_updNode (net : Network) (i k : Nat) (g : Node → Node) :
    (net.updNode i g).edge k = net.edge k := rfl

theorem nodes_length_updNode (net : Network) (i : Nat) (g : Node → Node) :
    (net.updNode i g).nodes.length = net.nodes.length := updAt_length g i net.nodes

theorem edges_length_updEdge (net : Network) (i : Nat) (g : Edge → Edge) :
    (net.updEdge i g).edges.length = net.edges.length := updAt_length g i net.edges

theorem scaninv_update (net : Network) (p : Nat) (factor : ℚ) (done : List Nat) (ei : Nat)
    (now : Network) (h : ScanInv net p factor done now)
    (hnd : ei ∉ done) (hlen : ei < net.edges.length)
    (hto : (net.edge ei).to_node < net.nodes.length) (hlive : live_target net ei = true) :
    ScanInv net p factor (done ++ [ei])
      ((now.updNode (net.edge ei).to_node
        (fun n => { n with t := n.t + (net.edge ei).t * rev_t net (net.edge ei) / factor })).updEdge
        ei (fun x => { x with t := x.t + x.t * (net.node p).t / factor })) := by
  obtain ⟨h1, h2, h3, h4⟩ := h
  refine ⟨?_, ?_, ?_, ?_⟩
  · exact (nodes_length_updNode _ _ _).trans h1
  · exact (edges_length_updEdge _ _ _).trans h2
  · intro k
    rw [edge_updEdge, edge_updNode]
    by_cases hk : ei = k
    · subst hk
      have hl2 : ei < (now.updNode (net.edge ei).to_node
          (fun n => { n with t := n.t + (net.edge ei).t * rev_t net (net.edge ei) / factor })).edges.length := by
        show ei < now.edges.length
        rw [h2]; exact hlen
      rw [if_pos ⟨rfl, hl2⟩, h3 ei]
      unfold scan_weight
      rw [if_neg (fun c => hnd c.1),
        if_pos ⟨List.mem_append_right _ (List.mem_singleton_self _), hlive⟩]
    · rw [if_neg (fun c => hk c.1), h3 k, scan_weight_append _ _ _ _ _ _ (fun c => hk c.symm)]
  · intro j
    rw [node_updEdge, node_updNode, loop_gain_append]
    obtain ⟨a, b, c, d⟩ := h4 j
    by_cases hj : (net.edge ei).to_node = j
    · have hj2 : j < now.nodes.length := by rw [h1, ← hj]; exact hto
      rw [if_pos ⟨hj, hj2⟩, if_pos ⟨hlive, hj⟩]
      refine ⟨a, b, c, ?_⟩
      show (now.node j).t + _ = _
      rw [d, add_assoc]
    · rw [if_neg (fun c => hj c.1), if_neg (fun c => hj c.2), add_zero]
      exact ⟨a, b, c, d⟩

theorem gt_scan_edge_inv (net : Network) (p : Nat) (factor : ℚ) (done : List Nat) (ei : Nat)
    (s : GTState) (h : ScanInv net p factor done s.net)
    (hnd : ei ∉ done) (hlen : ei < net.edges.length)
    (hto : (net.edge ei).to_node < net.nodes.length) (hne : (net.edge ei).to_node ≠ p)
    (hpz : ∀ x ∈ done, (net.edge x).to_node ≠ p)
    (hrev : ∀ r, (net.edge ei).rev_edge = some r → r ∉ done) :
    ScanInv net p factor (done ++ [ei]) (gt_scan_edge p factor s ei).net := by
  have h' := h
  obtain ⟨h1, h2, h3, h4⟩ := h'
  have he : s.net.edge ei = net.edge ei := by
    rw [h3 ei]; unfold scan_weight; rw [if_neg (fun c => hnd c.1)]
  have hflag := scaninv_flag net p factor done s.net (net.edge ei).to_node true h
  have hrt : rev_t (s.net.updNode (net.edge ei).to_node (fun n => { n with flag := true }))
      (net.edge ei) = rev_t net (net.edge ei) := by
    unfold rev_t
    cases hr : (net.edge ei).rev_edge with
    | none => rfl
    | some r =>
      simp only
      rw [edge_updNode, h3 r]; unfold scan_weight; rw [if_neg (fun c => hrev r hr c.1)]
  have hpt : ∀ g : Node → Node,
      (((s.net.updNode (net.edge ei).to_node (fun n => { n with flag := true })).updNode
        (net.edge ei).to_node g).node p).t = (net.node p).t := by
    intro g
    rw [node_updNode, if_neg (fun c => hne c.1), (hflag.2.2.2 p).2.2.2,
      loop_gain_zero net factor done p hpz, add_zero]
  unfold gt_scan_edge
  simp only [he]
  by_cases hd : (net.edge ei).deadts = true
  · rw [if_pos hd]
    exact scaninv_skip _ _ _ _ _ _ h (by unfold live_target; rw [hd]; rfl)
  · rw [if_neg hd]
    by_cases hx : (net.node (net.edge ei).to_node).eliminated = true
    · rw [if_pos (((hflag.2.2.2 _).1).trans hx)]
      exact scaninv_skip _ _ _ _ _ _ hflag (by unfold live_target; rw [hx]; simp)
    · rw [if_neg (fun c => hx (((hflag.2.2.2 _).1).symm.trans c))]
      have hlive : live_target net ei = true := by
        unfold live_target
        simp only [Bool.not_eq_true] at hd hx
        rw [hd, hx]; rfl
      simp only [hrt, hpt]
      exact scaninv_update net p factor done ei _ hflag hnd hlen hto hlive

theorem gt_scan_fold_inv (net : Network) (p : Nat) (factor : ℚ) :
    ∀ (es done : List Nat) (s : GTState), ScanInv net p factor done s.net →
    (done ++ es).Nodup →
    (∀ x ∈ done ++ es, x < net.edges.length ∧ (net.edge x).to_node < net.nodes.length ∧
      (net.edge x).to_node ≠ p ∧ ∀ r, (net.edge x).rev_edge = some r → r ∉ done ++ es) →
    ScanInv net p factor (done ++ es) (es.foldl (gt_scan_edge p factor) s).net := by
  intro es
  induction es with
  | nil => intro done s h _ _; simpa using h
  | cons e es ih =>
    intro done s h hnd hall
    rw [List.foldl_cons]
    have hmem : e ∈ done ++ e :: es := List.mem_append_right _ (List.mem_cons_self _ _)
    obtain ⟨a, b, c, d⟩ := hall e hmem
    have hnot : e ∉ done := by
      intro hc
      have := List.nodup_append.mp hnd
      exact this.2.2 hc (List.mem_cons_self _ _)
    have hstep := gt_scan_edge_inv net p factor done e s h hnot a b c
      (fun x hx => (hall x (List.mem_append_left _ hx)).2.2.1)
      (fun r hr hc => d r hr (List.mem_append_left _ hc))
    have e2 : done ++ e :: es = (done ++ [e]) ++ es := by simp
    rw [e2] at hnd hall ⊢
    exact ih (done ++ [e]) _ hstep hnd hall

theorem scaninv_init (net : Network) (p : Nat) (factor : ℚ) : ScanInv net p factor [] net := by
  refine ⟨rfl, rfl, ?_, ?_⟩
  · intro k
    unfold scan_weight
    simp
  · intro j
    refine ⟨rfl, rfl, rfl, ?_⟩
    unfold loop_gain
    simp

theorem gt_scan_edge_to_node (p : Nat) (factor : ℚ) (s : GTState) (ei k : Nat) :
    ((gt_scan_edge p factor s ei).net.edge k).to_node = (s.net.edge k).to_node := by
  unfold gt_scan_edge
  simp only
  split
  · rfl
  · split
    · rfl
    · show ((Network.updEdge _ ei _).edge k).to_node = _
      rw [edge_updEdge]
      split <;> rfl

theorem gt_scan_edge_nbrs (p : Nat) (factor : ℚ) (s : GTState) (ei : Nat) :
    ∀ i ∈ (gt_scan_edge p factor s ei).nodes_nbrs,
      i ∈ s.nodes_nbrs ∨ i = (s.net.edge ei).to_node := by
  unfold gt_scan_edge
  simp only
  intro i
  split
  · intro h; exact Or.inl h
  · split
    · intro h
      rcases List.mem_append.mp h with h | h
      · exact Or.inl h
      · exact Or.inr (List.mem_singleton.mp h)
    · intro h
      rcases List.mem_append.mp h with h | h
      · exact Or.inl h
      · exact Or.inr (List.mem_singleton.mp h)

theorem gt_scan_fold_nbrs (p : Nat) (factor : ℚ) : ∀ (es : List Nat) (s : GTState),
    (∀ i ∈ s.nodes_nbrs, i ≠ p) → (∀ x ∈ es, (s.net.edge x).to_node ≠ p) →
    ∀ i ∈ (es.foldl (gt_scan_edge p factor) s).nodes_nbrs, i ≠ p := by
  intro es
  induction es with
  | nil => intro s h _; exact h
  | cons e es ih =>
    intro s h hes
    rw [List.foldl_cons]
    apply ih
    · intro i hi
      rcases gt_scan_edge_nbrs p factor s e i hi with hi | hi
      · exact h i hi
      · rw [hi]; exact hes e (List.mem_cons_self _ _)
    · intro x hx
      rw [gt_scan_edge_to_node]
      exact hes x (List.mem_cons_of_mem _ hx)

theorem keepinv_updEdge (L : List Nat) (p : Nat) (mid now : Network) (ei : Nat)
    (g : Edge → Edge) (h : KeepInv L p mid now) (hei : ei ∉ L) :
    KeepInv L p mid (now.updEdge ei g) := by
  obtain ⟨h1, h2, h3, h4⟩ := h
  refine ⟨?_, h2, ?_, h4⟩
  · rw [edges_length_updEdge]; exact h1
  · intro x hx
    have hne : ¬ (ei = x ∧ x < now.edges.length) := by
      rintro ⟨c, _⟩
      rw [c] at hei
      exact hei hx
    rw [edge_updEdge, if_neg hne]
    exact h3 x hx

theorem edge_push_new_edge (net : Network) (t : ℚ) (a b rev k : Nat)
    (hk : k < net.edges.length) : (push_new_edge net t a b rev).edge k = net.edge k := by
  unfold push_new_edge Network.add_to_edge Network.add_from_edge Network.updNode Network.edge
  simp only [List.getD_eq_getElem?_getD]
  rw [List.getElem?_append_left hk]

theorem node_push_new_edge (net : Network) (t : ℚ) (a b rev j : Nat) :
    ((push_new_edge net t a b rev).node j).t = (net.node j).t ∧
    ∀ x ∈ ((push_new_edge net t a b rev).node j).top_from,
      x ∈ (net.node j).top_from ∨ x = net.edges.length := by
  unfold push_new_edge Network.add_to_edge Network.add_from_edge
  simp only
  have e1 : ∀ (n1 : Network) (c : Nat), ({ n1 with n_edges := c } : Network).node j = n1.node j :=
    fun _ _ => rfl
  rw [e1, node_updNode, node_updNode]
  constructor
  · split
    · split <;> rfl
    · split <;> rfl
  · intro x hx
    split at hx
    · split at hx
      · rcases List.mem_cons.mp hx with hx | hx
        · exact Or.inr hx
        · exact Or.inl hx
      · exact Or.inl hx
    · split at hx
      · rcases List.mem_cons.mp hx with hx | hx
        · exact Or.inr hx
        · exact Or.inl hx
      · exact Or.inl hx

theorem keepinv_push (L : List Nat) (p : Nat) (mid now : Network) (t : ℚ) (a b rev : Nat)
    (hL : ∀ x ∈ L, x < mid.edges.length) (h : KeepInv L p mid now) :
    KeepInv L p mid (push_new_edge now t a b rev) := by
  obtain ⟨h1, h2, h3, h4⟩ := h
  refine ⟨?_, ?_, ?_, ?_⟩
  · rw [push_new_edge_length]; omega
  · intro j
    rw [(node_push_new_edge now t a b rev j).1]; exact h2 j
  · intro x hx
    rw [edge_push_new_edge now t a b rev x (lt_of_lt_of_le (hL x hx) h1)]
    exact h3 x hx
  · intro j hj x hx hxL
    rcases (node_push_new_edge now t a b rev j).2 x hx with hx | hx
    · exact h4 j hj x hx hxL
    · have := hL x hxL
      omega

theorem gt_pair_edge_keep (L : List Nat) (p : Nat) (mid : Network) (old : Nat) (factor : ℚ)
    (s : GTState) (ei : Nat) (hei : ei ∉ L) (h : KeepInv L p mid s.net) :
    KeepInv L p mid (gt_pair_edge old factor s ei).net := by
  unfold gt_pair_edge
  simp only
  split
  · exact h
  · split
    · exact h
    · exact keepinv_updEdge L p mid s.net ei _ h hei

theorem gt_pair_edge_top_from (old : Nat) (factor : ℚ) (s : GTState) (ei j : Nat) :
    ((gt_pair_edge old factor s ei).net.node j) = s.net.node j := by
  unfold gt_pair_edge
  simp only
  split
  · rfl
  · split <;> rfl

theorem gt_new_pair_keep (L : List Nat) (p : Nat) (mid : Network) (nodemap : List (Nat × Nat))
    (factor : ℚ) (i : Nat) (s : GTState) (k : Nat) (hL : ∀ x ∈ L, x < mid.edges.length)
    (h : KeepInv L p mid s.net) :
    KeepInv L p mid (gt_new_pair nodemap factor i s k).net := by
  unfold gt_new_pair
  simp only
  split
  · exact h
  · split
    · exact h
    · split
      · exact h
      · exact keepinv_push L p mid _ _ _ _ _ hL (keepinv_push L p mid _ _ _ _ _ hL h)

theorem gt_neighbour_keep (L : List Nat) (p : Nat) (mid : Network) (nodemap : List (Nat × Nat))
    (old : Nat) (factor : ℚ) (s : GTState) (i : Nat) (hi : i ≠ p)
    (hL : ∀ x ∈ L, x < mid.edges.length) (h : KeepInv L p mid s.net) :
    KeepInv L p mid (gt_neighbour nodemap old factor s i).net := by
  unfold gt_neighbour
  have h1 : KeepInv L p mid ((s.net.node i).top_from.foldl (gt_pair_edge old factor) s).net :=
    foldl_preserves (fun x : GTState => KeepInv L p mid x.net) (gt_pair_edge old factor) _
      (fun x ei hei hx => gt_pair_edge_keep L p mid old factor x ei (h.2.2.2 i hi ei hei) hx) s h
  simp only
  split
  · exact h1
  · exact foldl_preserves (fun x : GTState => KeepInv L p mid x.net)
      (gt_new_pair nodemap factor i) _
      (fun x k _ hx => gt_new_pair_keep L p mid nodemap factor i x k hL hx) _ h1

theorem gt_neighbour_nbrs (nodemap : List (Nat × Nat)) (old : Nat) (factor : ℚ) (s : GTState)
    (i : Nat) : (gt_neighbour nodemap old factor s i).nodes_nbrs = s.nodes_nbrs := by
  unfold gt_neighbour
  have hp : ∀ (l : List Nat) (x : GTState),
      (l.foldl (gt_pair_edge old factor) x).nodes_nbrs = x.nodes_nbrs := by
    intro l
    induction l with
    | nil => intro x; rfl
    | cons a l ih =>
      intro x
      rw [List.foldl_cons, ih]
      unfold gt_pair_edge
      simp only
      split
      · rfl
      · split <;> rfl
  have hq : ∀ (l : List Nat) (x : GTState),
      (l.foldl (gt_new_pair nodemap factor i) x).nodes_nbrs = x.nodes_nbrs := by
    intro l
    induction l with
    | nil => intro x; rfl
    | cons a l ih =>
      intro x
      rw [List.foldl_cons, ih]
      unfold gt_new_pair
      simp only
      split
      · rfl
      · split
        · rfl
        · split <;> rfl
  simp only
  split
  · exact hp _ _
  · rw [hq, hp]

theorem reset_fold_keep (mid : Network) (es : List Nat) :
    ∀ net : Network, (∀ j, (net.node j).t = (mid.node j).t) →
      (∀ j, ((es.foldl (fun nt ei =>
        nt.updNode (nt.edge ei).to_node (fun n => { n with flag := false })) net).node j).t =
        (mid.node j).t) ∧
      (es.foldl (fun nt ei =>
        nt.updNode (nt.edge ei).to_node (fun n => { n with flag := false })) net).edges =
        net.edges := by
  induction es with
  | nil => intro net h; exact ⟨h, rfl⟩
  | cons e es ih =>
    intro net h
    rw [List.foldl_cons]
    have h' : ∀ j, ((net.updNode (net.edge e).to_node
        (fun n => { n with flag := false })).node j).t = (mid.node j).t := by
      intro j
      rw [node_updNode]
      split
      · exact h j
      · exact h j
    exact ⟨(ih _ h').1, (ih _ h').2⟩

theorem gt_neighbour_fold_keep (L : List Nat) (p : Nat) (mid : Network)
    (nodemap : List (Nat × Nat)) (old : Nat) (factor : ℚ)
    (hL : ∀ x ∈ L, x < mid.edges.length) : ∀ (ns : List Nat) (s : GTState),
    (∀ i ∈ ns, i ≠ p) → KeepInv L p mid s.net →
    KeepInv L p mid (ns.foldl (gt_neighbour nodemap old factor) s).net := by
  intro ns
  induction ns with
  | nil => intro s _ h; exact h
  | cons i ns ih =>
    intro s hns h
    rw [List.foldl_cons]
    exact ih _ (fun x hx => hns x (List.mem_cons_of_mem _ hx))
      (gt_neighbour_keep L p mid nodemap old factor s i (hns i (List.mem_cons_self _ _)) hL h)

/-- The weights after a GT iteration on the node at position `p`, in terms of
the weights before it: every self-loop weight has grown by the gain of the
first loop, and the edges of the adjacency list of `p` carry the weight the
first loop gave them. -/
theorem gt_iteration_weights (nodemap : List (Nat × Nat)) (net : Network) (p : Nat)
    (hnd : (net.node p).top_from.Nodup)
    (hall : ∀ x ∈ (net.node p).top_from, x < net.edges.length ∧
      (net.edge x).to_node < net.nodes.length ∧ (net.edge x).to_node ≠ p ∧
      ∀ r, (net.edge x).rev_edge = some r → r ∉ (net.node p).top_from)
    (hoth : ∀ j, j ≠ p → ∀ x ∈ (net.node j).top_from, x ∉ (net.node p).top_from) :
    (∀ j, ((gt_iteration nodemap net p).node j).t =
      (net.node j).t + loop_gain net (calc_gt_factor net p) (net.node p).top_from j) ∧
    (∀ ei ∈ (net.node p).top_from, (gt_iteration nodemap net p).edge ei =
      { net.edge ei with
        t := scan_weight net p (calc_gt_factor net p) (net.node p).top_from ei }) := by
  obtain ⟨s1, hs1⟩ : ∃ s1, s1 = (net.node p).top_from.foldl
    (gt_scan_edge p (calc_gt_factor net p)) { net := net } := ⟨_, rfl⟩
  have hscan : ScanInv net p (calc_gt_factor net p) (net.node p).top_from s1.net := by
    have := gt_scan_fold_inv net p (calc_gt_factor net p) (net.node p).top_from []
      { net := net } (scaninv_init net p _) (by simpa using hnd) (by simpa using hall)
    rw [← hs1] at this
    simpa using this
  have hnb : ∀ i ∈ s1.nodes_nbrs, i ≠ p := by
    rw [hs1]
    apply gt_scan_fold_nbrs
    · intro i hi; simp at hi
    · intro x hx; exact (hall x hx).2.2.1
  have hL : ∀ x ∈ (net.node p).top_from, x < s1.net.edges.length := by
    intro x hx
    rw [hscan.2.1]; exact (hall x hx).1
  have hk0 : KeepInv (net.node p).top_from p s1.net s1.net := by
    refine ⟨le_refl _, fun _ => rfl, fun _ _ => rfl, ?_⟩
    intro j hj x hx
    rw [(hscan.2.2.2 j).2.1] at hx
    exact hoth j hj x hx
  obtain ⟨s2, hs2⟩ : ∃ s2, s2 = s1.nodes_nbrs.foldl
    (gt_neighbour nodemap s1.net.n_edges (calc_gt_factor net p)) s1 := ⟨_, rfl⟩
  have hk2 : KeepInv (net.node p).top_from p s1.net s2.net := by
    rw [hs2]
    exact gt_neighbour_fold_keep _ p s1.net nodemap _ _ hL _ s1 hnb hk0
  have hgt : gt_iteration nodemap net p =
      (reset_flags s2.net p).updNode p (fun n => { n with eliminated := true }) := by
    rw [hs2, hs1]; rfl
  have hreset := reset_fold_keep s1.net (s2.net.node p).top_from s2.net hk2.2.1
  constructor
  · intro j
    rw [hgt, node_updNode]
    have ht : ((reset_flags s2.net p).node j).t = (s1.net.node j).t := hreset.1 j
    split
    · show ((reset_flags s2.net p).node j).t = _
      rw [ht, (hscan.2.2.2 j).2.2.2]
    · rw [ht, (hscan.2.2.2 j).2.2.2]
  · intro ei hei
    rw [hgt, edge_updNode]
    have he : (reset_flags s2.net p).edge ei = s2.net.edge ei := by
      unfold Network.edge reset_flags
      rw [hreset.2]
    rw [he, hk2.2.2.1 ei hei, hscan.2.2.1 ei]

theorem node_out_of_range (net : Network) (j : Nat) (h : net.nodes.length ≤ j) :
    net.node j = default := by
  unfold Network.node
  rw [List.getD_eq_getElem?_getD, List.getElem?_eq_none h]
  rfl

theorem filter_eq_singleton {α : Type} (P : α → Bool) (a : α) : ∀ (l : List α), l.Nodup →
    a ∈ l → P a = true → (∀ x ∈ l, P x = true → x = a) → l.filter P = [a] := by
  intro l
  induction l with
  | nil => intro _ h; simp at h
  | cons b l ih =>
    intro hnd hmem hPa huniq
    rw [List.nodup_cons] at hnd
    by_cases hb : b = a
    · subst hb
      rw [List.filter_cons_of_pos hPa]
      congr 1
      rw [List.filter_eq_nil_iff]
      intro x hx hPx
      have := huniq x (List.mem_cons_of_mem _ hx) hPx
      rw [this] at hx
      exact hnd.1 hx
    · have hbn : ¬ P b = true := fun hPb => hb (huniq b (List.mem_cons_self _ _) hPb)
      rw [List.filter_cons_of_neg hbn]
      have hmem' : a ∈ l := by
        rcases List.mem_cons.mp hmem with h | h
        · exact absurd h.symm hb
        · exact h
      exact ih hnd.2 hmem' hPa (fun x hx => huniq x (List.mem_cons_of_mem _ hx))

theorem loop_gain_none (net : Network) (factor : ℚ) (done : List Nat) (j : Nat)
    (h : ∀ ei ∈ done, ¬ (live_target net ei = true ∧ (net.edge ei).to_node = j)) :
    loop_gain net factor done j = 0 := by
  unfold loop_gain
  have : done.filter (fun ei => live_target net ei ∧ (net.edge ei).to_node = j) = [] := by
    rw [List.filter_eq_nil_iff]
    intro a ha
    simpa using h a ha
  rw [this]; rfl

theorem loop_gain_single (net : Network) (factor : ℚ) (done : List Nat) (ei : Nat)
    (hnd : done.Nodup) (hmem : ei ∈ done) (hlive : live_target net ei = true)
    (huniq : ∀ x ∈ done, live_target net x = true →
      (net.edge x).to_node = (net.edge ei).to_node → x = ei) :
    loop_gain net factor done (net.edge ei).to_node =
      (net.edge ei).t * rev_t net (net.edge ei) / factor := by
  unfold loop_gain
  rw [filter_eq_singleton _ ei done hnd hmem (by simpa using hlive)
    (fun x hx hP => by
      simp only [decide_eq_true_eq] at hP
      exact huniq x hx hP.1 hP.2)]
  simp

/-- The adjacency list of a node of a well-formed network meets the conditions
under which the first loop of `gt_iteration` is analysed. -/
theorem adjacency_conditions (net : Network) (p : Nat) (hp : p < net.nodes.length)
    (hadj : adj_valid net) (hdup : adj_nodup net) (hsym : rev_symmetric net)
    (hself : no_self_edges net) :
    (net.node p).top_from.Nodup ∧
    (∀ x ∈ (net.node p).top_from, x < net.edges.length ∧
      (net.edge x).to_node < net.nodes.length ∧ (net.edge x).to_node ≠ p ∧
      ∀ r, (net.edge x).rev_edge = some r → r ∉ (net.node p).top_from) ∧
    (∀ j, j ≠ p → ∀ x ∈ (net.node j).top_from, x ∉ (net.node p).top_from) := by
  refine ⟨hdup p hp, ?_, ?_⟩
  · intro x hx
    obtain ⟨a, b, c⟩ := hadj.1 p hp x hx
    have hne : (net.edge x).to_node ≠ p := by
      intro e
      exact hself x a (by rw [b, e])
    refine ⟨a, c, hne, ?_⟩
    intro r hr hrL
    obtain ⟨r', _, h2, _, h4, _⟩ := hsym x a
    rw [hr] at h2
    have : r = r' := Option.some.inj h2
    subst this
    have := (hadj.1 p hp r hrL).2.1
    rw [h4] at this
    exact hne this
  · intro j hj x hx hxL
    by_cases hjl : j < net.nodes.length
    · have h1 := (hadj.1 j hjl x hx).2.1
      have h2 := (hadj.1 p hp x hxL).2.1
      exact hj (h1.symm.trans h2)
    · rw [node_out_of_range net j (by omega)] at hx
      have hx' : x ∈ ([] : List Nat) := hx
      exact absurd hx' (List.not_mem_nil x)

/-- Step 2 of a GT iteration on a well-formed network, for any value of the
factor: the self-loop weight of `p` is unchanged; an edge from `p` keeps all
its fields but the weight; a live edge to a non-eliminated node and the
self-loop of that node get the increments of step 2; an edge to an eliminated
node and the self-loop of that node are unchanged. -/
theorem gt_iteration_step2_formulas (nodemap : List (Nat × Nat)) (net : Network) (p : Nat)
    (hp : p < net.nodes.length) (hadj : adj_valid net) (hdup : adj_nodup net)
    (hsym : rev_symmetric net) (hself : no_self_edges net) (hpar : no_parallel_edges net) :
    ((gt_iteration nodemap net p).node p).t = (net.node p).t ∧
    ∀ ei, ei < net.edges.length → (net.edge ei).from_node = p → (net.edge ei).deadts = false →
      ((net.node (net.edge ei).to_node).eliminated = false →
        (gt_iteration nodemap net p).edge ei =
          { net.edge ei with
            t := (net.edge ei).t + (net.edge ei).t * (net.node p).t / calc_gt_factor net p } ∧
        ((gt_iteration nodemap net p).node (net.edge ei).to_node).t =
          (net.node (net.edge ei).to_node).t +
            (net.edge ei).t * rev_t net (net.edge ei) / calc_gt_factor net p) ∧
      ((net.node (net.edge ei).to_node).eliminated = true →
        (gt_iteration nodemap net p).edge ei = net.edge ei ∧
        ((gt_iteration nodemap net p).node (net.edge ei).to_node).t =
          (net.node (net.edge ei).to_node).t) := by
  obtain ⟨c1, c2, c3⟩ := adjacency_conditions net p hp hadj hdup hsym hself
  obtain ⟨w1, w2⟩ := gt_iteration_weights nodemap net p c1 c2 c3
  constructor
  · rw [w1 p, loop_gain_zero net _ _ p (fun x hx => (c2 x hx).2.2.1), add_zero]
  · intro ei hlen hfrom hlive
    have hmem : ei ∈ (net.node p).top_from := by
      have := (hadj.2 ei hlen).2
      rw [hfrom] at this
      exact this
    constructor
    · intro hne
      have hlt : live_target net ei = true := by
        unfold live_target; rw [hlive, hne]; rfl
      constructor
      · rw [w2 ei hmem]
        unfold scan_weight
        rw [if_pos ⟨hmem, hlt⟩]
      · rw [w1, loop_gain_single net _ _ ei c1 hmem hlt]
        intro x hx hxl hxt
        have hxd : (net.edge x).deadts = false := by
          unfold live_target at hxl
          simp only [Bool.and_eq_true, Bool.not_eq_true'] at hxl
          exact hxl.1
        exact hpar x (c2 x hx).1 ei hlen
          ⟨hxd, hlive, ((hadj.1 p hp x hx).2.1).trans hfrom.symm, hxt⟩
    · intro hel
      have hlt : live_target net ei = false := by
        unfold live_target; rw [hlive, hel]; rfl
      constructor
      · rw [w2 ei hmem]
        unfold scan_weight
        have hn : ¬ (ei ∈ (net.node p).top_from ∧ live_target net ei = true) := by
          rw [hlt]; simp
        rw [if_neg hn]
      · rw [w1, loop_gain_none, add_zero]
        intro x _ hx
        have hxl := hx.1
        unfold live_target at hxl
        simp only [Bool.and_eq_true, Bool.not_eq_true'] at hxl
        rw [hx.2, hel] at hxl
        exact absurd hxl.2 (by decide)

theorem flags_getD (net : Network) (j : Nat) :
    (flags net).getD j false = (net.node j).eliminated := by
  unfold flags Network.node
  simp only [List.getD_eq_getElem?_getD, List.getElem?_map]
  cases net.nodes[j]? <;> rfl

theorem gt_iteration_eliminated (nodemap : List (Nat × Nat)) (net : Network) (p j : Nat) :
    ((gt_iteration nodemap net p).node j).eliminated =
      if p = j ∧ j < net.nodes.length then true else (net.node j).eliminated := by
  rw [← flags_getD, gt_iteration_flags, getD_updAt, flags_getD]
  have : (flags net).length = net.nodes.length := by unfold flags; simp
  rw [this]

/-- C18: on a well-formed subnetwork (adjacency lists that hold the edges
leaving their node, each once; every edge with its reverse; no edge from a
node to itself; no parallel live edges) and for a node `p` with non-zero
factor, after `gt_iteration` on `p`: a live edge from `p` to a non-eliminated
node `j` has the weight `T_pj + T_pj * T_pp / factor` and is otherwise
unchanged, and the self-loop weight of `j` is `T_jj + T_pj * T_jp / factor`,
with `T_jp` the weight of the reverse edge; a live edge from `p` to an
eliminated node and the self-loop weight of that node are unchanged, and so is
the self-loop weight of `p`; `j` is eliminated after the call exactly if it was
before. All weights `T` are those before the call. -/
theorem gt_iteration_step2 (nodemap : List (Nat × Nat)) (net : Network) (p : Nat)
    (hp : p < net.nodes.length) (hadj : adj_valid net) (hdup : adj_nodup net)
    (hsym : rev_symmetric net) (hself : no_self_edges net) (hpar : no_parallel_edges net)
    (_hf : calc_gt_factor net p ≠ 0) :
    ((gt_iteration nodemap net p).node p).t = (net.node p).t ∧
    ∀ ei, ei < net.edges.length → (net.edge ei).from_node = p → (net.edge ei).deadts = false →
      ((gt_iteration nodemap net p).node (net.edge ei).to_node).eliminated =
        (net.node (net.edge ei).to_node).eliminated ∧
      ((net.node (net.edge ei).to_node).eliminated = false →
        (gt_iteration nodemap net p).edge ei =
          { net.edge ei with
            t := (net.edge ei).t + (net.edge ei).t * (net.node p).t / calc_gt_factor net p } ∧
        ((gt_iteration nodemap net p).node (net.edge ei).to_node).t =
          (net.node (net.edge ei).to_node).t +
            (net.edge ei).t * rev_t net (net.edge ei) / calc_gt_factor net p) ∧
      ((net.node (net.edge ei).to_node).eliminated = true →
        (gt_iteration nodemap net p).edge ei = net.edge ei ∧
        ((gt_iteration nodemap net p).node (net.edge ei).to_node).t =
          (net.node (net.edge ei).to_node).t) := by
  obtain ⟨h1, h2⟩ := gt_iteration_step2_formulas nodemap net p hp hadj hdup hsym hself hpar
  refine ⟨h1, ?_⟩
  intro ei hlen hfrom hlive
  refine ⟨?_, (h2 ei hlen hfrom hlive).1, (h2 ei hlen hfrom hlive).2⟩
  rw [gt_iteration_eliminated]
  have hne : (net.edge ei).to_node ≠ p := by
    intro e
    exact hself ei hlen (by rw [hfrom, e])
  rw [if_neg (fun c => hne c.1.symm)]

/-- Witness for C18: the subnetwork of the triangle network, node 1 (position
0) eliminated first, with factor 1. -/
theorem gt_iteration_step2_witness :
    0 < triangle_sub.nodes.length ∧ adj_valid triangle_sub ∧ adj_nodup triangle_sub ∧
    rev_symmetric triangle_sub ∧ no_self_edges triangle_sub ∧ no_parallel_edges triangle_sub ∧
    calc_gt_factor triangle_sub 0 ≠ 0 ∧
    ((gt_iteration [] triangle_sub 0).node 0).t = (triangle_sub.node 0).t ∧
    ∀ ei, ei < triangle_sub.edges.length → (triangle_sub.edge ei).from_node = 0 →
      (triangle_sub.edge ei).deadts = false →
      ((gt_iteration [] triangle_sub 0).node (triangle_sub.edge ei).to_node).eliminated =
        (triangle_sub.node (triangle_sub.edge ei).to_node).eliminated ∧
      ((triangle_sub.node (triangle_sub.edge ei).to_node).eliminated = false →
        (gt_iteration [] triangle_sub 0).edge ei =
          { triangle_sub.edge ei with
            t := (triangle_sub.edge ei).t +
              (triangle_sub.edge ei).t * (triangle_sub.node 0).t / calc_gt_factor triangle_sub 0 } ∧
        ((gt_iteration [] triangle_sub 0).node (triangle_sub.edge ei).to_node).t =
          (triangle_sub.node (triangle_sub.edge ei).to_node).t +
            (triangle_sub.edge ei).t * rev_t triangle_sub (triangle_sub.edge ei) /
              calc_gt_factor triangle_sub 0) ∧
      ((triangle_sub.node (triangle_sub.edge ei).to_node).eliminated = true →
        (gt_iteration [] triangle_sub 0).edge ei = triangle_sub.edge ei ∧
        ((gt_iteration [] triangle_sub 0).node (triangle_sub.edge ei).to_node).t =
          (triangle_sub.node (triangle_sub.edge ei).to_node).t) :=
  have h0 : 0 < triangle_sub.nodes.length := by decide!
  have h1 : adj_valid triangle_sub := by unfold adj_valid; decide!
  have h2 : adj_nodup triangle_sub := by unfold adj_nodup; decide!
  have h3 : rev_symmetric triangle_sub := by unfold rev_symmetric; decide!
  have h4 : no_self_edges triangle_sub := by unfold no_self_edges; decide!
  have h5 : no_parallel_edges triangle_sub := by unfold no_parallel_edges; decide!
  have h6 : calc_gt_factor triangle_sub 0 ≠ 0 := by decide!
  ⟨h0, h1, h2, h3, h4, h5, h6, gt_iteration_step2 [] triangle_sub 0 h0 h1 h2 h3 h4 h5 h6⟩

/-- C12 (counterexample): node 1 of the example network has self-loop weight
1 - 1e-16 and one live edge, of weight 1e-16, so its factor is 1e-16, below
1e-15. `gt_iteration` on node 1 returns a network in which node 1 is
eliminated, the weight of that edge is 1 and the self-loop weight of node 2 has
changed from 1/2 to 1. -/
theorem gt_iteration_divides_by_tiny_factor :
    calc_gt_factor near_absorbing 0 = 1 / 10000000000000000 ∧
    calc_gt_factor near_absorbing 0 < 1 / 1000000000000000 ∧
    weights near_absorbing =
      ([1 / 10000000000000000, 1 / 2], [1 - 1 / 10000000000000000, 1 / 2]) ∧
    weights (gt_iteration [] near_absorbing 0) =
      ([1, 1 / 2], [1 - 1 / 10000000000000000, 1]) ∧
    flags (gt_iteration [] near_absorbing 0) = [true, false] := by
  decide!

/-- C12 (amended): on a well-formed subnetwork, for a node `p` whose factor is
positive and below 1e-15, `gt_iteration` on `p` completes as for any other
factor: `p` is marked eliminated, every live edge from `p` to a non-eliminated
node `j` gets the weight `T_pj + T_pj * T_pp / factor`, which differs from its
weight before the call unless `T_pj` or `T_pp` is zero, and the self-loop weight
of `j` becomes `T_jj + T_pj * T_jp / factor`. -/
theorem gt_iteration_small_factor (nodemap : List (Nat × Nat)) (net : Network) (p : Nat)
    (hp : p < net.nodes.length) (hadj : adj_valid net) (hdup : adj_nodup net)
    (hsym : rev_symmetric net) (hself : no_self_edges net) (hpar : no_parallel_edges net)
    (hpos : 0 < calc_gt_factor net p) (_hsmall : calc_gt_factor net p < 1 / 1000000000000000) :
    ((gt_iteration nodemap net p).node p).eliminated = true ∧
    ∀ ei, ei < net.edges.length → (net.edge ei).from_node = p → (net.edge ei).deadts = false →
      (net.node (net.edge ei).to_node).eliminated = false →
        ((gt_iteration nodemap net p).edge ei).t =
          (net.edge ei).t + (net.edge ei).t * (net.node p).t / calc_gt_factor net p ∧
        ((net.edge ei).t ≠ 0 → (net.node p).t ≠ 0 →
          ((gt_iteration nodemap net p).edge ei).t ≠ (net.edge ei).t) ∧
        ((gt_iteration nodemap net p).node (net.edge ei).to_node).t =
          (net.node (net.edge ei).to_node).t +
            (net.edge ei).t * rev_t net (net.edge ei) / calc_gt_factor net p := by
  obtain ⟨_, h2⟩ := gt_iteration_step2_formulas nodemap net p hp hadj hdup hsym hself hpar
  constructor
  · rw [gt_iteration_eliminated, if_pos ⟨rfl, hp⟩]
  · intro ei hlen hfrom hlive hne
    obtain ⟨e1, e2⟩ := (h2 ei hlen hfrom hlive).1 hne
    refine ⟨by rw [e1], ?_, e2⟩
    intro ht hn
    rw [e1]
    show (net.edge ei).t + (net.edge ei).t * (net.node p).t / calc_gt_factor net p ≠ _
    intro hc
    have hz : (net.edge ei).t * (net.node p).t / calc_gt_factor net p = 0 := by
      linarith
    rcases div_eq_zero_iff.mp hz with h | h
    · rcases mul_eq_zero.mp h with h | h
      · exact ht h
      · exact hn h
    · exact absurd h (ne_of_gt hpos)

/-- Witness for C12 (amended): the example network with factor 1e-16. -/
theorem gt_iteration_small_factor_witness :
    0 < near_absorbing.nodes.length ∧ adj_valid near_absorbing ∧ adj_nodup near_absorbing ∧
    rev_symmetric near_absorbing ∧ no_self_edges near_absorbing ∧
    no_parallel_edges near_absorbing ∧ 0 < calc_gt_factor near_absorbing 0 ∧
    calc_gt_factor near_absorbing 0 < 1 / 1000000000000000 ∧
    ((gt_iteration [] near_absorbing 0).node 0).eliminated = true ∧
    ∀ ei, ei < near_absorbing.edges.length → (near_absorbing.edge ei).from_node = 0 →
      (near_absorbing.edge ei).deadts = false →
      (near_absorbing.node (near_absorbing.edge ei).to_node).eliminated = false →
        ((gt_iteration [] near_absorbing 0).edge ei).t =
          (near_absorbing.edge ei).t +
            (near_absorbing.edge ei).t * (near_absorbing.node 0).t /
              calc_gt_factor near_absorbing 0 ∧
        ((near_absorbing.edge ei).t ≠ 0 → (near_absorbing.node 0).t ≠ 0 →
          ((gt_iteration [] near_absorbing 0).edge ei).t ≠ (near_absorbing.edge ei).t) ∧
        ((gt_iteration [] near_absorbing 0).node (near_absorbing.edge ei).to_node).t =
          (near_absorbing.node (near_absorbing.edge ei).to_node).t +
            (near_absorbing.edge ei).t * rev_t near_absorbing (near_absorbing.edge ei) /
              calc_gt_factor near_absorbing 0 :=
  have h0 : 0 < near_absorbing.nodes.length := by decide!
  have h1 : adj_valid near_absorbing := by unfold adj_valid; decide!
  have h2 : adj_nodup near_absorbing := by unfold adj_nodup; decide!
  have h3 : rev_symmetric near_absorbing := by unfold rev_symmetric; decide!
  have h4 : no_self_edges near_absorbing := by unfold no_self_edges; decide!
  have h5 : no_parallel_edges near_absorbing := by unfold no_parallel_edges; decide!
  have h6 : 0 < calc_gt_factor near_absorbing 0 := by decide!
  have h7 : calc_gt_factor near_absorbing 0 < 1 / 1000000000000000 := by decide!
  ⟨h0, h1, h2, h3, h4, h5, h6, h7,
    gt_iteration_small_factor [] near_absorbing 0 h0 h1 h2 h3 h4 h5 h6 h7⟩

/-! ## Closed basins -/

theorem proj_updNode {β : Type} (g : Node → β) (net : Network) (i : Nat) (f : Node → Node)
    (hf : ∀ x, g (f x) = g x) : (net.updNode i f).nodes.map g = net.nodes.map g := by
  unfold Network.updNode
  exact updAt_map_of_fixed f g hf i net.nodes

theorem proj_push_new_edge {β : Type} (g : Node → β) (hg : static_field g) (net : Network)
    (t : ℚ) (a b rev : Nat) :
    (push_new_edge net t a b rev).nodes.map g = net.nodes.map g := by
  unfold push_new_edge Network.add_to_edge Network.add_from_edge
  simp only
  refine Eq.trans (proj_updNode g _ _ _ ?_) (Eq.trans (proj_updNode g _ _ _ ?_) rfl)
  · intro x; exact hg x x.t x.eliminated x.flag x.top_from (net.edges.length :: x.top_to)
  · intro x; exact hg x x.t x.eliminated x.flag (net.edges.length :: x.top_from) x.top_to

theorem proj_gt_scan_edge {β : Type} (g : Node → β) (hg : static_field g) (p : Nat)
    (factor : ℚ) (s : GTState) (ei : Nat) :
    (gt_scan_edge p factor s ei).net.nodes.map g = s.net.nodes.map g := by
  unfold gt_scan_edge
  simp only
  split
  · rfl
  · split
    · refine proj_updNode g _ _ _ ?_
      intro x; exact hg x x.t x.eliminated true x.top_from x.top_to
    · show (Network.updNode (Network.updNode _ _ _) _ _).nodes.map g = _
      refine Eq.trans (proj_updNode g _ _ _ ?_) (proj_updNode g _ _ _ ?_)
      · intro x; exact hg x _ x.eliminated x.flag x.top_from x.top_to
      · intro x; exact hg x x.t x.eliminated true x.top_from x.top_to

theorem proj_gt_pair_edge {β : Type} (g : Node → β) (old_n_edges : Nat) (factor : ℚ)
    (s : GTState) (ei : Nat) :
    (gt_pair_edge old_n_edges factor s ei).net.nodes.map g = s.net.nodes.map g := by
  unfold gt_pair_edge
  simp only
  split
  · rfl
  · split <;> rfl

theorem proj_gt_new_pair {β : Type} (g : Node → β) (hg : static_field g)
    (nodemap : List (Nat × Nat)) (factor : ℚ) (i : Nat) (s : GTState) (k : Nat) :
    (gt_new_pair nodemap factor i s k).net.nodes.map g = s.net.nodes.map g := by
  unfold gt_new_pair
  simp only
  split
  · rfl
  · split
    · rfl
    · split
      · rfl
      · show (push_new_edge (push_new_edge _ _ _ _ _) _ _ _ _).nodes.map g = _
        rw [proj_push_new_edge g hg, proj_push_new_edge g hg]

theorem proj_fold {β σ : Type} (g : Node → β) (net_of : σ → Network) (step : σ → Nat → σ)
    (h : ∀ s x, (net_of (step s x)).nodes.map g = (net_of s).nodes.map g) (l : List Nat) :
    ∀ s, (net_of (l.foldl step s)).nodes.map g = (net_of s).nodes.map g := by
  induction l with
  | nil => intro s; rfl
  | cons a l ih =>
    intro s
    rw [List.foldl_cons, ih, h]

theorem proj_gt_neighbour {β : Type} (g : Node → β) (hg : static_field g)
    (nodemap : List (Nat × Nat)) (old_n_edges : Nat) (factor : ℚ) (s : GTState) (i : Nat) :
    (gt_neighbour nodemap old_n_edges factor s i).net.nodes.map g = s.net.nodes.map g := by
  unfold gt_neighbour
  have h1 := proj_fold g (fun s : GTState => s.net) (gt_pair_edge old_n_edges factor)
    (proj_gt_pair_edge g old_n_edges factor) (s.net.node i).top_from s
  simp only at h1 ⊢
  split
  · exact h1
  · rw [proj_fold g (fun s : GTState => s.net) (gt_new_pair nodemap factor i)
      (proj_gt_new_pair g hg nodemap factor i)]
    exact h1

/-- A GT iteration changes no quantity of a node other than its self-loop
weight, its flags and its adjacency lists. -/
theorem proj_gt_iteration {β : Type} (g : Node → β) (hg : static_field g)
    (nodemap : List (Nat × Nat)) (net : Network) (p : Nat) :
    (gt_iteration nodemap net p).nodes.map g = net.nodes.map g := by
  unfold gt_iteration
  simp only
  refine Eq.trans (proj_updNode g _ _ _ ?_) ?_
  · intro x; exact hg x x.t true x.flag x.top_from x.top_to
  unfold reset_flags
  have hreset : ∀ (s : Network) (x : Nat),
      (s.updNode (s.edge x).to_node (fun n => { n with flag := false })).nodes.map g =
        s.nodes.map g := by
    intro s x
    refine proj_updNode g _ _ _ ?_
    intro y; exact hg y y.t y.eliminated false y.top_from y.top_to
  rw [proj_fold g (fun n : Network => n)
    (fun nt ei => nt.updNode (nt.edge ei).to_node (fun n => { n with flag := false })) hreset]
  rw [proj_fold g (fun s : GTState => s.net) _ (proj_gt_neighbour g hg nodemap _ _)]
  rw [proj_fold g (fun s : GTState => s.net) _ (proj_gt_scan_edge g hg p _)]

theorem node_of_proj {β : Type} (g : Node → β) (n1 n2 : Network)
    (h : n1.nodes.map g = n2.nodes.map g) (j : Nat) (hj : j < n2.nodes.length) :
    g (n1.node j) = g (n2.node j) := by
  have hl : n1.nodes.length = n2.nodes.length := by
    have := congrArg List.length h
    simpa using this
  have h1 : (n1.nodes.map g)[j]? = (n2.nodes.map g)[j]? := by rw [h]
  rw [List.getElem?_map, List.getElem?_map, List.getElem?_eq_getElem (by omega),
    List.getElem?_eq_getElem hj] at h1
  simp only [Option.map_some', Option.some.injEq] at h1
  unfold Network.node
  rw [List.getD_eq_getElem?_getD, List.getD_eq_getElem?_getD,
    List.getElem?_eq_getElem (by omega), List.getElem?_eq_getElem hj]
  exact h1

theorem gt_new_pair_targets (L : Nat) (nodemap : List (Nat × Nat)) (factor : ℚ) (i : Nat)
    (s : GTState) (k : Nat) (hmap : ∀ k, map_get 0 nodemap k < L)
    (h : ∀ x ∈ links s.net, x.2.2 < L) :
    ∀ x ∈ links (gt_new_pair nodemap factor i s k).net, x.2.2 < L := by
  unfold gt_new_pair
  simp only
  split
  · exact h
  · split
    · exact h
    · split
      · exact h
      · show ∀ x ∈ links (push_new_edge (push_new_edge _ _ _ _ _) _ _ _ _), x.2.2 < L
        rw [links_push_new_edge, links_push_new_edge]
        intro x hx
        rcases List.mem_append.mp hx with hx | hx
        · rcases List.mem_append.mp hx with hx | hx
          · exact h x hx
          · rw [List.mem_singleton.mp hx]; exact hmap _
        · rw [List.mem_singleton.mp hx]; exact hmap _

theorem gt_neighbour_targets (L : Nat) (nodemap : List (Nat × Nat)) (old_n_edges : Nat)
    (factor : ℚ) (s : GTState) (i : Nat) (hmap : ∀ k, map_get 0 nodemap k < L)
    (h : ∀ x ∈ links s.net, x.2.2 < L) :
    ∀ x ∈ links (gt_neighbour nodemap old_n_edges factor s i).net, x.2.2 < L := by
  unfold gt_neighbour
  have h1 : ∀ x ∈ links ((s.net.node i).top_from.foldl
      (gt_pair_edge old_n_edges factor) s).net, x.2.2 < L := by
    rw [gt_pair_fold_links]; exact h
  simp only
  split
  · exact h1
  · exact foldl_preserves (fun x : GTState => ∀ y ∈ links x.net, y.2.2 < L)
      (gt_new_pair nodemap factor i) _
      (fun x k _ hx => gt_new_pair_targets L nodemap factor i x k hmap hx) _ h1

theorem gt_iteration_targets (L : Nat) (nodemap : List (Nat × Nat)) (net : Network) (p : Nat)
    (hmap : ∀ k, map_get 0 nodemap k < L) (h : ∀ x ∈ links net, x.2.2 < L) :
    ∀ x ∈ links (gt_iteration nodemap net p), x.2.2 < L := by
  unfold gt_iteration
  simp only
  rw [links_updNode]
  unfold reset_flags
  rw [reset_fold_links]
  refine foldl_preserves (fun x : GTState => ∀ y ∈ links x.net, y.2.2 < L)
    (gt_neighbour nodemap _ _) _
    (fun x i _ hx => gt_neighbour_targets L nodemap _ _ x i hmap hx) _ ?_
  show ∀ y ∈ links (List.foldl (gt_scan_edge p (calc_gt_factor net p)) { net := net }
    (net.node p).top_from).net, y.2.2 < L
  rw [gt_scan_fold_links]
  exact h

theorem comm_id_static : static_field (fun n : Node => n.comm_id) :=
  fun _ _ _ _ _ _ => rfl

theorem closednet_gt_iteration (c : Int) (L : Nat) (nodemap : List (Nat × Nat)) (net : Network)
    (p : Nat) (hmap : ∀ k, map_get 0 nodemap k < L) (h : ClosedNet c L net) :
    ClosedNet c L (gt_iteration nodemap net p) := by
  obtain ⟨h1, h2, h3⟩ := h
  have hproj := proj_gt_iteration (fun n : Node => n.comm_id) comm_id_static nodemap net p
  refine ⟨?_, ?_, gt_iteration_targets L nodemap net p hmap h3⟩
  · have := congrArg List.length hproj
    simp only [List.length_map] at this
    rw [this, h1]
  · intro j hj
    have := node_of_proj (fun n : Node => n.comm_id) _ _ hproj j (by rw [h1]; exact hj)
    simp only at this
    rw [this]
    exact h2 j hj

theorem gt_loop_closed (c : Int) (L : Nat) : ∀ (gt_pq : List Nat) (st : State),
    (∀ k, map_get 0 st.nodemap k < L) → ClosedNet c L st.ktn_kps →
    ClosedNet c L (gt_loop gt_pq st).ktn_kps ∧
    (gt_loop gt_pq st).ktn_kps_orig = st.ktn_kps_orig := by
  intro gt_pq
  induction gt_pq with
  | nil => intro st _ h; exact ⟨h, rfl⟩
  | cons a q ih =>
    intro st hmap h
    by_cases hlt : (st.N : Int) < st.nelim
    · have e : gt_loop (a :: q) st = gt_loop q
          { st with
            ktn_kps := gt_iteration st.nodemap st.ktn_kps st.N
            basin := { st.basin with
              basin_ids := st.basin.basin_ids.set
                (((gt_iteration st.nodemap st.ktn_kps st.N).node st.N).node_id - 1) 1 }
            eliminated_nodes := st.eliminated_nodes ++ [st.N]
            N := st.N + 1 } := by
        simp only [gt_loop, hlt, if_true]
      rw [e]
      exact ih _ hmap (closednet_gt_iteration c L st.nodemap st.ktn_kps st.N hmap h)
    · have e : gt_loop (a :: q) st = st := by
        simp only [gt_loop, hlt, if_false]
      rw [e]
      exact ⟨h, rfl⟩

theorem map_get_default_or_mem {β : Type} (d : β) : ∀ (M : List (Nat × β)) (k : Nat),
    map_get d M k = d ∨ (k, map_get d M k) ∈ M := by
  intro M
  induction M with
  | nil => intro k; exact Or.inl rfl
  | cons a M ih =>
    intro k
    obtain ⟨k', v'⟩ := a
    unfold map_get
    by_cases h : k = k'
    · rw [if_pos h]
      right
      rw [h]
      exact List.mem_cons_self _ _
    · rw [if_neg h]
      rcases ih k with h1 | h1
      · exact Or.inl h1
      · exact Or.inr (List.mem_cons_of_mem _ h1)

theorem map_get_target_lt (ks : List Nat) (h : 0 < ks.length) (k : Nat) :
    map_get 0 (target_map ks) k < ks.length := by
  rcases map_get_default_or_mem 0 (target_map ks) k with h1 | h1
  · rw [h1]; exact h
  · have := mem_target_map ks _ h1
    simp only at this
    exact (List.getElem?_eq_some_iff.mp this).1

theorem copy_edge_targets (ktn : Network) (L : Nat) (s : SubBuild) (ei : Nat)
    (hmap : ∀ k, map_get 0 s.nodemap k < L) (h : ∀ e ∈ s.net.edges, e.to_node < L) :
    ∀ e ∈ (copy_edge ktn s ei).net.edges, e.to_node < L := by
  have hpush : ∀ (net : Network) (x : Edge) (m : Nat) (r : Option Nat),
      (∀ e ∈ net.edges, e.to_node < L) →
      ∀ e ∈ (push_edge net (sub_edge ktn s.nodemap x m r)).edges, e.to_node < L := by
    intro net x m r hn e he
    rw [push_edge_edges] at he
    rcases List.mem_append.mp he with he | he
    · exact hn e he
    · rw [List.mem_singleton.mp he]
      exact hmap _
  unfold copy_edge
  simp only
  split
  · exact h
  · split
    · exact hpush _ _ _ _ h
    · split
      · exact hpush _ _ _ _ h
      · exact hpush _ _ _ _ (hpush _ _ _ _ h)

theorem copy_edges_of_targets (ktn : Network) (c : Int) (L : Nat) (nm : List (Nat × Nat))
    (hmap : ∀ k, map_get 0 nm k < L) (s : SubBuild) (i : Nat)
    (h : s.nodemap = nm ∧ ∀ e ∈ s.net.edges, e.to_node < L) :
    (copy_edges_of ktn c s i).nodemap = nm ∧
    ∀ e ∈ (copy_edges_of ktn c s i).net.edges, e.to_node < L := by
  unfold copy_edges_of
  simp only
  split
  · exact h
  · exact foldl_preserves
      (fun x : SubBuild => x.nodemap = nm ∧ ∀ e ∈ x.net.edges, e.to_node < L)
      (copy_edge ktn) _
      (fun x ei _ hx => ⟨((copy_edge_frame ktn x ei).2.2.2.2).trans hx.1,
        copy_edge_targets ktn L x ei (by rw [hx.1]; exact hmap) hx.2⟩) _ h

/-- The subnetwork of a closed basin: for the classifier's labelling with no
absorbing boundary node, the network `get_subnetwork` returns has only nodes of
the community `c`, and its edges point to these nodes. -/
theorem closed_subnetwork (ktn : Network) (c : Int) (sub : Network) (nm : List (Nat × Nat))
    (eps : Nat) (hid : ids_in_order ktn) (hval : targets_valid ktn)
    (heps : eps < ktn.nodes.length) (hc : (ktn.node eps).comm_id = c)
    (hclosed : (classify ktn c).N_c = 0)
    (h : get_subnetwork ktn c (classify ktn c) [] = .ok (sub, nm)) :
    0 < sub.nodes.length ∧ (∀ k, map_get 0 nm k < sub.nodes.length) ∧
    ClosedNet c sub.nodes.length sub := by
  obtain ⟨i1, i2, i3, i4, i5, i6⟩ := classify_inv ktn c hid hval
  obtain ⟨_, hdata, hL⟩ := first_call ktn c sub nm hid hval h
  obtain ⟨hsub, hnm, _, _⟩ := get_subnetwork_ok ktn c _ _ sub nm h
  obtain ⟨b1, b2⟩ := build_closed_form ktn c [] hid hval (Or.inl rfl)
  have hlen : (labelled (classify ktn c).basin_ids ktn.nodes.length).length =
      sub.nodes.length := by rw [hL, b1]
  have hmemeps : eps ∈ labelled (classify ktn c).basin_ids ktn.nodes.length := by
    rw [mem_labelled]
    refine ⟨heps, ?_⟩
    rw [(i2 eps).mpr ⟨heps, hc⟩]
    decide
  have hpos : 0 < sub.nodes.length := by
    rw [← hlen]
    exact List.length_pos_of_mem hmemeps
  have hnmval : nm = target_map (labelled (classify ktn c).basin_ids ktn.nodes.length) := by
    rw [hnm, b2]
    exact (copy_edges_of_frame ktn c _ _).2.2.2.2
  have hmap : ∀ k, map_get 0 nm k < sub.nodes.length := by
    intro k
    rw [hnmval, ← hlen]
    exact map_get_target_lt _ (by rw [hlen]; exact hpos) k
  refine ⟨hpos, hmap, rfl, ?_, ?_⟩
  · intro j hj
    have hj' : j < (labelled (classify ktn c).basin_ids ktn.nodes.length).length := by
      rw [hlen]; exact hj
    have hget : (labelled (classify ktn c).basin_ids ktn.nodes.length)[j]? =
        some ((labelled (classify ktn c).basin_ids ktn.nodes.length)[j]) :=
      List.getElem?_eq_getElem hj'
    have hcopy := node_at ktn sub _ hdata j _ hget
    have hcm : (sub.node j).comm_id =
        (ktn.node ((labelled (classify ktn c).basin_ids ktn.nodes.length)[j])).comm_id := by
      have h3 := congrArg Node.comm_id hcopy
      exact h3
    rw [hcm]
    have hmem : (labelled (classify ktn c).basin_ids ktn.nodes.length)[j] ∈
        labelled (classify ktn c).basin_ids ktn.nodes.length := List.getElem_mem _
    rw [mem_labelled] at hmem
    obtain ⟨hlt, hne⟩ := hmem
    rcases i4 ((labelled (classify ktn c).basin_ids ktn.nodes.length)[j]) with h0 | h2 | h3
    · exact absurd h0 hne
    · exact ((i2 _).mp h2).2
    · exfalso
      have hcount : (classify ktn c).basin_ids.count 3 = 0 := by rw [← i6]; exact hclosed
      have hnot : 3 ∉ (classify ktn c).basin_ids := List.count_eq_zero.mp hcount
      apply hnot
      have hlt' : (labelled (classify ktn c).basin_ids ktn.nodes.length)[j] <
          (classify ktn c).basin_ids.length := by rw [i1]; exact hlt
      rw [List.getD_eq_getElem?_getD, List.getElem?_eq_getElem hlt'] at h3
      simp only [Option.getD_some] at h3
      rw [← h3]
      exact List.getElem_mem _
  · have hfold := foldl_preserves
      (fun x : SubBuild => x.nodemap = nm ∧ ∀ e ∈ x.net.edges, e.to_node < sub.nodes.length)
      (copy_edges_of ktn c) (labelled (classify ktn c).basin_ids ktn.nodes.length)
      (fun x i _ hx => copy_edges_of_targets ktn c sub.nodes.length nm hmap x i hx)
      { net := { Network.mk_sized ((classify ktn c).N_B + (classify ktn c).N_c)
                   (classify ktn c).N_e with
                 nodes := copied_nodes ktn
                   (labelled (classify ktn c).basin_ids ktn.nodes.length)
                   ((classify ktn c).N_B + (classify ktn c).N_c) },
        nodemap := target_map (labelled (classify ktn c).basin_ids ktn.nodes.length) }
      ⟨hnmval.symm, by
        intro e he
        have he' : e ∈ ([] : List Edge) := he
        exact absurd he' (List.not_mem_nil e)⟩
    rw [← b2, ← hsub] at hfold
    intro x hx
    unfold links at hx
    obtain ⟨e, he, hxe⟩ := List.mem_map.mp hx
    rw [← hxe]
    exact hfold.2 e he

theorem closed_edge_target (c : Int) (L : Nat) (net : Network) (h : ClosedNet c L net)
    (hpos : 0 < L) (ei : Nat) : (net.edge ei).to_node < L := by
  by_cases hlt : ei < net.edges.length
  · have hm := links_getElem? net ei hlt
    obtain ⟨hl, hv⟩ := List.getElem?_eq_some_iff.mp hm
    exact h.2.2 _ (hv ▸ List.getElem_mem hl)
  · have : net.edge ei = default := by
      unfold Network.edge
      rw [List.getD_eq_getElem?_getD, List.getElem?_eq_none (by omega)]
      rfl
    rw [this]
    exact hpos

theorem sample_edges_target (net : Network) (nonelimd : Bool) (node_t factor rand_no : ℚ)
    (nxt : Nat) : ∀ (l : List Nat) (cum : ℚ),
    (sample_edges net nonelimd node_t factor rand_no l cum).2 = some nxt →
    ∃ ei, nxt = (net.edge ei).to_node := by
  intro l
  induction l with
  | nil =>
    intro cum h
    simp [sample_edges] at h
  | cons ei rest ih =>
    intro cum h
    rw [sample_edges] at h
    split_ifs at h
    all_goals first
      | exact ih _ h
      | (simp only at h
         split at h
         · simp only [Option.some.injEq] at h
           exact ⟨ei, h.symm⟩
         · exact ih _ h)

theorem sample_step_closed (c : Int) (L : Nat) (st : State) (first : Bool) (curr nd : Node)
    (u : ℚ) (hpos : 0 < L) (h1 : ClosedNet c L st.ktn_kps) (h2 : ClosedNet c L st.ktn_kps_orig)
    (h : sample_step st first curr u = .ok nd) : nd.comm_id = c := by
  unfold sample_step at h
  simp only at h
  split at h
  · split at h
    · cases h
    · split at h
      · cases h
      · rename_i nxt hn
        split at h
        · cases h
        · injection h with h
          obtain ⟨ei, hei⟩ := sample_edges_target _ _ _ _ _ nxt _ _ hn
          rw [← h, hei]
          exact h1.2.1 _ (closed_edge_target c L _ h1 hpos ei)
  · split at h
    · split at h
      · cases h
      · split at h
        · cases h
        · rename_i nxt hn
          split at h
          · cases h
          · injection h with h
            obtain ⟨ei, hei⟩ := sample_edges_target _ _ _ _ _ nxt _ _ hn
            rw [← h, hei]
            exact h2.2.1 _ (closed_edge_target c L _ h2 hpos ei)
    · cases h

theorem sample_loop_closed (orc : Oracle) (c : Int) (L : Nat) (st : State) (hpos : 0 < L)
    (h1 : ClosedNet c L st.ktn_kps) (h2 : ClosedNet c L st.ktn_kps_orig) :
    ∀ (fuel : Nat) (first : Bool) (curr : Node) (n : Nat) (r : Node × Nat),
      sample_loop orc st c fuel first curr n ≠ .ok r := by
  intro fuel
  induction fuel with
  | zero =>
    intro first curr n r h
    simp [sample_loop] at h
  | succ fuel ih =>
    intro first curr n r h
    unfold sample_loop at h
    split at h
    · cases h
    · rename_i nxt hs
      have hc := sample_step_closed c L st first curr nxt _ hpos h1 h2 hs
      rw [if_pos hc] at h
      exact ih _ _ _ _ h

/-- C11 (counterexample): the closed cycle of four nodes is well formed, every
row sums to 1, and the classifier finds no absorbing boundary node. From node 4
the macro-step does not report a closed basin: with `nelim = 2` it stops with
the fatal GT error of `sample_absorbing_node` (the second pass of the walk, at
the eliminated node 1, selects no edge); with `nelim = 4` the first pass selects
no edge and line 180 tests the uninitialised `next_node`; with `nelim = 0` a
walk of ten steps has not left the community; with `nelim = -1` line 112 throws
the length error. On the closed triangle, from node 1, the classifier finds no
absorbing boundary node either; with `nelim = 3` the first pass selects no
edge, and with `nelim = 0` a walk of ten steps has not left the community. -/
theorem closed_basin_not_reported :
    ids_in_order closed_square ∧ adj_valid closed_square ∧ edges_paired closed_square ∧
    udeg_counts closed_square ∧ (List.range 4).all (fun p => row_sum closed_square p = 1) ∧
    (setup_basin_sets orc0 closed_square (start_at 3 2)).map (fun st => st.basin) =
      .ok { basin_ids := [2, 2, 2, 2], N_B := 4, N_c := 0, N_e := 8 } ∧
    macro_step orc0 closed_square 10 (start_at 3 2) = .error .gt_error ∧
    macro_step orc0 closed_square 10 (start_at 3 4) = .error .uninitialised_next_node ∧
    macro_step orc0 closed_square 10 (start_at 3 0) = .error .out_of_steps ∧
    macro_step orc0 closed_square 10 (start_at 3 (-1)) = .error .length_error ∧
    (setup_basin_sets orc0 closed3 (start_at 0 3)).map (fun st => st.basin) =
      .ok { basin_ids := [2, 2, 2], N_B := 3, N_c := 0, N_e := 6 } ∧
    macro_step orc0 closed3 10 (start_at 0 3) = .error .uninitialised_next_node ∧
    macro_step orc0 closed3 10 (start_at 0 0) = .error .out_of_steps := by
  refine ⟨?_, ?_, ?_, ?_, ?_, ?_, ?_, ?_, ?_, ?_, ?_, ?_, ?_⟩ <;> decide!

/-- C11 (amended): for a network that stores node id i+1 at position i and a
current node `eps` for which the classifier finds no absorbing boundary node
(`N_c = 0`), no execution of the macro-step completes with a sampled node,
whatever the number of steps allowed to the categorical walk. Every execution
ends in a `Failure`: the exception of line 112, one of the fatal exits, a walk
of `sample_absorbing_node` that has not left the community within the steps
allowed, or undefined behaviour (the test of the uninitialised `next_node` at
line 180, an index past the end of the node array), after which the source
determines nothing. -/
theorem closed_basin_no_defined_return (orc : Oracle) (ktn : Network) (st : State) (eps : Nat)
    (hid : ids_in_order ktn) (hval : targets_valid ktn) (heps : st.epsilon = some eps)
    (hin : eps < ktn.nodes.length) (hbins : st.adaptivebins = false)
    (hclosed : (classify ktn (ktn.node eps).comm_id).N_c = 0) :
    ∀ (fuel : Nat), ∃ f : Failure, macro_step orc ktn fuel st = .error f := by
  intro fuel
  cases hm : macro_step orc ktn fuel st with
  | error f => exact ⟨f, rfl⟩
  | ok r =>
    exfalso
    have h := hm
    by_cases hneg : st.nelim < 0
    · unfold macro_step at h
      rw [setup_basin_sets_negative orc ktn st eps heps hneg] at h
      cases h
    · have hset := setup_basin_sets_eq orc ktn st eps heps hbins (not_lt.mp hneg)
      unfold macro_step at h
      rw [hset] at h
      simp only [heps] at h
      split at h
      · cases h
      · rename_i st2 hgt
        split at h
        · cases h
        · rename_i nd st3 hsam
          unfold graph_transformation at hgt
          simp only at hgt
          split at hgt
          · cases hgt
          · rename_i sub nm hfirst
            obtain ⟨hpos, hmap, hcl⟩ := closed_subnetwork ktn _ sub nm eps hid hval hin rfl
              hclosed hfirst
            obtain ⟨hsecond, _, _⟩ := first_call ktn _ sub nm hid hval hfirst
            rw [hsecond] at hgt
            simp only at hgt
            split at hgt
            · cases hgt
            · injection hgt with hgt
              have key : ∀ (q : List Nat) (s0 : State), s0.nodemap = nm → s0.ktn_kps = sub →
                  s0.ktn_kps_orig = sub → gt_loop q s0 = st2 →
                  ClosedNet (ktn.node eps).comm_id sub.nodes.length st2.ktn_kps ∧
                  st2.ktn_kps_orig = sub := by
                intro q s0 e1 e2 e3 e4
                have g := gt_loop_closed (ktn.node eps).comm_id sub.nodes.length q s0
                  (by rw [e1]; exact hmap) (by rw [e2]; exact hcl)
                rw [e4, e3] at g
                exact g
              obtain ⟨g1, g2⟩ := key _ _ rfl rfl rfl hgt
              unfold sample_absorbing_node at hsam
              simp only at hsam
              split at hsam
              · cases hsam
              · split at hsam
                · cases hsam
                · rename_i nd' n' hloop
                  exact sample_loop_closed orc _ sub.nodes.length st2 hpos g1
                    (by rw [g2]; exact hcl) _ _ _ _ _ hloop

/-- Witness for C11 (amended): the closed cycle of four nodes with the current
node at position 3 and `nelim = 2`. -/
theorem closed_basin_no_defined_return_witness :
    ids_in_order closed_square ∧ targets_valid closed_square ∧
    (start_at 3 2).epsilon = some 3 ∧
    3 < closed_square.nodes.length ∧ (start_at 3 2).adaptivebins = false ∧
    (classify closed_square (closed_square.node 3).comm_id).N_c = 0 ∧
    ∀ (fuel : Nat), ∃ f : Failure, macro_step orc0 closed_square fuel (start_at 3 2) = .error f :=
  have h1 : ids_in_order closed_square := by unfold ids_in_order; decide!
  have h2 : targets_valid closed_square := by unfold targets_valid; decide!
  have h3 : 3 < closed_square.nodes.length := by decide!
  have h4 : (classify closed_square (closed_square.node 3).comm_id).N_c = 0 := by decide!
  ⟨h1, h2, rfl, h3, rfl, h4,
    closed_basin_no_defined_return orc0 closed_square (start_at 3 2) 3 h1 h2 rfl h3 rfl h4⟩

/-! ## The starting node for a source macrostate of 1000 nodes -/

/-- When B has exactly 1000 nodes the starting node is the first node of B,
whatever the uniform draws are (line 57). -/
theorem choose_epsilon_thousand (orc : Oracle) (ktn : Network) (st : State)
    (h1 : st.epsilon = none) (h2 : st.initcond = false) (h3 : ktn.nodesB.length = 1000) :
    (choose_epsilon orc ktn st).epsilon = ktn.nodesB.head? ∧
    (choose_epsilon orc ktn st).n_unif = st.n_unif := by
  unfold choose_epsilon
  rw [h1]
  simp only [h2, h3, Bool.false_eq_true, if_false, if_true]
  exact ⟨trivial, trivial⟩

/-! ## The categorical walk of `sample_absorbing_node` -/

/-- C21 (failing input): in the example network with current node 2 and
`nelim = 1`, node 1 is eliminated (basin id 1); it is flagged in the
transformed subnetwork and not in the untransformed copy. The current node 2 is
not eliminated, so its edges are read from the untransformed copy, where its
only edge, to node 1, is not skipped: the first step of the walk selects it,
the walk stands on the eliminated node 1 and goes on from there to node 3. -/
theorem sample_step_selects_eliminated_node :
    ids_in_order hub3 ∧ adj_valid hub3 ∧ edges_paired hub3 ∧ udeg_counts hub3 ∧
    (List.range 3).all (fun p => row_sum hub3 p = 1) ∧
    (basin_pass hub3 1 1).map (fun st => (st.basin.basin_ids, st.eliminated_nodes)) =
      .ok ([1, 2, 3], [0]) ∧
    (basin_pass hub3 1 1).map (fun st => (flags st.ktn_kps, flags st.ktn_kps_orig)) =
      .ok ([true, false, false], [false, false, false]) ∧
    (basin_pass hub3 1 1).map (fun st =>
      ((st.ktn_kps.node (map_get 0 st.nodemap 1)).node_id, nbrs_of st.ktn_kps_orig 1)) =
      .ok (2, [(0, false, false, 1)]) ∧
    (basin_pass hub3 1 1).bind (fun st =>
      (sample_step st true (st.ktn_kps.node (map_get 0 st.nodemap 1)) (1 / 2)).map (fun n =>
        (n.node_id, st.basin.basin_ids.getD (n.node_id - 1) 0))) = .ok (1, 1) ∧
    (macro_step orc0 hub3 10 (start_at 1 1)).map (fun r => r.2.2.epsilon) = .ok (some 2) := by
  refine ⟨?_, ?_, ?_, ?_, ?_, ?_, ?_, ?_, ?_, ?_⟩ <;> decide!

/-- C23 (failing input): in the example network the basin of node 3 is
{3, 4} with boundary node 2, and node 1 is outside, so the subnetwork holds the
nodes 2, 3, 4 at the positions 0, 1, 2. Started at node 3, the walk stands on
the entry at position 1 (id 3) and reads the adjacency list of the entry at
position `node_id - 1 = 2`, which is node 4; the walk then never leaves the
community. Started at node 4 it reads position 3 of a sequence of 3 nodes, past
the end. -/
theorem sample_step_reads_wrong_entry :
    ids_in_order offset_basin ∧ adj_valid offset_basin ∧ edges_paired offset_basin ∧
    udeg_counts offset_basin ∧
    (basin_pass offset_basin 2 0).map (fun st => (st.basin.basin_ids, st.nodemap)) =
      .ok ([0, 3, 2, 2], [(1, 0), (2, 1), (3, 2)]) ∧
    (basin_pass offset_basin 2 0).map (fun st =>
      (st.ktn_kps.nodes.map (fun n => n.node_id),
       st.ktn_kps_orig.nodes.map (fun n => n.node_id))) = .ok ([2, 3, 4], [2, 3, 4]) ∧
    (basin_pass offset_basin 2 0).map (fun st =>
      ((st.ktn_kps.node (map_get 0 st.nodemap 2)).node_id,
       (st.ktn_kps.node (map_get 0 st.nodemap 2)).node_id - 1,
       (st.ktn_kps_orig.node ((st.ktn_kps.node (map_get 0 st.nodemap 2)).node_id - 1)).node_id)) =
      .ok (3, 2, 4) ∧
    (basin_pass offset_basin 2 0).bind (fun st =>
      (sample_step st true (st.ktn_kps.node (map_get 0 st.nodemap 2)) (1 / 2)).map
        (fun n => n.node_id)) = .ok 3 ∧
    macro_step orc0 offset_basin 10 (start_at 2 0) = .error .out_of_steps ∧
    (basin_pass offset_basin 3 0).map (fun st =>
      ((st.ktn_kps.node (map_get 0 st.nodemap 3)).node_id,
       (st.ktn_kps.node (map_get 0 st.nodemap 3)).node_id - 1,
       st.ktn_kps_orig.nodes.length)) = .ok (4, 3, 3) ∧
    macro_step orc0 offset_basin 10 (start_at 3 0) = .error .out_of_bounds := by
  refine ⟨?_, ?_, ?_, ?_, ?_, ?_, ?_, ?_, ?_, ?_, ?_⟩ <;> decide!

/-! ## The two branches of `calc_gt_factor` -/

theorem factor_fold_eq_sum (net : Network) : ∀ (l : List Nat) (acc : ℚ),
    l.foldl (fun factor ei =>
      let e := net.edge ei
      if ¬ (e.deadts ∨ (net.node e.to_node).eliminated) then factor + e.t else factor) acc =
    acc + (l.map (fun ei =>
      let e := net.edge ei
      if e.deadts ∨ (net.node e.to_node).eliminated then 0 else e.t)).sum := by
  intro l
  induction l with
  | nil => intro acc; simp
  | cons a l ih =>
    intro acc
    rw [List.foldl_cons, ih, List.map_cons, List.sum_cons]
    simp only
    by_cases h : (net.edge a).deadts = true ∨ (net.node (net.edge a).to_node).eliminated = true
    · rw [if_neg (not_not.mpr h), if_pos h]; ring
    · rw [if_pos h, if_neg h]; ring

theorem calc_gt_factor_cases (net : Network) (p : Nat) :
    calc_gt_factor net p =
      if (net.node p).t > 999 / 1000 then factor_by_edges net p else factor_spec net p := rfl

/-- C22: for a node whose row is stochastic (its self-loop weight plus the
weights of its live edges to non-eliminated nodes is 1), the sum of edge
weights that `calc_gt_factor` returns when `T_nn > 0.999` equals `1 - T_nn`,
the value it returns otherwise; so `calc_gt_factor` returns `1 - T_nn` in both
branches. -/
theorem calc_gt_factor_branches_agree (net : Network) (p : Nat) (h : row_sum net p = 1) :
    factor_by_edges net p = factor_spec net p ∧ calc_gt_factor net p = factor_spec net p := by
  have h1 : factor_by_edges net p = factor_spec net p := by
    unfold factor_by_edges factor_spec
    rw [factor_fold_eq_sum, zero_add]
    unfold row_sum at h
    linarith
  refine ⟨h1, ?_⟩
  rw [calc_gt_factor_cases]
  split
  · exact h1
  · rfl

/-- Witness for C22: node 1 of the example network with self-loop weight
1 - 1e-16, for which the first branch is taken. -/
theorem calc_gt_factor_branches_agree_witness :
    row_sum near_absorbing 0 = 1 ∧ (near_absorbing.node 0).t > 999 / 1000 ∧
    factor_by_edges near_absorbing 0 = factor_spec near_absorbing 0 ∧
    calc_gt_factor near_absorbing 0 = factor_spec near_absorbing 0 :=
  have h : row_sum near_absorbing 0 = 1 := by decide!
  ⟨h, by decide!, calc_gt_factor_branches_agree near_absorbing 0 h⟩

end KPS
